import Mathlib

set_option linter.unusedVariables false

/-!
Verification of xv6-riscv-rust against its natural-language specification.

Each section embeds part of the kernel's Rust source shallowly in Lean:
pure functions become Lean functions, stateful code becomes explicit state
passing, machine integers become `Nat` with explicit `% 2^w` where overflow
matters, panics become `Option.none`, and fallible code returns `Except`.
-/

/-!
## Spinlock interrupt bookkeeping (src/spinlock.rs, src/process/cpu.rs)

A hart's interrupt/spinlock state: `noff` and `intena` are the fields of
`Cpu` (cpu.rs), `intr` is the sstatus interrupt-enable bit, and
`locksHeld` counts the spinlocks currently held by the hart (in the source
this is implicit: each held `SpinLockGuard` contributes one).
-/

structure HartState where
  noff : Nat
  intena : Bool
  intr : Bool
  locksHeld : Nat
  deriving Repr, DecidableEq

/-- `push_off` (spinlock.rs lines 104-108 composed with cpu.rs `push_off`
lines 178-187): remember the interrupt state on the first nesting level,
disable interrupts, bump the nesting counter. -/
def pushOff (s : HartState) : HartState :=
  { s with
    intr := false
    intena := if s.noff = 0 then s.intr else s.intena
    noff := s.noff + 1 }

/-- `pop_off` (spinlock.rs lines 110-117 composed with cpu.rs `pop_off`
lines 189-203): panic (`none`) if interrupts are on or the counter is
already zero; otherwise decrement, and re-enable interrupts exactly when
the counter returns to zero and `intena` was recorded true. -/
def popOff (s : HartState) : Option HartState :=
  if s.intr then none
  else if s.noff = 0 then none
  else
    some { s with noff := s.noff - 1,
                  intr := decide (s.noff - 1 = 0) && s.intena }

/-- `SpinLock::acquire_lock` (spinlock.rs lines 51-64): `push_off`, then
take the lock (the CAS loop and the holding-check are summarized by the
`locksHeld` increment; re-acquisition panics are not modelled as a state). -/
def lockAcquire (s : HartState) : HartState :=
  let s := pushOff s
  { s with locksHeld := s.locksHeld + 1 }

/-- `SpinLock::release_lock` (spinlock.rs lines 90-98): panic if no lock is
held, otherwise drop the lock and `pop_off`. -/
def lockRelease (s : HartState) : Option HartState :=
  if s.locksHeld = 0 then none
  else popOff { s with locksHeld := s.locksHeld - 1 }

/-- One hart-local step: acquiring or (successfully) releasing a spinlock. -/
inductive HartStep : HartState → HartState → Prop where
  | acquire (s : HartState) : HartStep s (lockAcquire s)
  | release (s s' : HartState) (h : lockRelease s = some s') : HartStep s s'

/-- Boot state of a hart: `Cpu::new()` zeroes `noff` and `intena`; no
spinlock is held; the interrupt bit is arbitrary. -/
def HartInit (s : HartState) : Prop := s.noff = 0 ∧ s.locksHeld = 0

/-- States reachable by acquire/release from a boot state. -/
inductive HartReachable : HartState → Prop where
  | init (s : HartState) (h : HartInit s) : HartReachable s
  | step (s s' : HartState) (h : HartReachable s) (hs : HartStep s s') :
      HartReachable s'

theorem lockRelease_spec (s s' : HartState) (h : lockRelease s = some s') :
    s.locksHeld ≠ 0 ∧ s.intr = false ∧ s.noff ≠ 0 ∧
    s' = { noff := s.noff - 1, intena := s.intena,
           intr := decide (s.noff - 1 = 0) && s.intena,
           locksHeld := s.locksHeld - 1 } := by
  unfold lockRelease popOff at h
  dsimp only at h
  by_cases h1 : s.locksHeld = 0
  · rw [if_pos h1] at h; exact absurd h (by simp)
  rw [if_neg h1] at h
  by_cases h2 : s.intr = true
  · rw [if_pos h2] at h; exact absurd h (by simp)
  rw [if_neg h2] at h
  by_cases h3 : s.noff = 0
  · rw [if_pos h3] at h; exact absurd h (by simp)
  rw [if_neg h3] at h
  simp only [Option.some.injEq] at h
  exact ⟨h1, by simpa using h2, h3, h.symm⟩

/-- C7: on every reachable hart state the `push_off` nesting counter equals
the number of spinlocks held, interrupts are disabled whenever that counter
is nonzero, and a release (whose `pop_off` runs to completion) re-enables
interrupts exactly when the counter returns to zero and `intena` (the
interrupt state recorded on entry to the first `push_off`) was true. -/
theorem spinlock_interrupt_invariant (s : HartState) (h : HartReachable s) :
    s.noff = s.locksHeld ∧
    (0 < s.noff → s.intr = false) ∧
    (∀ s', lockRelease s = some s' →
      (s'.intr = true ↔ (s'.noff = 0 ∧ s.intena = true))) := by
  have inv : s.noff = s.locksHeld ∧ (0 < s.noff → s.intr = false) := by
    induction h with
    | init s h => exact ⟨h.1.trans h.2.symm, fun hn => absurd h.1 (by omega)⟩
    | step s s' h hs ih =>
      cases hs with
      | acquire =>
        refine ⟨?_, ?_⟩
        · simp [lockAcquire, pushOff, ih.1]
        · intro _; simp [lockAcquire, pushOff]
      | release _ hrel =>
        obtain ⟨hl, hi, hn, heq⟩ := lockRelease_spec _ _ hrel
        subst heq
        refine ⟨by simp [ih.1], ?_⟩
        intro hpos
        simp only at hpos ⊢
        have : ¬ (s.noff - 1 = 0) := by omega
        simp [this]
  refine ⟨inv.1, inv.2, ?_⟩
  intro s' hrel
  obtain ⟨hl, hi, hn, heq⟩ := lockRelease_spec _ _ hrel
  subst heq
  simp only [Bool.and_eq_true, decide_eq_true_eq]

/-- A concrete reachable state: boot with interrupts on, then one acquire. -/
def hartAfterOneAcquire : HartState :=
  lockAcquire { noff := 0, intena := false, intr := true, locksHeld := 0 }

theorem spinlock_interrupt_invariant_witness :
    hartAfterOneAcquire.noff = hartAfterOneAcquire.locksHeld ∧
    (0 < hartAfterOneAcquire.noff → hartAfterOneAcquire.intr = false) ∧
    (∀ s', lockRelease hartAfterOneAcquire = some s' →
      (s'.intr = true ↔ (s'.noff = 0 ∧ hartAfterOneAcquire.intena = true))) :=
  spinlock_interrupt_invariant hartAfterOneAcquire
    (HartReachable.step _ _ (HartReachable.init _ ⟨rfl, rfl⟩)
      (HartStep.acquire _))

/-!
## Pid allocation (src/process/mod.rs)

`ProcManager::new` (lines 42-49) initializes the pid counter
`pid: SpinLock::new(0, "pid")` to 0.  `alloc_pid` (lines 71-78) returns the
current counter value and then increments it.  `alloc_proc` draws
`new_pid = alloc_pid()` and stores it into the claimed slot's `guard.pid`;
`user_init` allocates the very first process (init) through `alloc_proc`,
so init's pid is the result of the first `alloc_pid` call.
-/

/-- The pid counter value set by `ProcManager::new`. -/
def procManagerInitialPid : Nat := 0

/-- `ProcManager::alloc_pid`: return the counter, increment the counter. -/
def allocPid (pidCounter : Nat) : Nat × Nat :=
  (pidCounter, pidCounter + 1)

/-- The pid returned by the k-th `alloc_pid` call (0-based) when the counter
starts at `c`: each call returns the counter and leaves it incremented. -/
def allocPidNth (c : Nat) : Nat → Nat
  | 0 => (allocPid c).1
  | k + 1 => allocPidNth (allocPid c).2 k

/-- The pid assigned to the first user process (init): the result of the
first `alloc_pid` call on a freshly constructed `ProcManager`. -/
def initProcPid : Nat := (allocPid procManagerInitialPid).1

/-- C8 counterexample: init's pid is 0, not 1 — `ProcManager::new` starts
the counter at 0 and `alloc_pid` returns the pre-increment value. -/
theorem init_pid_is_zero_not_one : initProcPid = 0 ∧ initProcPid ≠ 1 := by
  constructor <;> decide

theorem allocPidNth_eq (c k : Nat) : allocPidNth c k = c + k := by
  induction k generalizing c with
  | zero => rfl
  | succ k ih =>
    rw [allocPidNth, show (allocPid c).2 = c + 1 from rfl, ih]
    omega

/-- C8 (amended): the first user process (init) is allocated pid 0, and
every later call to the pid allocator returns a strictly larger pid than
every earlier call. -/
theorem alloc_pid_monotone (c j k : Nat) (h : j < k) :
    initProcPid = 0 ∧ allocPidNth c j < allocPidNth c k := by
  refine ⟨rfl, ?_⟩
  rw [allocPidNth_eq, allocPidNth_eq]
  omega

theorem alloc_pid_monotone_witness :
    (0 : Nat) < 1 ∧ (initProcPid = 0 ∧ allocPidNth 0 0 < allocPidNth 0 1) :=
  ⟨by decide, alloc_pid_monotone 0 0 1 (by decide)⟩

/-!
## Inode cache lookup (src/fs/inode.rs, `InodeCache::get`, lines 34-66)

`get(dev, inum)` scans the `NINODE` meta slots under the meta spinlock:
a slot with matching `(dev, inum)` and nonzero `refs` is reused (refs+1);
otherwise the first slot with `refs == 0` is claimed; if the pair is not
cached and no slot is free the code executes `panic!("inode: not enough")`.
The function's return type is `Inode` — there is no error return.
-/

structure InodeMeta where
  dev : Nat
  inum : Nat
  refs : Nat
  deriving Repr, DecidableEq

/-- An `Inode` handle: `(dev, inum, slot index)`. -/
structure InodeHandle where
  dev : Nat
  inum : Nat
  index : Nat
  deriving Repr, DecidableEq

/-- The loop of `InodeCache::get`: scan the remaining slots (starting at
absolute index `i`), remembering in `emptyI` the first free slot seen so
far.  Returns `some (index, true)` when a cached entry was found,
`some (index, false)` when an empty slot gets claimed after the scan, and
`none` for the `panic!("inode: not enough")` case. -/
def icacheGetScan (dev inum : Nat) :
    List InodeMeta → Nat → Option Nat → Option (Nat × Bool)
  | [], _, emptyI =>
    match emptyI with
    | some i => some (i, false)
    | none => none
  | m :: rest, i, emptyI =>
    if m.inum = inum ∧ 0 < m.refs ∧ m.dev = dev then
      some (i, true)
    else
      icacheGetScan dev inum rest (i + 1)
        (if emptyI = none ∧ m.refs = 0 then some i else emptyI)

/-- `InodeCache::get`: the scan plus the slot update — on a cache hit the
slot's refs is incremented, on a claim the slot is reinitialized to
`(dev, inum, refs := 1)`.  `none` models the panic. -/
def icacheGet (meta : List InodeMeta) (dev inum : Nat) :
    Option (InodeHandle × List InodeMeta) :=
  match icacheGetScan dev inum meta 0 none with
  | none => none
  | some (i, true) =>
    some (⟨dev, inum, i⟩,
      meta.set i { (meta.getD i ⟨0, 0, 0⟩) with
        refs := (meta.getD i ⟨0, 0, 0⟩).refs + 1 })
  | some (i, false) =>
    some (⟨dev, inum, i⟩, meta.set i ⟨dev, inum, 1⟩)

theorem icacheGetScan_none_iff (dev inum : Nat) (meta : List InodeMeta)
    (i : Nat) (emptyI : Option Nat) :
    icacheGetScan dev inum meta i emptyI = none ↔
      ((∀ m ∈ meta, ¬(m.inum = inum ∧ 0 < m.refs ∧ m.dev = dev)) ∧
       emptyI = none ∧ (∀ m ∈ meta, 0 < m.refs)) := by
  induction meta generalizing i emptyI with
  | nil =>
    cases emptyI <;> simp [icacheGetScan]
  | cons m rest ih =>
    by_cases hm : m.inum = inum ∧ 0 < m.refs ∧ m.dev = dev
    · simp [icacheGetScan, hm]
    · rw [icacheGetScan, if_neg hm, ih]
      constructor
      · rintro ⟨hrest, hif, hrefs⟩
        by_cases hc : emptyI = none ∧ m.refs = 0
        · rw [if_pos hc] at hif; exact absurd hif (by simp)
        · rw [if_neg hc] at hif
          refine ⟨?_, hif, ?_⟩
          · intro m' hm'
            rcases List.mem_cons.mp hm' with h | h
            · subst h; exact hm
            · exact hrest m' h
          · intro m' hm'
            rcases List.mem_cons.mp hm' with h | h
            · subst h
              rcases Nat.eq_zero_or_pos m'.refs with h0 | h0
              · exact absurd ⟨hif, h0⟩ hc
              · exact h0
            · exact hrefs m' h
      · rintro ⟨hall, hnone, hrefs⟩
        have hmrefs : 0 < m.refs := hrefs m (List.mem_cons_self m rest)
        have hc : ¬(emptyI = none ∧ m.refs = 0) := by
          rintro ⟨_, h0⟩; omega
        refine ⟨?_, ?_, ?_⟩
        · intro m' hm'; exact hall m' (List.mem_cons_of_mem m hm')
        · rw [if_neg hc]; exact hnone
        · intro m' hm'; exact hrefs m' (List.mem_cons_of_mem m hm')

/-- C10: `ICACHE.get(dev, inum)` has no failure return value — its only
non-returning outcome is the panic, which happens exactly when the
`(dev, inum)` pair is not cached (no slot matches with nonzero refs) and
every slot's reference count is nonzero. -/
theorem icache_get_panics_iff (meta : List InodeMeta) (dev inum : Nat) :
    icacheGet meta dev inum = none ↔
      ((∀ m ∈ meta, ¬(m.inum = inum ∧ 0 < m.refs ∧ m.dev = dev)) ∧
       (∀ m ∈ meta, 0 < m.refs)) := by
  have key := icacheGetScan_none_iff dev inum meta 0 none
  unfold icacheGet
  cases hscan : icacheGetScan dev inum meta 0 none with
  | none =>
    rw [key] at hscan
    exact Iff.intro (fun _ => ⟨hscan.1, hscan.2.2⟩) (fun _ => rfl)
  | some p =>
    have hne : icacheGetScan dev inum meta 0 none ≠ none := by
      rw [hscan]; simp
    obtain ⟨i, found⟩ := p
    have hiff : ¬ ((∀ m ∈ meta, ¬(m.inum = inum ∧ 0 < m.refs ∧ m.dev = dev)) ∧
        (∀ m ∈ meta, 0 < m.refs)) := by
      rintro ⟨h1, h2⟩
      exact absurd (key.mpr ⟨h1, rfl, h2⟩) hne
    cases found <;>
      exact Iff.intro (fun hh => absurd hh (by simp)) (fun hrhs => absurd hrhs hiff)

/-!
## Sv39 page table (src/mm/pagetable.rs, src/mm/addr.rs)

The three-level table is embedded as nested partial functions: a `none`
entry is an invalid PTE, a `some` entry at levels 2 and 1 is a valid
non-leaf PTE owning a child table, and a `some` entry at level 0 is a
valid leaf holding a physical page number and the permission flags.  The
flag bits of the packed 64-bit PTE are represented as a record; `V`
corresponds to `some`-ness and `is_leaf` to `r || w || x` as in the
source.  Physical memory is byte-addressed (`mem`), the kernel page
allocator is a free list of page-aligned addresses (`free`), and
`tables` is a ghost counter of page-table pages handed out by
`walk_alloc`.
-/

def PGSIZE : Nat := 4096

/-- `MAXVA`: one bit less than the Sv39 maximum (`1 << 38`). -/
def MAXVA : Nat := 2 ^ 38

def pgRoundUp (a : Nat) : Nat := (a + PGSIZE - 1) / PGSIZE * PGSIZE

def pgRoundDown (a : Nat) : Nat := a / PGSIZE * PGSIZE

structure PteFlags where
  r : Bool
  w : Bool
  x : Bool
  u : Bool
  deriving Repr, DecidableEq

/-- A valid level-0 (leaf) PTE: physical page number plus flags. -/
structure Pte where
  ppn : Nat
  flags : PteFlags
  deriving Repr, DecidableEq

def PT0 : Type := Nat → Option Pte
def PT1 : Type := Nat → Option PT0
def PT2 : Type := Nat → Option PT1

def fnUpdate {α : Type} (f : Nat → α) (i : Nat) (v : α) : Nat → α :=
  fun j => if j = i then v else f j

/-- `VirtAddr::page_num(level)`: `(va >> (12 + 9*level)) & 511`. -/
def vpn (level va : Nat) : Nat := va / 2 ^ (12 + 9 * level) % 512

/-- Kernel/machine state seen by the pagetable routines. -/
structure VmState where
  pt : PT2
  free : List Nat
  mem : Nat → Nat
  tables : Nat

/-- `PageTable::walk`: descend levels 2 and 1 without allocating; `none`
when an intermediate entry is invalid, otherwise the level-0 entry
(itself possibly invalid). -/
def ptWalk (pt : PT2) (va : Nat) : Option (Option Pte) :=
  match pt (vpn 2 va) with
  | none => none
  | some p1 =>
    match p1 (vpn 1 va) with
    | none => none
    | some p0 => some (p0 (vpn 0 va))

/-- `PageTable::walk_addr`: resolve a user virtual address to the mapped
physical page address, rejecting missing, invalid and non-user PTEs. -/
def walkAddr (pt : PT2) (va : Nat) : Except Unit Nat :=
  match ptWalk pt va with
  | none => .error ()
  | some none => .error ()
  | some (some pte) =>
    if !pte.flags.u then .error ()
    else .ok (pte.ppn * PGSIZE)

/-- `PageTable::walk_addr_mut` performs the same traversal and checks as
`walk_addr` (via `walk_mut` instead of `walk`). -/
def walkAddrMut (pt : PT2) (va : Nat) : Except Unit Nat := walkAddr pt va

/-- Level-0 step of one `map_pages` iteration: the slot must be invalid
(`panic!("remap")` otherwise, modelled as `none`), then `write_perm`
stores the physical page number and `perm | V`. -/
def mapPageLvl0 (s : VmState) (va pa : Nat) (perm : PteFlags)
    (p1 : PT1) (p0 : PT0) : Option (Except VmState VmState) :=
  match p0 (vpn 0 va) with
  | some _ => none
  | none =>
    some (.ok { s with
                pt := fnUpdate s.pt (vpn 2 va)
                  (some (fnUpdate p1 (vpn 1 va)
                    (some (fnUpdate p0 (vpn 0 va)
                      (some ⟨pa / PGSIZE, perm⟩))))) })

/-- Level-1 step of `walk_alloc`: allocate a zeroed level-0 table if the
entry is invalid.  When the heap is exhausted `map_pages` reports Err
("not enough memory"); the tables linked so far stay linked, so the error
carries the state. -/
def mapPageLvl1 (s : VmState) (va pa : Nat) (perm : PteFlags)
    (p1 : PT1) : Option (Except VmState VmState) :=
  match p1 (vpn 1 va) with
  | some p0 => mapPageLvl0 s va pa perm p1 p0
  | none =>
    match s.free with
    | [] => some (.error s)
    | _ :: rest =>
      mapPageLvl0
        { s with pt := fnUpdate s.pt (vpn 2 va)
                   (some (fnUpdate p1 (vpn 1 va) (some (fun _ => none)))),
                 free := rest, tables := s.tables + 1 }
        va pa perm (fnUpdate p1 (vpn 1 va) (some (fun _ => none)))
        (fun _ => none)

/-- One iteration of the `map_pages` loop (`walk_alloc` + remap check +
`write_perm`) for a single page. -/
def mapPageOnce (s : VmState) (va pa : Nat) (perm : PteFlags) :
    Option (Except VmState VmState) :=
  match s.pt (vpn 2 va) with
  | some p1 => mapPageLvl1 s va pa perm p1
  | none =>
    match s.free with
    | [] => some (.error s)
    | _ :: rest =>
      mapPageLvl1
        { s with pt := fnUpdate s.pt (vpn 2 va) (some (fun _ => none)),
                 free := rest, tables := s.tables + 1 }
        va pa perm (fun _ => none)

def mapPagesLoop (s : VmState) (va pa n : Nat) (perm : PteFlags) :
    Option (Except VmState VmState) :=
  match n with
  | 0 => some (.ok s)
  | n + 1 =>
    match mapPageOnce s va pa perm with
    | none => none
    | some (.error s') => some (.error s')
    | some (.ok s') => mapPagesLoop s' (va + PGSIZE) (pa + PGSIZE) n perm

/-- `PageTable::map_pages`: reject `va + size` beyond `MAXVA`
(`VirtAddr::try_from` in the source), then install one PTE per page of
the rounded range. -/
def mapPages (s : VmState) (va size pa : Nat) (perm : PteFlags) :
    Option (Except VmState VmState) :=
  if MAXVA < va + size then some (.error s)
  else
    mapPagesLoop s (pgRoundDown va) pa
      ((pgRoundUp (va + size) - pgRoundDown va) / PGSIZE) perm

/-- `RawSinglePage::try_new_zeroed`: pop a page off the free list and zero
its bytes; `none` is the out-of-memory error. -/
def rawPageAlloc (s : VmState) : Option (Nat × VmState) :=
  match s.free with
  | [] => none
  | pa :: rest =>
    some (pa, { s with
                free := rest,
                mem := fun a =>
                  if pa ≤ a ∧ a < pa + PGSIZE then 0 else s.mem a })

/-- `RawSinglePage::from_raw_and_drop`: give the page back to the heap. -/
def rawPageFree (s : VmState) (pa : Nat) : VmState :=
  { s with free := pa :: s.free }

/-- `pte.write_zero()` on the leaf slot of `va` (used by `uvm_unmap`). -/
def ptClearLeaf (pt : PT2) (va : Nat) : PT2 :=
  match pt (vpn 2 va) with
  | none => pt
  | some p1 =>
    match p1 (vpn 1 va) with
    | none => pt
    | some p0 =>
      fnUpdate pt (vpn 2 va)
        (some (fnUpdate p1 (vpn 1 va)
          (some (fnUpdate p0 (vpn 0 va) none))))

/-- Loop of `PageTable::uvm_unmap`: each page must resolve to a valid
leaf PTE (three distinct panics otherwise); with `freeing` the physical
page is returned to the heap; the PTE is zeroed. -/
def uvmUnmapLoop (s : VmState) (va n : Nat) (freeing : Bool) :
    Option VmState :=
  match n with
  | 0 => some s
  | n + 1 =>
    match ptWalk s.pt va with
    | none => none
    | some none => none
    | some (some pte) =>
      if !(pte.flags.r || pte.flags.w || pte.flags.x) then none
      else
        let s1 := if freeing then rawPageFree s (pte.ppn * PGSIZE) else s
        uvmUnmapLoop { s1 with pt := ptClearLeaf s1.pt va } (va + PGSIZE) n
          freeing

/-- `PageTable::uvm_unmap(va, count, freeing)`; panics if `va` is not
page aligned. -/
def uvmUnmap (s : VmState) (va count : Nat) (freeing : Bool) :
    Option VmState :=
  if va % PGSIZE ≠ 0 then none
  else uvmUnmapLoop s va count freeing

/-- `PageTable::uvm_dealloc(old_size, new_size)`: returns the new size
after unmapping-and-freeing the pages of the vacated aligned range. -/
def uvmDealloc (s : VmState) (oldSize newSize : Nat) :
    Option (VmState × Nat) :=
  if oldSize ≤ newSize then some (s, oldSize)
  else
    let oldA := pgRoundUp oldSize
    let newA := pgRoundUp newSize
    if newA < oldA then
      match uvmUnmap s newA ((oldA - newA) / PGSIZE) true with
      | none => none
      | some s' => some (s', newSize)
    else some (s, newSize)

def uvmFlags : PteFlags := ⟨true, true, true, true⟩

/-- Loop of `PageTable::uvm_alloc`: for each page of `[oldA, newSize)`
allocate a zeroed physical page and map it `{R,W,X,U}`; on either
allocation failure or `map_pages` failure, roll back the pages mapped so
far through `uvm_dealloc` and report `Err` (carried as `.error` with the
rolled-back state). -/
def uvmAllocLoop (s : VmState) (oldA cur newSize : Nat) :
    Option (Except VmState VmState) :=
  if h : cur < newSize then
    match rawPageAlloc s with
    | none =>
      match uvmDealloc s cur oldA with
      | none => none
      | some (s', _) => some (.error s')
    | some (pa, s1) =>
      match mapPages s1 cur PGSIZE pa uvmFlags with
      | none => none
      | some (.error serr) =>
        match uvmDealloc (rawPageFree serr pa) cur oldA with
        | none => none
        | some (s3, _) => some (.error s3)
      | some (.ok s2) => uvmAllocLoop s2 oldA (cur + PGSIZE) newSize
  else some (.ok s)
termination_by newSize - cur
decreasing_by simp [PGSIZE]; omega

/-- `PageTable::uvm_alloc(old_size, new_size)`. -/
def uvmAlloc (s : VmState) (oldSize newSize : Nat) :
    Option (Except VmState (VmState × Nat)) :=
  if newSize ≤ oldSize then some (.ok (s, oldSize))
  else
    match uvmAllocLoop s (pgRoundUp oldSize) (pgRoundUp oldSize) newSize with
    | none => none
    | some (.error s') => some (.error s')
    | some (.ok s') => some (.ok (s', newSize))

/-!
## User-space copies (src/mm/pagetable.rs, `copy_out` / `copy_in`)

Kernel-side byte sources are functions `Nat → Nat` with a cursor
(pointer arithmetic becomes cursor arithmetic); the destination of
`copy_in` is modelled as the accumulated list of bytes it writes.
-/

def memWriteBytes (mem : Nat → Nat) (base : Nat) (src : Nat → Nat)
    (spos len : Nat) : Nat → Nat :=
  fun a => if base ≤ a ∧ a < base + len then src (spos + (a - base)) else mem a

def copyOutLoop (pt : PT2) (mem src : Nat → Nat) (spos dst count : Nat) :
    Except Unit (Nat → Nat) :=
  match walkAddrMut pt (pgRoundDown dst) with
  | .error _ => .error ()
  | .ok pa =>
    if count < PGSIZE - (dst - pgRoundDown dst) then
      .ok (memWriteBytes mem (pa + (dst - pgRoundDown dst)) src spos count)
    else
      copyOutLoop pt
        (memWriteBytes mem (pa + (dst - pgRoundDown dst)) src spos
          (PGSIZE - (dst - pgRoundDown dst)))
        src (spos + (PGSIZE - (dst - pgRoundDown dst)))
        (dst + (PGSIZE - (dst - pgRoundDown dst)))
        (count - (PGSIZE - (dst - pgRoundDown dst)))
termination_by count
decreasing_by
  simp only [pgRoundDown, PGSIZE] at *
  omega

/-- `PageTable::copy_out` (lines 477-511): a zero count returns `Ok`
before the destination is even range-checked; otherwise walk page by
page. -/
def copyOut (pt : PT2) (mem src : Nat → Nat) (spos dst count : Nat) :
    Except Unit (Nat → Nat) :=
  if count = 0 then .ok mem
  else if MAXVA < dst then .error ()
  else copyOutLoop pt mem src spos dst count

def copyInLoop (pt : PT2) (mem : Nat → Nat) (src count : Nat)
    (acc : List Nat) : Except Unit (List Nat) :=
  match walkAddr pt (pgRoundDown src) with
  | .error _ => .error ()
  | .ok pa =>
    if count < PGSIZE - (src - pgRoundDown src) then
      .ok (acc ++ (List.range count).map
        (fun i => mem (pa + (src - pgRoundDown src) + i)))
    else
      copyInLoop pt mem (src + (PGSIZE - (src - pgRoundDown src)))
        (count - (PGSIZE - (src - pgRoundDown src)))
        (acc ++ (List.range (PGSIZE - (src - pgRoundDown src))).map
          (fun i => mem (pa + (src - pgRoundDown src) + i)))
termination_by count
decreasing_by
  simp only [pgRoundDown, PGSIZE] at *
  omega

/-- `PageTable::copy_in` (lines 515-557): the source address is
`VirtAddr::try_from(src).unwrap()` (panic — `none` — when above
`MAXVA`); with a zero count it still walks the page table for the
rounded-down source address and propagates that error. -/
def copyIn (pt : PT2) (mem : Nat → Nat) (src count : Nat) :
    Option (Except Unit (List Nat)) :=
  if MAXVA < src then none
  else if count = 0 then
    match walkAddr pt (pgRoundDown src) with
    | .ok _ => some (.ok [])
    | .error _ => some (.error ())
  else some (copyInLoop pt mem src count [])

/-- C9: with `count == 0`, `copy_out` succeeds for every destination
address on every page table, while `copy_in` still walks the page table
for the source address and fails exactly when the walk rejects the page
containing it. -/
theorem copy_zero_count_asymmetry (pt : PT2) (mem src : Nat → Nat)
    (spos dst srcVa : Nat) (hsrc : srcVa ≤ MAXVA) :
    copyOut pt mem src spos dst 0 = .ok mem ∧
    (∀ pa, walkAddr pt (pgRoundDown srcVa) = .ok pa →
      copyIn pt mem srcVa 0 = some (.ok [])) ∧
    (walkAddr pt (pgRoundDown srcVa) = .error () →
      copyIn pt mem srcVa 0 = some (.error ())) := by
  refine ⟨rfl, ?_, ?_⟩
  · intro pa hwalk
    unfold copyIn
    rw [if_neg (by omega), if_pos rfl, hwalk]
  · intro hwalk
    unfold copyIn
    rw [if_neg (by omega), if_pos rfl, hwalk]

theorem copy_zero_count_asymmetry_witness :
    (0 : Nat) ≤ MAXVA ∧
    (copyOut (fun _ => none) (fun _ => 0) (fun _ => 0) 0 7 0 =
      .ok (fun _ => 0) ∧
    (∀ pa, walkAddr (fun _ => none) (pgRoundDown 0) = .ok pa →
      copyIn (fun _ => none) (fun _ => 0) 0 0 = some (.ok [])) ∧
    (walkAddr (fun _ => none) (pgRoundDown 0) = .error () →
      copyIn (fun _ => none) (fun _ => 0) 0 0 = some (.error ()))) :=
  ⟨by decide,
   copy_zero_count_asymmetry (fun _ => none) (fun _ => 0) (fun _ => 0) 0 7 0
     (by decide)⟩

/-!
## Lemmas about the page-table model, towards `uvm_alloc` (C4)
-/

theorem fnUpdate_same {α : Type} (f : Nat → α) (i : Nat) (v : α) :
    fnUpdate f i v i = v := by simp [fnUpdate]

theorem fnUpdate_other {α : Type} (f : Nat → α) (i j : Nat) (v : α)
    (h : j ≠ i) : fnUpdate f i v j = f j := by simp [fnUpdate, h]

theorem fnUpdate_idem {α : Type} (f : Nat → α) (i : Nat) (a b : α) :
    fnUpdate (fnUpdate f i a) i b = fnUpdate f i b := by
  funext j
  unfold fnUpdate
  by_cases h : j = i <;> simp [h]

/-- Two virtual addresses designate the same level-0 slot. -/
def leafSlotEq (va vb : Nat) : Prop :=
  vpn 2 va = vpn 2 vb ∧ vpn 1 va = vpn 1 vb ∧ vpn 0 va = vpn 0 vb

/-- The leaf entry for `va` is missing or invalid. -/
def leafUnmapped (pt : PT2) (va : Nat) : Prop :=
  ptWalk pt va = none ∨ ptWalk pt va = some none

theorem leafSlotEq_refl (va : Nat) : leafSlotEq va va := ⟨rfl, rfl, rfl⟩

/-- Below `2^39`, page-aligned addresses are determined by their three
Sv39 indices. -/
theorem leafSlotEq_inj (va vb : Nat) (ha : va < 2 ^ 39) (hb : vb < 2 ^ 39)
    (haa : va % PGSIZE = 0) (hab : vb % PGSIZE = 0)
    (h : leafSlotEq va vb) : va = vb := by
  obtain ⟨h2, h1, h0⟩ := h
  simp only [vpn, PGSIZE] at *
  norm_num at *
  omega


theorem ptWalk_none2 {pt : PT2} {va : Nat} (h : pt (vpn 2 va) = none) :
    ptWalk pt va = none := by unfold ptWalk; rw [h]

theorem ptWalk_none1 {pt : PT2} {va : Nat} {p1 : PT1}
    (h2 : pt (vpn 2 va) = some p1) (h1 : p1 (vpn 1 va) = none) :
    ptWalk pt va = none := by
  unfold ptWalk; rw [h2]; dsimp only; rw [h1]

theorem ptWalk_leaf {pt : PT2} {va : Nat} {p1 : PT1} {p0 : PT0}
    (h2 : pt (vpn 2 va) = some p1) (h1 : p1 (vpn 1 va) = some p0) :
    ptWalk pt va = some (p0 (vpn 0 va)) := by
  unfold ptWalk; rw [h2]; dsimp only; rw [h1]

/-- Effect of installing a leaf entry built from tables `p1`/`p0` that
agree with the tree (either the existing child or a freshly zeroed one):
the target slot now holds `e`, and every other slot either kept its walk
result or went from missing-intermediate to invalid-leaf. -/
theorem ptWalk_update_spec (pt : PT2) (p1 : PT1) (p0 : PT0) (va : Nat)
    (e : Option Pte)
    (h2 : pt (vpn 2 va) = some p1 ∨
      (pt (vpn 2 va) = none ∧ p1 = fun _ => none))
    (h1 : p1 (vpn 1 va) = some p0 ∨
      (p1 (vpn 1 va) = none ∧ p0 = fun _ => none)) :
    ptWalk (fnUpdate pt (vpn 2 va)
      (some (fnUpdate p1 (vpn 1 va)
        (some (fnUpdate p0 (vpn 0 va) e))))) va = some e ∧
    (∀ vb, ¬ leafSlotEq va vb →
      ptWalk (fnUpdate pt (vpn 2 va)
        (some (fnUpdate p1 (vpn 1 va)
          (some (fnUpdate p0 (vpn 0 va) e))))) vb = ptWalk pt vb ∨
      (ptWalk pt vb = none ∧
       ptWalk (fnUpdate pt (vpn 2 va)
        (some (fnUpdate p1 (vpn 1 va)
          (some (fnUpdate p0 (vpn 0 va) e))))) vb = some none)) := by
  set q0 : PT0 := fnUpdate p0 (vpn 0 va) e with hq0def
  set q1 : PT1 := fnUpdate p1 (vpn 1 va) (some q0) with hq1def
  set pt2 : PT2 := fnUpdate pt (vpn 2 va) (some q1) with hpt2def
  constructor
  · have ha2 : pt2 (vpn 2 va) = some q1 := fnUpdate_same _ _ _
    have ha1 : q1 (vpn 1 va) = some q0 := fnUpdate_same _ _ _
    rw [ptWalk_leaf ha2 ha1, hq0def, fnUpdate_same]
  · intro vb hne
    by_cases e2 : vpn 2 vb = vpn 2 va
    · have hb2 : pt2 (vpn 2 vb) = some q1 := by
        rw [e2]; exact fnUpdate_same _ _ _
      by_cases e1 : vpn 1 vb = vpn 1 va
      · have hb1 : q1 (vpn 1 vb) = some q0 := by
          rw [e1]; exact fnUpdate_same _ _ _
        have e0 : vpn 0 vb ≠ vpn 0 va := fun e0 =>
          hne ⟨e2.symm, e1.symm, e0.symm⟩
        have hb0 : q0 (vpn 0 vb) = p0 (vpn 0 vb) := by
          rw [hq0def]; exact fnUpdate_other _ _ _ _ e0
        have hnew : ptWalk pt2 vb = some (p0 (vpn 0 vb)) := by
          rw [ptWalk_leaf hb2 hb1, hb0]
        rcases h1 with h1 | ⟨h1, hp0⟩
        · rcases h2 with h2 | ⟨h2, hp1⟩
          · left
            have hold2 : pt (vpn 2 vb) = some p1 := by rw [e2]; exact h2
            have hold1 : p1 (vpn 1 vb) = some p0 := by rw [e1]; exact h1
            rw [hnew, ptWalk_leaf hold2 hold1]
          · rw [hp1] at h1; exact absurd h1 (by simp)
        · right
          constructor
          · rcases h2 with h2 | ⟨h2, hp1⟩
            · have hold2 : pt (vpn 2 vb) = some p1 := by rw [e2]; exact h2
              have hold1 : p1 (vpn 1 vb) = none := by rw [e1]; exact h1
              exact ptWalk_none1 hold2 hold1
            · exact ptWalk_none2 (by rw [e2]; exact h2)
          · rw [hnew, hp0]
      · have hb1 : q1 (vpn 1 vb) = p1 (vpn 1 vb) := by
          rw [hq1def]; exact fnUpdate_other _ _ _ _ e1
        rcases h2 with h2 | ⟨h2, hp1⟩
        · left
          have hold2 : pt (vpn 2 vb) = some p1 := by rw [e2]; exact h2
          cases hcase : p1 (vpn 1 vb) with
          | none =>
            rw [ptWalk_none1 hb2 (hb1.trans hcase),
              ptWalk_none1 hold2 hcase]
          | some p0x =>
            rw [ptWalk_leaf hb2 (hb1.trans hcase),
              ptWalk_leaf hold2 hcase]
        · left
          have hb1n : q1 (vpn 1 vb) = none := by rw [hb1, hp1]
          rw [ptWalk_none1 hb2 hb1n, ptWalk_none2 (by rw [e2]; exact h2)]
    · have hb2 : pt2 (vpn 2 vb) = pt (vpn 2 vb) := by
        rw [hpt2def]; exact fnUpdate_other _ _ _ _ e2
      left
      unfold ptWalk
      rw [hb2]

theorem mapPageOnce_eqSome (s : VmState) (va pa : Nat) (perm : PteFlags)
    (p1 : PT1) (hpt : s.pt (vpn 2 va) = some p1) :
    mapPageOnce s va pa perm = mapPageLvl1 s va pa perm p1 := by
  unfold mapPageOnce; rw [hpt]

theorem mapPageOnce_eqNoneNil (s : VmState) (va pa : Nat) (perm : PteFlags)
    (hpt : s.pt (vpn 2 va) = none) (hfree : s.free = []) :
    mapPageOnce s va pa perm = some (.error s) := by
  unfold mapPageOnce; rw [hpt, hfree]

theorem mapPageOnce_eqNoneCons (s : VmState) (va pa : Nat) (perm : PteFlags)
    (a : Nat) (rest : List Nat)
    (hpt : s.pt (vpn 2 va) = none) (hfree : s.free = a :: rest) :
    mapPageOnce s va pa perm =
      mapPageLvl1
        { s with pt := fnUpdate s.pt (vpn 2 va) (some (fun _ => none)),
                 free := rest, tables := s.tables + 1 }
        va pa perm (fun _ => none) := by
  unfold mapPageOnce; rw [hpt, hfree]

theorem mapPageLvl1_eqSome (s : VmState) (va pa : Nat) (perm : PteFlags)
    (p1 : PT1) (p0 : PT0) (hq1 : p1 (vpn 1 va) = some p0) :
    mapPageLvl1 s va pa perm p1 = mapPageLvl0 s va pa perm p1 p0 := by
  unfold mapPageLvl1; rw [hq1]

theorem mapPageLvl1_eqNoneNil (s : VmState) (va pa : Nat) (perm : PteFlags)
    (p1 : PT1) (hq1 : p1 (vpn 1 va) = none) (hfree : s.free = []) :
    mapPageLvl1 s va pa perm p1 = some (.error s) := by
  unfold mapPageLvl1; rw [hq1, hfree]

theorem mapPageLvl1_eqNoneCons (s : VmState) (va pa : Nat) (perm : PteFlags)
    (p1 : PT1) (a : Nat) (rest : List Nat)
    (hq1 : p1 (vpn 1 va) = none) (hfree : s.free = a :: rest) :
    mapPageLvl1 s va pa perm p1 =
      mapPageLvl0
        { s with pt := fnUpdate s.pt (vpn 2 va)
                   (some (fnUpdate p1 (vpn 1 va) (some (fun _ => none)))),
                 free := rest, tables := s.tables + 1 }
        va pa perm (fnUpdate p1 (vpn 1 va) (some (fun _ => none)))
        (fun _ => none) := by
  unfold mapPageLvl1; rw [hq1, hfree]

theorem mapPageLvl0_eqSome (s : VmState) (va pa : Nat) (perm : PteFlags)
    (p1 : PT1) (p0 : PT0) (pte : Pte) (hq0 : p0 (vpn 0 va) = some pte) :
    mapPageLvl0 s va pa perm p1 p0 = none := by
  unfold mapPageLvl0; rw [hq0]

theorem mapPageLvl0_eqNone (s : VmState) (va pa : Nat) (perm : PteFlags)
    (p1 : PT1) (p0 : PT0) (hq0 : p0 (vpn 0 va) = none) :
    mapPageLvl0 s va pa perm p1 p0 =
      some (.ok { s with
        pt := fnUpdate s.pt (vpn 2 va)
          (some (fnUpdate p1 (vpn 1 va)
            (some (fnUpdate p0 (vpn 0 va)
              (some ⟨pa / PGSIZE, perm⟩))))) }) := by
  unfold mapPageLvl0; rw [hq0]

/-- Successful `map_pages` iteration: the page is mapped with the given
permissions, other slots are preserved (up to a missing intermediate
table becoming an invalid leaf), memory is untouched, and heap pages only
moved to the table ghost counter. -/
theorem mapPageOnce_ok (s s' : VmState) (va pa : Nat) (perm : PteFlags)
    (h : mapPageOnce s va pa perm = some (.ok s')) :
    ptWalk s'.pt va = some (some ⟨pa / PGSIZE, perm⟩) ∧
    (∀ vb, ¬ leafSlotEq va vb →
      ptWalk s'.pt vb = ptWalk s.pt vb ∨
      (ptWalk s.pt vb = none ∧ ptWalk s'.pt vb = some none)) ∧
    s'.mem = s.mem ∧
    s'.free.length + s'.tables = s.free.length + s.tables := by
  cases hpt : s.pt (vpn 2 va) with
  | some p1 =>
    rw [mapPageOnce_eqSome s va pa perm p1 hpt] at h
    cases hq1 : p1 (vpn 1 va) with
    | some p0 =>
      rw [mapPageLvl1_eqSome s va pa perm p1 p0 hq1] at h
      cases hq0 : p0 (vpn 0 va) with
      | some pte =>
        rw [mapPageLvl0_eqSome s va pa perm p1 p0 pte hq0] at h
        exact absurd h (by simp)
      | none =>
        rw [mapPageLvl0_eqNone s va pa perm p1 p0 hq0] at h
        simp only [Option.some.injEq, Except.ok.injEq] at h
        have key := ptWalk_update_spec s.pt p1 p0 va
          (some ⟨pa / PGSIZE, perm⟩) (Or.inl hpt) (Or.inl hq1)
        rw [← h]
        exact ⟨key.1, key.2, rfl, rfl⟩
    | none =>
      cases hfree : s.free with
      | nil =>
        rw [mapPageLvl1_eqNoneNil s va pa perm p1 hq1 hfree] at h
        exact absurd h (by simp)
      | cons a rest =>
        rw [mapPageLvl1_eqNoneCons s va pa perm p1 a rest hq1 hfree] at h
        rw [mapPageLvl0_eqNone _ va pa perm _ _ rfl] at h
        simp only [Option.some.injEq, Except.ok.injEq] at h
        have key := ptWalk_update_spec s.pt p1 (fun _ => none) va
          (some ⟨pa / PGSIZE, perm⟩) (Or.inl hpt) (Or.inr ⟨hq1, rfl⟩)
        rw [← h]
        refine ⟨?_, ?_, rfl, ?_⟩
        · simpa [fnUpdate_idem] using key.1
        · intro vb hne
          simpa [fnUpdate_idem] using key.2 vb hne
        · simp [hfree]
          omega
  | none =>
    cases hfree : s.free with
    | nil =>
      rw [mapPageOnce_eqNoneNil s va pa perm hpt hfree] at h
      exact absurd h (by simp)
    | cons a rest =>
      rw [mapPageOnce_eqNoneCons s va pa perm a rest hpt hfree] at h
      cases hrest : rest with
      | nil =>
        rw [mapPageLvl1_eqNoneNil _ va pa perm _ rfl hrest] at h
        exact absurd h (by simp)
      | cons b rest2 =>
        rw [mapPageLvl1_eqNoneCons _ va pa perm _ b rest2 rfl hrest] at h
        rw [mapPageLvl0_eqNone _ va pa perm _ _ rfl] at h
        simp only [Option.some.injEq, Except.ok.injEq] at h
        have key := ptWalk_update_spec s.pt (fun _ => none) (fun _ => none)
          va (some ⟨pa / PGSIZE, perm⟩) (Or.inr ⟨hpt, rfl⟩)
          (Or.inr ⟨rfl, rfl⟩)
        rw [← h]
        refine ⟨?_, ?_, rfl, ?_⟩
        · simpa [fnUpdate_idem] using key.1
        · intro vb hne
          simpa [fnUpdate_idem] using key.2 vb hne
        · simp [hfree, hrest]
          omega

/-- Failed `map_pages` iteration (heap exhausted while allocating an
intermediate table): the leaf slot stays unmapped, other slots are
preserved, memory untouched, accounting preserved. -/
theorem mapPageOnce_err (s s2 : VmState) (va pa : Nat) (perm : PteFlags)
    (h : mapPageOnce s va pa perm = some (.error s2)) :
    (∀ vb, ¬ leafSlotEq va vb →
      ptWalk s2.pt vb = ptWalk s.pt vb ∨
      (ptWalk s.pt vb = none ∧ ptWalk s2.pt vb = some none)) ∧
    ptWalk s2.pt va = none ∧
    s2.mem = s.mem ∧
    s2.free.length + s2.tables = s.free.length + s.tables := by
  cases hpt : s.pt (vpn 2 va) with
  | some p1 =>
    rw [mapPageOnce_eqSome s va pa perm p1 hpt] at h
    cases hq1 : p1 (vpn 1 va) with
    | some p0 =>
      rw [mapPageLvl1_eqSome s va pa perm p1 p0 hq1] at h
      cases hq0 : p0 (vpn 0 va) with
      | some pte =>
        rw [mapPageLvl0_eqSome s va pa perm p1 p0 pte hq0] at h
        exact absurd h (by simp)
      | none =>
        rw [mapPageLvl0_eqNone s va pa perm p1 p0 hq0] at h
        exact absurd h (by simp)
    | none =>
      cases hfree : s.free with
      | nil =>
        rw [mapPageLvl1_eqNoneNil s va pa perm p1 hq1 hfree] at h
        simp only [Option.some.injEq, Except.error.injEq] at h
        subst h
        exact ⟨fun vb _ => Or.inl rfl, ptWalk_none1 hpt hq1, rfl,
          by rw [hfree]⟩
      | cons a rest =>
        rw [mapPageLvl1_eqNoneCons s va pa perm p1 a rest hq1 hfree] at h
        rw [mapPageLvl0_eqNone _ va pa perm _ _ rfl] at h
        exact absurd h (by simp)
  | none =>
    cases hfree : s.free with
    | nil =>
      rw [mapPageOnce_eqNoneNil s va pa perm hpt hfree] at h
      simp only [Option.some.injEq, Except.error.injEq] at h
      subst h
      exact ⟨fun vb _ => Or.inl rfl, ptWalk_none2 hpt, rfl,
        by rw [hfree]⟩
    | cons a rest =>
      rw [mapPageOnce_eqNoneCons s va pa perm a rest hpt hfree] at h
      cases hrest : rest with
      | nil =>
        rw [mapPageLvl1_eqNoneNil _ va pa perm _ rfl hrest] at h
        simp only [Option.some.injEq, Except.error.injEq] at h
        subst h
        refine ⟨?_, ?_, rfl, ?_⟩
        · intro vb hne
          by_cases e2 : vpn 2 vb = vpn 2 va
          · left
            rw [@ptWalk_none1 _ _ (fun _ => none)
                (by rw [e2]; exact fnUpdate_same _ _ _) rfl,
              ptWalk_none2 (by rw [e2]; exact hpt)]
          · left
            unfold ptWalk
            dsimp only
            rw [fnUpdate_other _ _ _ _ e2]
        · exact ptWalk_none1 (fnUpdate_same _ _ _) rfl
        · subst hrest
          dsimp only
          simp only [List.length_nil, List.length_cons]
          omega
      | cons b rest2 =>
        rw [mapPageLvl1_eqNoneCons _ va pa perm _ b rest2 rfl hrest] at h
        rw [mapPageLvl0_eqNone _ va pa perm _ _ rfl] at h
        exact absurd h (by simp)

/-- If the leaf slot for `va` is missing or invalid, a `map_pages`
iteration never hits the `panic!("remap")`. -/
theorem mapPageOnce_no_panic (s : VmState) (va pa : Nat) (perm : PteFlags)
    (hun : leafUnmapped s.pt va) :
    mapPageOnce s va pa perm ≠ none := by
  cases hpt : s.pt (vpn 2 va) with
  | some p1 =>
    rw [mapPageOnce_eqSome s va pa perm p1 hpt]
    cases hq1 : p1 (vpn 1 va) with
    | some p0 =>
      rw [mapPageLvl1_eqSome s va pa perm p1 p0 hq1]
      cases hq0 : p0 (vpn 0 va) with
      | some pte =>
        exfalso
        have hw := ptWalk_leaf hpt hq1
        rcases hun with hu | hu <;> rw [hw] at hu <;> simp [hq0] at hu
      | none =>
        rw [mapPageLvl0_eqNone s va pa perm p1 p0 hq0]; simp
    | none =>
      cases hfree : s.free with
      | nil => rw [mapPageLvl1_eqNoneNil s va pa perm p1 hq1 hfree]; simp
      | cons a rest =>
        rw [mapPageLvl1_eqNoneCons s va pa perm p1 a rest hq1 hfree,
          mapPageLvl0_eqNone _ va pa perm _ _ rfl]
        simp
  | none =>
    cases hfree : s.free with
    | nil => rw [mapPageOnce_eqNoneNil s va pa perm hpt hfree]; simp
    | cons a rest =>
      rw [mapPageOnce_eqNoneCons s va pa perm a rest hpt hfree]
      cases hrest : rest with
      | nil => rw [mapPageLvl1_eqNoneNil _ va pa perm _ rfl rfl]; simp
      | cons b rest2 =>
        rw [mapPageLvl1_eqNoneCons _ va pa perm _ b rest2 rfl rfl,
          mapPageLvl0_eqNone _ va pa perm _ _ rfl]
        simp

theorem ptWalk_some_inv {pt : PT2} {va : Nat} {o : Option Pte}
    (h : ptWalk pt va = some o) :
    ∃ p1 p0, pt (vpn 2 va) = some p1 ∧ p1 (vpn 1 va) = some p0 ∧
      p0 (vpn 0 va) = o := by
  unfold ptWalk at h
  split at h
  · exact absurd h (by simp)
  · rename_i p1 h2
    split at h
    · exact absurd h (by simp)
    · rename_i p0 h1
      exact ⟨p1, p0, h2, h1, by simpa using h⟩

theorem ptClearLeaf_eq {pt : PT2} {va : Nat} {p1 : PT1} {p0 : PT0}
    (h2 : pt (vpn 2 va) = some p1) (h1 : p1 (vpn 1 va) = some p0) :
    ptClearLeaf pt va =
      fnUpdate pt (vpn 2 va)
        (some (fnUpdate p1 (vpn 1 va)
          (some (fnUpdate p0 (vpn 0 va) none)))) := by
  unfold ptClearLeaf
  rw [h2]
  dsimp only
  rw [h1]

/-- Clearing the leaf entry of a mapped page invalidates exactly that
slot and preserves every other slot's walk result. -/
theorem ptClearLeaf_spec {pt : PT2} {va : Nat} {p1 : PT1} {p0 : PT0}
    (h2 : pt (vpn 2 va) = some p1) (h1 : p1 (vpn 1 va) = some p0) :
    ptWalk (ptClearLeaf pt va) va = some none ∧
    (∀ vb, ¬ leafSlotEq va vb →
      ptWalk (ptClearLeaf pt va) vb = ptWalk pt vb) := by
  rw [ptClearLeaf_eq h2 h1]
  set q0 : PT0 := fnUpdate p0 (vpn 0 va) none with hq0def
  set q1 : PT1 := fnUpdate p1 (vpn 1 va) (some q0) with hq1def
  set pt2 : PT2 := fnUpdate pt (vpn 2 va) (some q1) with hpt2def
  constructor
  · have ha2 : pt2 (vpn 2 va) = some q1 := fnUpdate_same _ _ _
    have ha1 : q1 (vpn 1 va) = some q0 := fnUpdate_same _ _ _
    rw [ptWalk_leaf ha2 ha1, hq0def, fnUpdate_same]
  · intro vb hne
    by_cases e2 : vpn 2 vb = vpn 2 va
    · have hb2 : pt2 (vpn 2 vb) = some q1 := by
        rw [e2]; exact fnUpdate_same _ _ _
      have hold2 : pt (vpn 2 vb) = some p1 := by rw [e2]; exact h2
      by_cases e1 : vpn 1 vb = vpn 1 va
      · have hb1 : q1 (vpn 1 vb) = some q0 := by
          rw [e1]; exact fnUpdate_same _ _ _
        have hold1 : p1 (vpn 1 vb) = some p0 := by rw [e1]; exact h1
        have e0 : vpn 0 vb ≠ vpn 0 va := fun e0 =>
          hne ⟨e2.symm, e1.symm, e0.symm⟩
        have hb0 : q0 (vpn 0 vb) = p0 (vpn 0 vb) := by
          rw [hq0def]; exact fnUpdate_other _ _ _ _ e0
        rw [ptWalk_leaf hb2 hb1, hb0, ptWalk_leaf hold2 hold1]
      · have hb1 : q1 (vpn 1 vb) = p1 (vpn 1 vb) := by
          rw [hq1def]; exact fnUpdate_other _ _ _ _ e1
        cases hcase : p1 (vpn 1 vb) with
        | none =>
          rw [ptWalk_none1 hb2 (hb1.trans hcase),
            ptWalk_none1 hold2 hcase]
        | some p0x =>
          rw [ptWalk_leaf hb2 (hb1.trans hcase),
            ptWalk_leaf hold2 hcase]
    · have hb2 : pt2 (vpn 2 vb) = pt (vpn 2 vb) := by
        rw [hpt2def]; exact fnUpdate_other _ _ _ _ e2
      unfold ptWalk
      rw [hb2]

theorem pgRoundDown_aligned {a : Nat} (h : a % PGSIZE = 0) :
    pgRoundDown a = a := by
  simp only [pgRoundDown, PGSIZE] at *
  omega

theorem pgRoundUp_aligned {a : Nat} (h : a % PGSIZE = 0) :
    pgRoundUp a = a := by
  simp only [pgRoundUp, PGSIZE] at *
  omega

theorem pgRoundUp_mod (a : Nat) : pgRoundUp a % PGSIZE = 0 := by
  simp only [pgRoundUp, PGSIZE]
  omega

theorem le_pgRoundUp (a : Nat) : a ≤ pgRoundUp a := by
  simp only [pgRoundUp, PGSIZE]
  omega

theorem pgRoundUp_le_of_le {a b : Nat} (h : a ≤ b) (hb : b % PGSIZE = 0) :
    pgRoundUp a ≤ b := by
  simp only [pgRoundUp, PGSIZE] at *
  omega

/-- Loop of `uvm_unmap` over `n` pages that are all mapped as valid
leaves: no panic, every page's slot becomes invalid, all other slots are
preserved, memory and the table counter are untouched, and with
`freeing` the free list grows by one page per iteration. -/
theorem uvmUnmapLoop_spec (n : Nat) :
    ∀ (s : VmState) (va : Nat) (freeing : Bool),
    va % PGSIZE = 0 → va + n * PGSIZE ≤ MAXVA →
    (∀ i, i < n → ∃ pte, ptWalk s.pt (va + i * PGSIZE) = some (some pte) ∧
      (pte.flags.r || pte.flags.w || pte.flags.x) = true) →
    ∃ s', uvmUnmapLoop s va n freeing = some s' ∧
      (∀ i, i < n → ptWalk s'.pt (va + i * PGSIZE) = some none) ∧
      (∀ vb, (∀ i, i < n → ¬ leafSlotEq (va + i * PGSIZE) vb) →
        ptWalk s'.pt vb = ptWalk s.pt vb) ∧
      s'.mem = s.mem ∧ s'.tables = s.tables ∧
      (freeing = true → s'.free.length = s.free.length + n) ∧
      (freeing = false → s'.free = s.free) := by
  induction n with
  | zero =>
    intro s va freeing _ _ _
    exact ⟨s, rfl, fun i hi => absurd hi (by omega), fun vb _ => rfl, rfl,
      rfl, fun _ => rfl, fun _ => rfl⟩
  | succ n ih =>
    intro s va freeing hal hbound hmapped
    obtain ⟨pte, hw, hleaf⟩ := hmapped 0 (by omega)
    rw [show va + 0 * PGSIZE = va by omega] at hw
    obtain ⟨p1, p0, h2, h1, h0⟩ := ptWalk_some_inv hw
    have hstep : uvmUnmapLoop s va (n + 1) freeing =
        uvmUnmapLoop
          { (if freeing then rawPageFree s (pte.ppn * PGSIZE) else s) with
            pt := ptClearLeaf
              (if freeing then rawPageFree s (pte.ppn * PGSIZE) else s).pt
              va }
          (va + PGSIZE) n freeing := by
      conv_lhs => rw [uvmUnmapLoop]
      rw [hw]
      dsimp only
      rw [hleaf]
      rfl
    have hsame_pt : (if freeing then rawPageFree s (pte.ppn * PGSIZE)
        else s).pt = s.pt := by
      cases freeing <;> simp [rawPageFree]
    set s1 : VmState :=
      { (if freeing then rawPageFree s (pte.ppn * PGSIZE) else s) with
        pt := ptClearLeaf
          (if freeing then rawPageFree s (pte.ppn * PGSIZE) else s).pt
          va } with hs1def
    have hs1pt : s1.pt = ptClearLeaf s.pt va := by
      rw [hs1def, hsame_pt]
    have clearspec := ptClearLeaf_spec h2 h1
    -- pages 1..n of the original range are still mapped in s1
    have hinj : ∀ i j : Nat, i ≤ n + 1 → j ≤ n + 1 → i ≠ j →
        ¬ leafSlotEq (va + i * PGSIZE) (va + j * PGSIZE) := by
      intro i j hi hj hij hsl
      have hia : (va + i * PGSIZE) % PGSIZE = 0 := by
        simp only [PGSIZE] at *; omega
      have hja : (va + j * PGSIZE) % PGSIZE = 0 := by
        simp only [PGSIZE] at *; omega
      have h39 : (2:Nat) ^ 38 < 2 ^ 39 := by norm_num
      have hib : va + i * PGSIZE < 2 ^ 39 := by
        have : va + i * PGSIZE ≤ va + (n+1) * PGSIZE := by
          simp only [PGSIZE]; omega
        calc va + i * PGSIZE ≤ va + (n+1) * PGSIZE := this
          _ ≤ MAXVA := hbound
          _ < 2 ^ 39 := by simp only [MAXVA]; norm_num
      have hjb : va + j * PGSIZE < 2 ^ 39 := by
        have : va + j * PGSIZE ≤ va + (n+1) * PGSIZE := by
          simp only [PGSIZE]; omega
        calc va + j * PGSIZE ≤ va + (n+1) * PGSIZE := this
          _ ≤ MAXVA := hbound
          _ < 2 ^ 39 := by simp only [MAXVA]; norm_num
      have := leafSlotEq_inj _ _ hib hjb hia hja hsl
      simp only [PGSIZE] at this
      omega
    have hmapped1 : ∀ i, i < n →
        ∃ pte2, ptWalk s1.pt ((va + PGSIZE) + i * PGSIZE) = some (some pte2) ∧
          (pte2.flags.r || pte2.flags.w || pte2.flags.x) = true := by
      intro i hi
      obtain ⟨pte2, hw2, hl2⟩ := hmapped (i + 1) (by omega)
      refine ⟨pte2, ?_, hl2⟩
      rw [hs1pt]
      have harith : va + PGSIZE + i * PGSIZE = va + (i + 1) * PGSIZE := by
        simp only [PGSIZE]; omega
      rw [harith,
        clearspec.2 _ (by
          have := hinj 0 (i + 1) (by omega) (by omega) (by omega)
          rw [show va + 0 * PGSIZE = va by omega] at this
          exact this)]
      exact hw2
    obtain ⟨s', hrun, hcleared, hpres, hmem, htab, hfree_t, hfree_f⟩ :=
      ih s1 (va + PGSIZE) freeing
        (by simp only [PGSIZE] at *; omega)
        (by simp only [PGSIZE] at *; omega)
        hmapped1
    refine ⟨s', by rw [hstep]; exact hrun, ?_, ?_, ?_, ?_, ?_, ?_⟩
    · intro i hi
      cases i with
      | zero =>
        rw [show va + 0 * PGSIZE = va by omega]
        rw [hpres va (by
          intro j hj hsl
          have := hinj (j + 1) 0 (by omega) (by omega) (by omega)
          rw [show va + 0 * PGSIZE = va by omega] at this
          have harith : va + PGSIZE + j * PGSIZE = va + (j + 1) * PGSIZE := by
            simp only [PGSIZE]; omega
          rw [harith] at hsl
          exact this hsl)]
        rw [hs1pt]
        exact clearspec.1
      | succ i =>
        have harith : va + (i + 1) * PGSIZE = va + PGSIZE + i * PGSIZE := by
          simp only [PGSIZE]; omega
        rw [harith]
        exact hcleared i (by omega)
    · intro vb hvb
      rw [hpres vb (by
        intro i hi hsl
        have harith : va + PGSIZE + i * PGSIZE = va + (i + 1) * PGSIZE := by
          simp only [PGSIZE]; omega
        rw [harith] at hsl
        exact hvb (i + 1) (by omega) hsl)]
      rw [hs1pt]
      exact clearspec.2 vb (by
        have := hvb 0 (by omega)
        rw [show va + 0 * PGSIZE = va by omega] at this
        exact this)
    · rw [hmem, hs1def]
      cases freeing <;> simp [rawPageFree]
    · rw [htab, hs1def]
      cases freeing <;> simp [rawPageFree]
    · intro hf
      subst hf
      rw [hfree_t rfl, hs1def]
      simp [rawPageFree]
      omega
    · intro hf
      subst hf
      rw [hfree_f rfl, hs1def]
      simp

/-- Every page of the half-open range `[lo, hi)` is mapped `{R,W,X,U}`
onto a zero-filled physical page. -/
def uvmRangeMapped (s : VmState) (lo hi : Nat) : Prop :=
  ∀ va, lo ≤ va → va < hi → va % PGSIZE = 0 →
    ∃ pa, ptWalk s.pt va = some (some ⟨pa / PGSIZE, uvmFlags⟩) ∧
      ∀ i, i < PGSIZE → s.mem (pa + i) = 0

/-- Every page of the half-open range `[lo, hi)` is unmapped. -/
def uvmRangeUnmapped (s : VmState) (lo hi : Nat) : Prop :=
  ∀ va, lo ≤ va → va < hi → va % PGSIZE = 0 → leafUnmapped s.pt va

theorem MAXVA_lt_pow39 : MAXVA < 2 ^ 39 := by norm_num [MAXVA]

theorem aligned_slot_ne {va vb : Nat} (hva : va % PGSIZE = 0)
    (hvb : vb % PGSIZE = 0) (ha : va ≤ MAXVA) (hb : vb ≤ MAXVA)
    (hne : va ≠ vb) : ¬ leafSlotEq va vb := fun h =>
  hne (leafSlotEq_inj va vb (lt_of_le_of_lt ha MAXVA_lt_pow39)
    (lt_of_le_of_lt hb MAXVA_lt_pow39) hva hvb h)

/-- `uvm_dealloc(cur, oldA)` on a fully mapped aligned range `[oldA, cur)`
(the rollback situation inside `uvm_alloc`): it succeeds, the range ends
up unmapped, slots outside the range are preserved, memory and the table
counter are untouched, and the freed pages return to the free list. -/
theorem uvmDealloc_rollback (s : VmState) (oldA cur : Nat)
    (hOldA : oldA % PGSIZE = 0) (hcur : cur % PGSIZE = 0)
    (hle : oldA ≤ cur) (hmax : cur ≤ MAXVA)
    (hmapped : uvmRangeMapped s oldA cur) :
    ∃ s', uvmDealloc s cur oldA = some (s', if cur ≤ oldA then cur else oldA) ∧
      uvmRangeUnmapped s' oldA cur ∧
      (∀ vb, (∀ va2, oldA ≤ va2 → va2 < cur → va2 % PGSIZE = 0 →
        ¬ leafSlotEq va2 vb) → ptWalk s'.pt vb = ptWalk s.pt vb) ∧
      s'.mem = s.mem ∧ s'.tables = s.tables ∧
      s'.free.length = s.free.length + (cur - oldA) / PGSIZE := by
  by_cases hcase : cur ≤ oldA
  · have hEq : cur = oldA := by omega
    refine ⟨s, ?_, ?_, fun vb _ => rfl, rfl, rfl, by
      rw [hEq]; simp⟩
    · unfold uvmDealloc
      rw [if_pos hcase, if_pos hcase]
    · intro va h1 h2 _
      omega
  · -- cur > oldA: unmap-and-free the range
    have hcount : ∀ i, i < (cur - oldA) / PGSIZE →
        ∃ pte, ptWalk s.pt (oldA + i * PGSIZE) = some (some pte) ∧
          (pte.flags.r || pte.flags.w || pte.flags.x) = true := by
      intro i hi
      obtain ⟨pa, hw, _⟩ := hmapped (oldA + i * PGSIZE)
        (by omega)
        (by simp only [PGSIZE] at *; omega)
        (by simp only [PGSIZE] at *; omega)
      exact ⟨⟨pa / PGSIZE, uvmFlags⟩, hw, by simp [uvmFlags]⟩
    obtain ⟨s', hrun, hcleared, hpres, hmem, htab, hfree_t, _⟩ :=
      uvmUnmapLoop_spec ((cur - oldA) / PGSIZE) s oldA true hOldA
        (by simp only [PGSIZE] at *; omega) hcount
    refine ⟨s', ?_, ?_, ?_, hmem, htab, hfree_t rfl⟩
    · unfold uvmDealloc
      rw [if_neg hcase, if_neg hcase]
      have h1 : pgRoundUp cur = cur := pgRoundUp_aligned hcur
      have h2 : pgRoundUp oldA = oldA := pgRoundUp_aligned hOldA
      rw [h1, h2, if_pos (by omega)]
      unfold uvmUnmap
      rw [if_neg (by omega), hrun]
    · intro va h1 h2 h3
      have hidx : va = oldA + ((va - oldA) / PGSIZE) * PGSIZE := by
        simp only [PGSIZE] at *; omega
      have hi : (va - oldA) / PGSIZE < (cur - oldA) / PGSIZE := by
        simp only [PGSIZE] at *; omega
      right
      rw [hidx]
      exact hcleared _ hi
    · intro vb hvb
      apply hpres
      intro i hi
      apply hvb (oldA + i * PGSIZE)
        (by omega)
        (by simp only [PGSIZE] at *; omega)
        (by simp only [PGSIZE] at *; omega)

theorem MAXVA_mod : MAXVA % PGSIZE = 0 := by norm_num [MAXVA, PGSIZE]

/-- `map_pages` called for a single aligned page inside the address space
reduces to one `walk_alloc`-and-install iteration. -/
theorem mapPages_onePage (s : VmState) (cur pa : Nat) (perm : PteFlags)
    (hal : cur % PGSIZE = 0) (hb : cur + PGSIZE ≤ MAXVA) :
    mapPages s cur PGSIZE pa perm = mapPageOnce s cur pa perm := by
  unfold mapPages
  rw [if_neg (by omega)]
  rw [pgRoundDown_aligned hal,
    @pgRoundUp_aligned (cur + PGSIZE) (by simp only [PGSIZE] at *; omega)]
  rw [show (cur + PGSIZE - cur) / PGSIZE = 1 by simp only [PGSIZE]; omega]
  show mapPagesLoop s cur pa 1 perm = mapPageOnce s cur pa perm
  unfold mapPagesLoop
  cases hm : mapPageOnce s cur pa perm with
  | none => rfl
  | some r =>
    cases r with
    | error e => rfl
    | ok s2 => rfl

/-- Loop of `uvm_alloc` starting at `cur` with `[oldA, cur)` already
mapped-and-zeroed and `[cur, newSize)` unmapped: it never panics, and it
either maps the whole range, or fails with the whole range unmapped and
all data pages back on the free list (only table pages, counted by the
ghost `tables`, stay consumed). -/
theorem uvmAllocLoop_spec (k : Nat) :
    ∀ (s : VmState) (oldA cur newSize : Nat),
    newSize - cur ≤ k →
    oldA % PGSIZE = 0 → cur % PGSIZE = 0 → oldA ≤ cur → newSize ≤ MAXVA →
    uvmRangeMapped s oldA cur →
    uvmRangeUnmapped s cur newSize →
    ∃ r, uvmAllocLoop s oldA cur newSize = some r ∧
      ((∃ s', r = .ok s' ∧ uvmRangeMapped s' oldA newSize) ∨
       (∃ s', r = .error s' ∧ uvmRangeUnmapped s' oldA newSize ∧
          s'.free.length + s'.tables =
            s.free.length + s.tables + (cur - oldA) / PGSIZE)) := by
  induction k with
  | zero =>
    intro s oldA cur newSize hk _ _ _ _ hmapped _
    have hge : ¬ cur < newSize := by omega
    rw [uvmAllocLoop, dif_neg hge]
    refine ⟨.ok s, rfl, Or.inl ⟨s, rfl, ?_⟩⟩
    intro va h1 h2 h3
    exact hmapped va h1 (by omega) h3
  | succ k ih =>
    intro s oldA cur newSize hk hOldA hcur hle hmax hmapped hunmapped
    by_cases hlt : cur < newSize
    case neg =>
      rw [uvmAllocLoop, dif_neg hlt]
      refine ⟨.ok s, rfl, Or.inl ⟨s, rfl, ?_⟩⟩
      intro va h1 h2 h3
      exact hmapped va h1 (by omega) h3
    case pos =>
    rw [uvmAllocLoop, dif_pos hlt]
    have hcurMax : cur + PGSIZE ≤ MAXVA := by
      have h1 := pgRoundUp_le_of_le hmax MAXVA_mod
      have h2 : cur + PGSIZE ≤ pgRoundUp newSize := by
        have := le_pgRoundUp newSize
        simp only [pgRoundUp, PGSIZE] at *
        omega
      omega
    cases hfr : s.free with
    | nil =>
      -- rawPageAlloc fails; roll back [oldA, cur)
      have hra : rawPageAlloc s = none := by unfold rawPageAlloc; rw [hfr]
      rw [hra]
      obtain ⟨s3, hdeal, hunm, hpres, hmem3, htab3, hfree3⟩ :=
        uvmDealloc_rollback s oldA cur hOldA hcur hle (by omega) hmapped
      rw [hdeal]
      refine ⟨.error s3, rfl, Or.inr ⟨s3, rfl, ?_, ?_⟩⟩
      · intro va h1 h2 h3
        by_cases hva : va < cur
        · exact hunm va h1 hva h3
        · have : ptWalk s3.pt va = ptWalk s.pt va := by
            apply hpres
            intro va2 g1 g2 g3
            exact aligned_slot_ne g3 h3 (by omega) (by omega) (by omega)
          unfold leafUnmapped
          rw [this]
          exact hunmapped va (by omega) h2 h3
      · rw [hfree3, htab3, hfr]
        simp
        omega
    | cons pa rest =>
      have hra : rawPageAlloc s = some (pa,
          { s with
            free := rest,
            mem := fun a =>
              if pa ≤ a ∧ a < pa + PGSIZE then 0 else s.mem a }) := by
        unfold rawPageAlloc; rw [hfr]
      rw [hra]
      set s1 : VmState :=
        { s with
          free := rest,
          mem := fun a =>
            if pa ≤ a ∧ a < pa + PGSIZE then 0 else s.mem a } with hs1def
      have hs1pt : s1.pt = s.pt := rfl
      have hs1zero : ∀ i, i < PGSIZE → s1.mem (pa + i) = 0 := by
        intro i hi
        show (if pa ≤ pa + i ∧ pa + i < pa + PGSIZE then 0 else s.mem (pa + i)) = 0
        rw [if_pos (by omega)]
      have hs1mem : ∀ a, s.mem a = 0 → s1.mem a = 0 := by
        intro a ha
        show (if pa ≤ a ∧ a < pa + PGSIZE then 0 else s.mem a) = 0
        split <;> simp [ha]
      have hmapped1 : uvmRangeMapped s1 oldA cur := by
        intro va h1 h2 h3
        obtain ⟨pax, hw, hz⟩ := hmapped va h1 h2 h3
        exact ⟨pax, hw, fun i hi => hs1mem _ (hz i hi)⟩
      have hunmapped1 : uvmRangeUnmapped s1 cur newSize := hunmapped
      dsimp only
      rw [mapPages_onePage s1 cur pa uvmFlags hcur hcurMax]
      cases hmo : mapPageOnce s1 cur pa uvmFlags with
      | none =>
        exact absurd hmo
          (mapPageOnce_no_panic s1 cur pa uvmFlags
            (hunmapped1 cur (by omega) hlt hcur))
      | some r =>
        cases r with
        | ok s2 =>
          obtain ⟨hw2, hpres2, hmem2, hacct2⟩ := mapPageOnce_ok s1 s2 cur pa uvmFlags hmo
          have hmapped2 : uvmRangeMapped s2 oldA (cur + PGSIZE) := by
            intro va h1 h2 h3
            by_cases hva : va < cur
            · obtain ⟨pax, hwx, hzx⟩ := hmapped1 va h1 hva h3
              have hne : ¬ leafSlotEq cur va :=
                aligned_slot_ne hcur h3 (by omega) (by omega) (by omega)
              rcases hpres2 va hne with heq | ⟨hn, _⟩
              · exact ⟨pax, heq.trans hwx, fun i hi => by
                  rw [hmem2]; exact hzx i hi⟩
              · rw [hwx] at hn; exact absurd hn (by simp)
            · have hva2 : va = cur := by simp only [PGSIZE] at *; omega
              subst hva2
              refine ⟨pa, hw2, fun i hi => by rw [hmem2]; exact hs1zero i hi⟩
          have hunmapped2 : uvmRangeUnmapped s2 (cur + PGSIZE) newSize := by
            intro va h1 h2 h3
            have hne : ¬ leafSlotEq cur va :=
              aligned_slot_ne hcur h3 (by omega) (by omega)
                (by simp only [PGSIZE] at *; omega)
            rcases hpres2 va hne with heq | ⟨hn, hv⟩
            · unfold leafUnmapped
              rw [heq]
              exact hunmapped1 va (by simp only [PGSIZE] at *; omega) h2 h3
            · exact Or.inr hv
          obtain ⟨r2, hrun2, hres2⟩ := ih s2 oldA (cur + PGSIZE) newSize
            (by simp only [PGSIZE] at *; omega) hOldA
            (by simp only [PGSIZE] at *; omega)
            (by simp only [PGSIZE] at *; omega) hmax hmapped2 hunmapped2
          dsimp only
          refine ⟨r2, hrun2, ?_⟩
          rcases hres2 with ⟨s3, hr3, hm3⟩ | ⟨s3, hr3, hu3, ha3⟩
          · exact Or.inl ⟨s3, hr3, hm3⟩
          · refine Or.inr ⟨s3, hr3, hu3, ?_⟩
            have harith : (cur + PGSIZE - oldA) / PGSIZE =
                (cur - oldA) / PGSIZE + 1 := by
              simp only [PGSIZE] at *; omega
            have e1 : s1.free.length = rest.length := rfl
            have e2 : s1.tables = s.tables := rfl
            have e3 : (pa :: rest).length = rest.length + 1 := rfl
            omega
        | error serr =>
          obtain ⟨hpresE, hwE, hmemE, hacctE⟩ :=
            mapPageOnce_err s1 serr cur pa uvmFlags hmo
          set s1b : VmState := rawPageFree serr pa with hs1bdef
          have hs1bpt : s1b.pt = serr.pt := rfl
          have hs1bmem : s1b.mem = serr.mem := rfl
          have hmappedE : uvmRangeMapped s1b oldA cur := by
            intro va h1 h2 h3
            obtain ⟨pax, hwx, hzx⟩ := hmapped1 va h1 h2 h3
            have hne : ¬ leafSlotEq cur va :=
              aligned_slot_ne hcur h3 (by omega) (by omega) (by omega)
            rcases hpresE va hne with heq | ⟨hn, _⟩
            · refine ⟨pax, ?_, fun i hi => ?_⟩
              · rw [hs1bpt, heq, hwx]
              · rw [hs1bmem, hmemE]; exact hzx i hi
            · rw [hwx] at hn; exact absurd hn (by simp)
          obtain ⟨s3, hdeal, hunm, hpres3, hmem3, htab3, hfree3⟩ :=
            uvmDealloc_rollback s1b oldA cur hOldA hcur hle (by omega) hmappedE
          dsimp only
          rw [hs1bdef] at hdeal
          rw [hdeal]
          refine ⟨.error s3, rfl, Or.inr ⟨s3, rfl, ?_, ?_⟩⟩
          · intro va h1 h2 h3
            by_cases hva : va < cur
            · exact hunm va h1 hva h3
            · have hx : ptWalk s3.pt va = ptWalk s1b.pt va := by
                apply hpres3
                intro va2 g1 g2 g3
                exact aligned_slot_ne g3 h3 (by omega) (by omega) (by omega)
              unfold leafUnmapped
              rw [hx, hs1bpt]
              by_cases hva2 : va = cur
              · subst hva2
                exact Or.inl hwE
              · have hne : ¬ leafSlotEq cur va :=
                  aligned_slot_ne hcur h3 (by omega) (by omega)
                    (fun hgg => hva2 hgg.symm)
                rcases hpresE va hne with heq | ⟨hn, hv⟩
                · rw [heq]
                  exact hunmapped1 va (by omega) h2 h3
                · exact Or.inr hv
          · have e1 : s1.free.length = rest.length := rfl
            have e2 : s1.tables = s.tables := rfl
            have e3 : (pa :: rest).length = rest.length + 1 := rfl
            have e4 : s1b.free.length = serr.free.length + 1 := rfl
            have e5 : s1b.tables = serr.tables := rfl
            omega

/-- C4: for `old < new ≤ MAXVA` with the target range unmapped,
`uvm_alloc(old, new)` panics on nothing and either returns `Ok(new)` with
every page of `[round_up(old), new)` mapped `{R,W,X,U}` onto a zeroed
physical page, or fails, rolls back through `uvm_dealloc`, and leaves the
range unmapped with every data page back on the free list (the ghost
`tables` counter accounts for the page-table pages, which the source
keeps). -/
theorem uvm_alloc_spec (s : VmState) (oldSize newSize : Nat)
    (hlt : oldSize < newSize) (hmax : newSize ≤ MAXVA)
    (hun : uvmRangeUnmapped s (pgRoundUp oldSize) newSize) :
    ∃ r, uvmAlloc s oldSize newSize = some r ∧
      ((∃ s', r = .ok (s', newSize) ∧
          uvmRangeMapped s' (pgRoundUp oldSize) newSize) ∨
       (∃ s', r = .error s' ∧
          uvmRangeUnmapped s' (pgRoundUp oldSize) newSize ∧
          s'.free.length + s'.tables = s.free.length + s.tables)) := by
  obtain ⟨r, hrun, hres⟩ := uvmAllocLoop_spec newSize s (pgRoundUp oldSize)
    (pgRoundUp oldSize) newSize (by omega) (pgRoundUp_mod _)
    (pgRoundUp_mod _) le_rfl hmax
    (fun va h1 h2 _ => absurd h2 (by omega)) hun
  unfold uvmAlloc
  rw [if_neg (by omega), hrun]
  rcases hres with ⟨s', hr, hm⟩ | ⟨s', hr, hu, ha⟩
  · subst hr
    exact ⟨.ok (s', newSize), rfl, Or.inl ⟨s', rfl, hm⟩⟩
  · subst hr
    refine ⟨.error s', rfl, Or.inr ⟨s', rfl, hu, ?_⟩⟩
    simpa using ha

def uvmWitState : VmState :=
  { pt := fun _ => none
    free := [409600, 413696, 417792]
    mem := fun _ => 7
    tables := 0 }

theorem uvm_alloc_spec_witness :
    (0 : Nat) < 1 ∧ 1 ≤ MAXVA ∧
    (∃ r, uvmAlloc uvmWitState 0 1 = some r ∧
      ((∃ s', r = .ok (s', 1) ∧
          uvmRangeMapped s' (pgRoundUp 0) 1) ∨
       (∃ s', r = .error s' ∧
          uvmRangeUnmapped s' (pgRoundUp 0) 1 ∧
          s'.free.length + s'.tables =
            uvmWitState.free.length + uvmWitState.tables))) :=
  ⟨by decide, by decide,
    uvm_alloc_spec uvmWitState 0 1 (by decide) (by decide)
      (fun va _ _ _ => Or.inl rfl)⟩

/-!
## Pipe (src/fs/file/pipe.rs)

`PipeInner`'s `Wrapping<u32>` counters are `Nat`s kept below `2^32`, all
updates taking `% 2^32`.  `Pipe::write` holds the pipe spinlock between
suspension points: each `sleep` releases it and the environment (readers,
`kill`) may change the pipe state and the killed flag, so the loop is
driven by a schedule that supplies the `(killed, pipe)` pair observed
after each wakeup; `none` models a writer that is still blocked when the
schedule runs out.  `wakeup`/`sleep` calls are recorded as events on the
channels (`&pipe.read_cnt`, `&pipe.write_cnt`).  The user-space byte
source is modelled as a total function (`copy_in` from a mapped buffer),
so the `break` path for a bad user address is not taken.
-/

def PIPESIZE : Nat := 454

structure PipeInner where
  readOpen : Bool
  writeOpen : Bool
  readCnt : Nat
  writeCnt : Nat
  data : Nat → Nat

inductive PipeChan where
  | readCnt
  | writeCnt
  deriving Repr, DecidableEq

inductive PipeEvent where
  | wakeup (c : PipeChan)
  | sleep (c : PipeChan)
  deriving Repr, DecidableEq

/-- The loop of `Pipe::write` (pipe.rs lines 90-111) plus the final
reader wakeup (line 112). -/
def pipeWriteLoop (src : Nat → Nat) (count wc : Nat)
    (pipe : PipeInner) (killed : Bool) (sched : List (Bool × PipeInner))
    (events : List PipeEvent) :
    Option (Except PipeInner (Nat × PipeInner) × List PipeEvent) :=
  if h : wc < count then
    if !pipe.readOpen || killed then
      some (.error pipe, events)
    else if pipe.writeCnt = (pipe.readCnt + PIPESIZE) % 2 ^ 32 then
      match sched with
      | [] => none
      | (killed2, pipe2) :: rest =>
        pipeWriteLoop src count wc pipe2 killed2 rest
          (events ++ [.wakeup .readCnt, .sleep .writeCnt])
    else
      pipeWriteLoop src count (wc + 1)
        { pipe with
          data := fnUpdate pipe.data (pipe.writeCnt % PIPESIZE) (src wc),
          writeCnt := (pipe.writeCnt + 1) % 2 ^ 32 }
        killed sched events
  else
    some (.ok (wc, pipe), events ++ [.wakeup .readCnt])
termination_by (count - wc) + sched.length
decreasing_by
  · simp only [List.length_cons]
    omega
  · omega

/-- `Pipe::write(addr, count)`. -/
def pipeWrite (src : Nat → Nat) (count : Nat) (pipe : PipeInner)
    (killed : Bool) (sched : List (Bool × PipeInner)) :
    Option (Except PipeInner (Nat × PipeInner) × List PipeEvent) :=
  pipeWriteLoop src count 0 pipe killed sched []

theorem pipeWriteLoop_no_block (src : Nat → Nat) (count : Nat) (n : Nat) :
    ∀ wc (pipe : PipeInner) (killed : Bool)
      (sched : List (Bool × PipeInner)) (events : List PipeEvent),
    count - wc = n → wc ≤ count →
    pipe.readOpen = true → killed = false →
    pipe.readCnt < 2 ^ 32 → pipe.writeCnt + (count - wc) < 2 ^ 32 →
    (pipe.writeCnt + 2 ^ 32 - pipe.readCnt) % 2 ^ 32 + (count - wc) ≤
      PIPESIZE →
    ∃ pipe2, pipeWriteLoop src count wc pipe killed sched events =
      some (.ok (count, pipe2), events ++ [.wakeup .readCnt]) ∧
      pipe2.writeCnt = pipe.writeCnt + (count - wc) ∧
      pipe2.readCnt = pipe.readCnt ∧
      (∀ i, i < count - wc →
        pipe2.data ((pipe.writeCnt + i) % PIPESIZE) = src (wc + i)) ∧
      (∀ j, (∀ i, i < count - wc → j ≠ (pipe.writeCnt + i) % PIPESIZE) →
        pipe2.data j = pipe.data j) := by
  induction n with
  | zero =>
    intro wc pipe killed sched events hn hwcle hro hk hr hw hspace
    have heq : wc = count := by omega
    subst heq
    rw [pipeWriteLoop.eq_def, dif_neg (by omega)]
    exact ⟨pipe, rfl, by omega, rfl, fun i hi => absurd hi (by omega),
      fun j _ => rfl⟩
  | succ n ihn =>
    intro wc pipe killed sched events hn hwcle hro hk hr hw hspace
    have hlt : wc < count := by omega
    have h32 : (2:Nat) ^ 32 = 4294967296 := by norm_num
    rw [pipeWriteLoop.eq_def, dif_pos hlt]
    have hcond : (!pipe.readOpen || killed) = false := by
      rw [hro, hk]; rfl
    rw [hcond]
    simp only [Bool.false_eq_true, if_false]
    have hnotfull : ¬ pipe.writeCnt = (pipe.readCnt + PIPESIZE) % 2 ^ 32 := by
      rw [h32] at hspace hw ⊢
      simp only [PIPESIZE] at hspace ⊢
      omega
    rw [if_neg hnotfull]
    set pipeB : PipeInner :=
      { pipe with
        data := fnUpdate pipe.data (pipe.writeCnt % PIPESIZE) (src wc),
        writeCnt := (pipe.writeCnt + 1) % 2 ^ 32 } with hpipeB
    have hBw : pipeB.writeCnt = pipe.writeCnt + 1 := by
      show (pipe.writeCnt + 1) % 2 ^ 32 = pipe.writeCnt + 1
      apply Nat.mod_eq_of_lt
      omega
    have hBr : pipeB.readCnt = pipe.readCnt := rfl
    have hBro : pipeB.readOpen = true := hro
    obtain ⟨pipe2, hrun, h2w, h2r, h2data, h2pres⟩ :=
      ihn (wc + 1) pipeB killed sched events (by omega) (by omega) hBro hk
        (by rw [hBr]; exact hr)
        (by rw [hBw]; omega)
        (by
          rw [hBw, hBr, h32]
          rw [h32] at hspace hw
          simp only [PIPESIZE] at hspace ⊢
          omega)
    refine ⟨pipe2, hrun, ?_, ?_, ?_, ?_⟩
    · rw [h2w, hBw]; omega
    · rw [h2r, hBr]
    · intro i hi
      have hcnt454 : count - wc ≤ PIPESIZE := by
        rw [h32] at hspace
        simp only [PIPESIZE] at hspace ⊢
        omega
      cases i with
      | zero =>
        have hidx : ∀ i2, i2 < count - (wc + 1) →
            (pipe.writeCnt + 0) % PIPESIZE ≠
              (pipeB.writeCnt + i2) % PIPESIZE := by
          intro i2 hi2
          rw [hBw]
          rw [h32] at hspace
          simp only [PIPESIZE] at hspace hcnt454 ⊢
          omega
        rw [h2pres _ hidx]
        show fnUpdate pipe.data (pipe.writeCnt % PIPESIZE) (src wc)
          ((pipe.writeCnt + 0) % PIPESIZE) = src (wc + 0)
        rw [show pipe.writeCnt + 0 = pipe.writeCnt by omega, fnUpdate_same,
          Nat.add_zero]
      | succ i =>
        have := h2data i (by omega)
        rw [hBw] at this
        rw [show pipe.writeCnt + (i + 1) = pipe.writeCnt + 1 + i by omega,
          this]
        congr 1
        omega
    · intro j hj
      rw [h2pres j (by
        intro i hi
        rw [hBw]
        have := hj (i + 1) (by omega)
        rw [show pipe.writeCnt + 1 + i = pipe.writeCnt + (i + 1) by omega]
        exact this)]
      show fnUpdate pipe.data (pipe.writeCnt % PIPESIZE) (src wc) j
        = pipe.data j
      apply fnUpdate_other
      have := hj 0 (by omega)
      rw [show pipe.writeCnt + 0 = pipe.writeCnt by omega] at this
      exact this

/-- C6: the `Pipe::write` loop runs until the requested count is
transferred, and at each iteration (1) a closed read end or a killed
writer returns `Err` immediately, (2) a full pipe
(`write_cnt - read_cnt == PIPESIZE`) wakes the readers (on the
`read_cnt` channel) and sleeps on the `write_cnt` channel, resuming from
whatever state holds after the wakeup, and (3) otherwise one byte is
copied into the ring at `write_cnt % PIPESIZE` and `write_cnt`
advances — in particular, with room for the whole request the write
returns `Ok(count)` with the bytes placed in order. -/
theorem pipe_write_spec (src : Nat → Nat) (count : Nat) (pipe : PipeInner)
    (killed : Bool) (sched : List (Bool × PipeInner)) (hc : 0 < count) :
    ((pipe.readOpen = false ∨ killed = true) →
      pipeWrite src count pipe killed sched = some (.error pipe, [])) ∧
    (pipe.readOpen = true → killed = false →
      pipe.writeCnt = (pipe.readCnt + PIPESIZE) % 2 ^ 32 →
      (sched = [] → pipeWrite src count pipe killed sched = none) ∧
      (∀ killed2 pipe2 rest, sched = (killed2, pipe2) :: rest →
        pipeWrite src count pipe killed sched =
          pipeWriteLoop src count 0 pipe2 killed2 rest
            [.wakeup .readCnt, .sleep .writeCnt])) ∧
    (pipe.readOpen = true → killed = false →
      pipe.readCnt < 2 ^ 32 → pipe.writeCnt + count < 2 ^ 32 →
      (pipe.writeCnt + 2 ^ 32 - pipe.readCnt) % 2 ^ 32 + count ≤ PIPESIZE →
      ∃ pipe2, pipeWrite src count pipe killed sched =
        some (.ok (count, pipe2), [.wakeup .readCnt]) ∧
        pipe2.writeCnt = pipe.writeCnt + count ∧
        (∀ i, i < count →
          pipe2.data ((pipe.writeCnt + i) % PIPESIZE) = src i)) := by
  refine ⟨?_, ?_, ?_⟩
  · intro hcase
    unfold pipeWrite
    rw [pipeWriteLoop.eq_def, dif_pos hc]
    have hcond : (!pipe.readOpen || killed) = true := by
      rcases hcase with h | h <;> simp [h]
    rw [hcond]
    simp
  · intro hro hk hfull
    have hcond : (!pipe.readOpen || killed) = false := by rw [hro, hk]; rfl
    constructor
    · intro hsched
      unfold pipeWrite
      rw [pipeWriteLoop.eq_def, dif_pos hc, hcond]
      simp only [Bool.false_eq_true, if_false]
      rw [if_pos hfull, hsched]
    · intro killed2 pipe2 rest hsched
      unfold pipeWrite
      rw [pipeWriteLoop.eq_def, dif_pos hc, hcond]
      simp only [Bool.false_eq_true, if_false]
      rw [if_pos hfull, hsched]
      rfl
  · intro hro hk hr hw hspace
    obtain ⟨pipe2, hrun, h2w, h2r, h2data, h2pres⟩ :=
      pipeWriteLoop_no_block src count count 0 pipe killed sched []
        (by omega) (by omega) hro hk hr (by simpa using hw)
        (by simpa using hspace)
    refine ⟨pipe2, by simpa using hrun, by simpa using h2w, ?_⟩
    intro i hi
    simpa using h2data i (by omega)

def pipeWitClosed : PipeInner :=
  { readOpen := false
    writeOpen := false
    readCnt := 0
    writeCnt := 0
    data := fun _ => 0 }

theorem pipe_write_spec_witness :
    (0 : Nat) < 1 ∧
    (((pipeWitClosed.readOpen = false ∨ false = true) →
      pipeWrite (fun _ => 65) 1 pipeWitClosed false [] =
        some (.error pipeWitClosed, [])) ∧
    (pipeWitClosed.readOpen = true → false = false →
      pipeWitClosed.writeCnt =
        (pipeWitClosed.readCnt + PIPESIZE) % 2 ^ 32 →
      (([] : List (Bool × PipeInner)) = [] →
        pipeWrite (fun _ => 65) 1 pipeWitClosed false [] = none) ∧
      (∀ killed2 pipe2 rest,
        ([] : List (Bool × PipeInner)) = (killed2, pipe2) :: rest →
        pipeWrite (fun _ => 65) 1 pipeWitClosed false [] =
          pipeWriteLoop (fun _ => 65) 1 0 pipe2 killed2 rest
            [.wakeup .readCnt, .sleep .writeCnt])) ∧
    (pipeWitClosed.readOpen = true → false = false →
      pipeWitClosed.readCnt < 2 ^ 32 →
      pipeWitClosed.writeCnt + 1 < 2 ^ 32 →
      (pipeWitClosed.writeCnt + 2 ^ 32 - pipeWitClosed.readCnt) % 2 ^ 32
        + 1 ≤ PIPESIZE →
      ∃ pipe2, pipeWrite (fun _ => 65) 1 pipeWitClosed false [] =
        some (.ok (1, pipe2), [.wakeup .readCnt]) ∧
        pipe2.writeCnt = pipeWitClosed.writeCnt + 1 ∧
        (∀ i, i < 1 →
          pipe2.data ((pipeWitClosed.writeCnt + i) % PIPESIZE) =
            (fun _ => 65) i))) :=
  ⟨by decide, pipe_write_spec (fun _ => 65) 1 pipeWitClosed false []
    (by decide)⟩

/-!
## Write-ahead log commit and recovery

The log implementation itself (its `log.rs`) is not among the source
files under src/ — only its callers appear (`LOG.write` in inode.rs and
block.rs, `begin_op`/`end_op` in the process layer).  The definitions of
this section are therefore modelled from the spec (§4.9 commit sequence,
§4.9 recovery, §6 log-on-disk layout) rather than translated from code.
-/

def Block : Type := Nat → Nat

/-- Modelled from the spec: the durable state the log machinery touches —
the on-disk log header `{n, block-numbers}` (`n = 0` means no pending
commit), the log data blocks, and the home blocks of the file system. -/
structure LogDisk where
  headerN : Nat
  headerSlots : Nat → Nat
  logData : Nat → Block
  home : Nat → Block

/-- Modelled from the spec: the in-memory side of a committing
transaction — the recorded block numbers (duplicates absorbed by
`log_write`) and the live buffer-cache content of each recorded block. -/
structure LogMem where
  recorded : List Nat
  cache : Nat → Block

/-- Modelled from the spec, commit step (1): for each recorded blockno,
copy the live buffer's contents into the corresponding log block. -/
def commitWriteLog (d : LogDisk) (m : LogMem) : LogDisk :=
  { d with logData := fun i =>
      match m.recorded.get? i with
      | some bn => m.cache bn
      | none => d.logData i }

/-- Modelled from the spec, commit step (2), the commit point: write the
header with `n` set to the count and the recorded block numbers. -/
def commitWriteHead (d : LogDisk) (m : LogMem) : LogDisk :=
  { d with headerN := m.recorded.length,
           headerSlots := fun i =>
             match m.recorded.get? i with
             | some bn => bn
             | none => d.headerSlots i }

/-- Home-block contents after installing the first `k` logged blocks. -/
def installUpTo (d : LogDisk) : Nat → Nat → Block
  | 0 => d.home
  | i + 1 => fun bn =>
      if bn = d.headerSlots i then d.logData i else installUpTo d i bn

/-- Modelled from the spec, commit step (3): install the logged content
into the real home blocks. -/
def installTrans (d : LogDisk) : LogDisk :=
  { d with home := installUpTo d d.headerN }

/-- Modelled from the spec, commit step (4): write the header with
`n := 0`. -/
def commitClearHead (d : LogDisk) : LogDisk :=
  { d with headerN := 0 }

/-- Modelled from the spec: the whole commit sequence, steps (1)-(4)
in order (step (5), unpinning buffers, touches no durable state). -/
def commitSeq (d : LogDisk) (m : LogMem) : LogDisk :=
  commitClearHead (installTrans (commitWriteHead (commitWriteLog d m) m))

/-- Modelled from the spec: recovery on boot reads the header; if
`n > 0` it performs steps (3) and (4), otherwise nothing. -/
def logRecover (d : LogDisk) : LogDisk :=
  if 0 < d.headerN then commitClearHead (installTrans d) else d

/-- C3 (spec-modelled): for a transaction that `log_write`s block `b`
with content `m.cache b` and then commits, a crash at any point strictly
before the header write (step 2) recovers to the pre-transaction content
of home block `b`, while a crash after the header write and before the
header reset (step 4) recovers to the post-transaction content; the
commit point is exactly the header write. -/
theorem log_commit_crash_safety (d : LogDisk) (m : LogMem) (b : Nat)
    (hn : d.headerN = 0) (hrec : m.recorded = [b]) :
    commitSeq d m =
      commitClearHead (installTrans (commitWriteHead (commitWriteLog d m) m)) ∧
    (logRecover d).home b = d.home b ∧
    (logRecover (commitWriteLog d m)).home b = d.home b ∧
    (logRecover (commitWriteHead (commitWriteLog d m) m)).home b =
      m.cache b ∧
    (logRecover (installTrans (commitWriteHead (commitWriteLog d m) m))).home
      b = m.cache b := by
  refine ⟨rfl, ?_, ?_, ?_, ?_⟩
  · unfold logRecover
    rw [if_neg (by omega)]
  · unfold logRecover commitWriteLog
    rw [if_neg (by simp only; omega)]
  · unfold logRecover
    rw [if_pos (by simp [commitWriteHead, hrec])]
    show installUpTo (commitWriteHead (commitWriteLog d m) m)
      (commitWriteHead (commitWriteLog d m) m).headerN b = m.cache b
    rw [show (commitWriteHead (commitWriteLog d m) m).headerN = 1 by
      simp [commitWriteHead, hrec]]
    unfold installUpTo
    rw [if_pos (by simp [commitWriteHead, hrec])]
    simp [commitWriteHead, commitWriteLog, hrec]
  · unfold logRecover
    rw [if_pos (by simp [installTrans, commitWriteHead, hrec])]
    show installUpTo (installTrans (commitWriteHead (commitWriteLog d m) m))
      (installTrans (commitWriteHead (commitWriteLog d m) m)).headerN b =
      m.cache b
    rw [show (installTrans
        (commitWriteHead (commitWriteLog d m) m)).headerN = 1 by
      simp [installTrans, commitWriteHead, hrec]]
    unfold installUpTo
    rw [if_pos (by simp [installTrans, commitWriteHead, hrec])]
    simp [installTrans, commitWriteHead, commitWriteLog, hrec]

def logWitDisk : LogDisk :=
  { headerN := 0
    headerSlots := fun _ => 0
    logData := fun _ _ => 0
    home := fun _ _ => 1 }

def logWitMem : LogMem :=
  { recorded := [7], cache := fun _ _ => 2 }

theorem log_commit_crash_safety_witness :
    logWitDisk.headerN = 0 ∧ logWitMem.recorded = [7] ∧
    (commitSeq logWitDisk logWitMem =
      commitClearHead (installTrans (commitWriteHead
        (commitWriteLog logWitDisk logWitMem) logWitMem)) ∧
    (logRecover logWitDisk).home 7 = logWitDisk.home 7 ∧
    (logRecover (commitWriteLog logWitDisk logWitMem)).home 7 =
      logWitDisk.home 7 ∧
    (logRecover (commitWriteHead (commitWriteLog logWitDisk logWitMem)
      logWitMem)).home 7 = logWitMem.cache 7 ∧
    (logRecover (installTrans (commitWriteHead
      (commitWriteLog logWitDisk logWitMem) logWitMem))).home 7 =
      logWitMem.cache 7) :=
  ⟨rfl, rfl, log_commit_crash_safety logWitDisk logWitMem 7 rfl rfl⟩

/-!
## File system: disk, bitmap allocator, inode read/write (fs/inode.rs, fs/block.rs)

The buffer cache is modelled as write-through: `BCACHE.bread` yields the
current content of a disk block and `LOG.write` commits the modified
buffer, so block reads and writes act directly on the disk state.  The
free bitmap and the on-disk inode records are modelled as separate fields
of the disk state rather than as bytes inside their blocks; `bm_alloc`'s
scan over bitmap blocks and bits flattens to a scan over block numbers
in the same order.  Sources are kernel addresses (`Address::Kernel`),
whose `copy_in`/`copy_out` is a plain `ptr::copy` that always succeeds
(mm/mod.rs).
-/

def BSIZE : Nat := 1024

def NDIRECT : Nat := 12

def NINDIRECT : Nat := 256

def MAX_FILE_SIZE : Nat := 274432

inductive InodeType where
  | empty
  | directory
  | file
  | device
deriving DecidableEq

/-- On-disk inode structure `DiskInode` (inode.rs). -/
structure DInode where
  itype : InodeType
  major : Nat
  minor : Nat
  nlink : Nat
  size : Nat
  addrs : Nat → Nat

/-- Disk state: total block count (`SUPER_BLOCK.size()`), the free
bitmap, raw block contents (blockno → byte offset → byte), and the
on-disk inode records (inum → inode). -/
structure Fs where
  totalBlocks : Nat
  bitmap : Nat → Bool
  blocks : Nat → Nat → Nat
  inodes : Nat → DInode

/-- Number of blocks whose bitmap bit is clear. -/
def freeCount (d : Fs) : Nat :=
  (List.range d.totalBlocks).countP (fun bn => !d.bitmap bn)

/-- `bm_alloc` (block.rs): scan the bitmap for the first clear bit, set
it, zero the block, return its number; panic (`none`) if every bit is
set. -/
def bmAlloc (d : Fs) : Option (Nat × Fs) :=
  match (List.range d.totalBlocks).find? (fun bn => !d.bitmap bn) with
  | none => none
  | some bn => some (bn,
      { d with
        bitmap := fnUpdate d.bitmap bn true,
        blocks := fnUpdate d.blocks bn (fun _ => 0) })

/-- Little-endian `u32` read at slot `i` of a block, as done by
`ptr::read(buf_ptr.offset(i))` with `buf_ptr : *const BlockNo`. -/
def blkReadU32 (b : Nat → Nat) (i : Nat) : Nat :=
  b (4 * i) % 256 + 256 * (b (4 * i + 1) % 256) +
    65536 * (b (4 * i + 2) % 256) + 16777216 * (b (4 * i + 3) % 256)

/-- Little-endian `u32` write at slot `i` of a block. -/
def blkWriteU32 (b : Nat → Nat) (i v : Nat) : Nat → Nat :=
  fun a =>
    if a = 4 * i then v % 256
    else if a = 4 * i + 1 then v / 256 % 256
    else if a = 4 * i + 2 then v / 65536 % 256
    else if a = 4 * i + 3 then v / 16777216 % 256
    else b a

/-- `ptr::copy` of `cnt` bytes from `src` (starting at `srcPos`) into a
block at byte offset `off`. -/
def blkWriteBytes (b : Nat → Nat) (off : Nat) (src : Nat → Nat) (srcPos cnt : Nat) :
    Nat → Nat :=
  fun a => if off ≤ a ∧ a < off + cnt then src (srcPos + (a - off)) else b a

/-- Write a `u32` into slot `slot` of block `ibn` (the indirect-block
update `ptr::write(bn_ptr, free_bn); LOG.write(indirect_buf)`). -/
def slotWrite (d : Fs) (ibn slot v : Nat) : Fs :=
  { d with blocks := fnUpdate d.blocks ibn (blkWriteU32 (d.blocks ibn) slot v) }

/-- Copy `cnt` source bytes into block `bn` at offset `off` (the data
copy `src.copy_in(dst_ptr, write_count); LOG.write(buf)`). -/
def dataWrite (d : Fs) (bn off : Nat) (src : Nat → Nat) (srcPos cnt : Nat) : Fs :=
  { d with blocks := fnUpdate d.blocks bn (blkWriteBytes (d.blocks bn) off src srcPos cnt) }

/-- `InodeData::update` (inode.rs): write the in-memory inode back to
its on-disk record. -/
def inodeUpdate (d : Fs) (inum : Nat) (ino : DInode) : Fs :=
  { d with inodes := fnUpdate d.inodes inum ino }

/-- `InodeData::map_blockno` (inode.rs): resolve the `offsetBn`-th data
block of the inode, allocating the data block and/or the indirect block
when the recorded address is zero; panics (`none`) past
`NDIRECT + NINDIRECT` or when `bm_alloc` finds no free block. -/
def mapBlockno (d : Fs) (ino : DInode) (offsetBn : Nat) : Option (Nat × DInode × Fs) :=
  if offsetBn < NDIRECT then
    if ino.addrs offsetBn = 0 then
      match bmAlloc d with
      | none => none
      | some (freeBn, d1) =>
          some (freeBn, { ino with addrs := fnUpdate ino.addrs offsetBn freeBn }, d1)
    else
      some (ino.addrs offsetBn, ino, d)
  else if offsetBn < NDIRECT + NINDIRECT then
    match (if ino.addrs NDIRECT = 0 then
             match bmAlloc d with
             | none => none
             | some (freeBn, d1) =>
                 some (freeBn, { ino with addrs := fnUpdate ino.addrs NDIRECT freeBn }, d1)
           else some (ino.addrs NDIRECT, ino, d)) with
    | none => none
    | some (indirectBn, ino1, d1) =>
        let bn := blkReadU32 (d1.blocks indirectBn) (offsetBn - NDIRECT)
        if bn = 0 then
          match bmAlloc d1 with
          | none => none
          | some (freeBn, d2) =>
              some (freeBn, ino1, slotWrite d2 indirectBn (offsetBn - NDIRECT) freeBn)
        else
          some (bn, ino1, d1)
  else none

/-- Block-aligned tail of the `try_iwrite` loop: each iteration writes
`min BSIZE count` bytes into the next data block (`write_count =
min(BSIZE, count)` after the first iteration, `block_offset = 0`). -/
def tryIwriteAligned (src : Nat → Nat) (d : Fs) (ino : DInode)
    (blockBase srcPos count : Nat) : Option (Fs × DInode) :=
  if count = 0 then some (d, ino)
  else
    let writeCount := min BSIZE count
    match mapBlockno d ino blockBase with
    | none => none
    | some (bn, ino1, d1) =>
        tryIwriteAligned src (dataWrite d1 bn 0 src srcPos writeCount)
          ino1 (blockBase + 1) (srcPos + writeCount) (count - writeCount)
termination_by count
decreasing_by simp only [BSIZE]; omega

/-- `InodeData::try_iwrite` (inode.rs) for a kernel-address source:
reject `offset > size`, `offset + count` overflowing `u32`
(`checked_add`), and `offset + count > MAX_FILE_SIZE`; then write block
by block (first iteration with `write_count = min(BSIZE - offset %
BSIZE, count)`), grow the size to `end` if the file grew, write the
inode back (`update`), and return `size - offset`. -/
def tryIwrite (d : Fs) (inum : Nat) (ino : DInode) (src : Nat → Nat)
    (offset count : Nat) : Option (Except Unit (Nat × Fs × DInode)) :=
  if ino.size < offset then some (.error ())
  else if 2 ^ 32 ≤ offset + count then some (.error ())
  else if MAX_FILE_SIZE < offset + count then some (.error ())
  else
    let res :=
      if count = 0 then some (d, ino)
      else
        let blockOffset := offset % BSIZE
        let writeCount := min (BSIZE - blockOffset) count
        match mapBlockno d ino (offset / BSIZE) with
        | none => none
        | some (bn, ino1, d1) =>
            tryIwriteAligned src (dataWrite d1 bn blockOffset src 0 writeCount)
              ino1 (offset / BSIZE + 1) writeCount (count - writeCount)
    match res with
    | none => none
    | some (d2, ino2) =>
        let size := offset + count
        let ino3 := if ino2.size < size then { ino2 with size := size } else ino2
        some (.ok (size - offset, inodeUpdate d2 inum ino3, ino3))

/-- `InodeData::iwrite` (inode.rs): wrapper of `try_iwrite` succeeding
only when all requested bytes were written. -/
def iwrite (d : Fs) (inum : Nat) (ino : DInode) (src : Nat → Nat)
    (offset count : Nat) : Option (Except Unit (Fs × DInode)) :=
  match tryIwrite d inum ino src offset count with
  | none => none
  | some (.error ()) => some (.error ())
  | some (.ok (ret, d1, ino1)) =>
      if ret = count then some (.ok (d1, ino1)) else some (.error ())

/-- Block-aligned tail of the `iread` loop, accumulating the bytes
copied to the (kernel) destination. -/
def ireadAligned (d : Fs) (ino : DInode) (blockBase count : Nat) (acc : List Nat) :
    Option (List Nat × Fs × DInode) :=
  if count = 0 then some (acc, d, ino)
  else
    let readCount := min BSIZE count
    match mapBlockno d ino blockBase with
    | none => none
    | some (bn, ino1, d1) =>
        ireadAligned d1 ino1 (blockBase + 1) (count - readCount)
          (acc ++ (List.range readCount).map (fun i => d1.blocks bn i))
termination_by count
decreasing_by simp only [BSIZE]; omega

/-- `InodeData::iread` (inode.rs) for a kernel-address destination:
reject `offset + count` overflowing `u32` or exceeding the inode size,
then read block by block; no `update` call. -/
def iread (d : Fs) (ino : DInode) (offset count : Nat) :
    Option (Except Unit (List Nat × Fs × DInode)) :=
  if 2 ^ 32 ≤ offset + count then some (.error ())
  else if ino.size < offset + count then some (.error ())
  else
    let res :=
      if count = 0 then some (([] : List Nat), d, ino)
      else
        let blockOffset := offset % BSIZE
        let readCount := min (BSIZE - blockOffset) count
        match mapBlockno d ino (offset / BSIZE) with
        | none => none
        | some (bn, ino1, d1) =>
            ireadAligned d1 ino1 (offset / BSIZE + 1) (count - readCount)
              ((List.range readCount).map (fun i => d1.blocks bn (blockOffset + i)))
    match res with
    | none => none
    | some (bytes, d2, ino2) => some (.ok (bytes, d2, ino2))

/-- Block number the `b`-th file block of `ino` resolves to on disk. -/
def resolvedBn (d : Fs) (ino : DInode) (b : Nat) : Nat :=
  if b < NDIRECT then ino.addrs b
  else blkReadU32 (d.blocks (ino.addrs NDIRECT)) (b - NDIRECT)

/-- Byte `k` of the file held by `ino`, read through its block map. -/
def inoByte (d : Fs) (ino : DInode) (k : Nat) : Nat :=
  d.blocks (resolvedBn d ino (k / BSIZE)) (k % BSIZE)

/-- The `b`-th file block of `ino` already has a disk block (so
`map_blockno` takes no allocation branch). -/
def blockMapped (d : Fs) (ino : DInode) (b : Nat) : Prop :=
  if b < NDIRECT then 0 < ino.addrs b
  else 0 < ino.addrs NDIRECT ∧
    0 < blkReadU32 (d.blocks (ino.addrs NDIRECT)) (b - NDIRECT)

lemma blkReadU32_lt (b : Nat → Nat) (i : Nat) : blkReadU32 b i < 2 ^ 32 := by
  have h0 : b (4 * i) % 256 < 256 := Nat.mod_lt _ (by norm_num)
  have h1 : b (4 * i + 1) % 256 < 256 := Nat.mod_lt _ (by norm_num)
  have h2 : b (4 * i + 2) % 256 < 256 := Nat.mod_lt _ (by norm_num)
  have h3 : b (4 * i + 3) % 256 < 256 := Nat.mod_lt _ (by norm_num)
  have hp : (2 : Nat) ^ 32 = 4294967296 := by norm_num
  unfold blkReadU32
  rw [hp]
  omega

lemma blkWriteU32_read_same (b : Nat → Nat) (i v : Nat) (hv : v < 2 ^ 32) :
    blkReadU32 (blkWriteU32 b i v) i = v := by
  have hp : (2 : Nat) ^ 32 = 4294967296 := by norm_num
  rw [hp] at hv
  simp only [blkReadU32, blkWriteU32]
  rw [if_pos True.intro]
  rw [if_neg (by omega), if_pos True.intro]
  rw [if_neg (by omega), if_neg (by omega), if_pos True.intro]
  rw [if_neg (by omega), if_neg (by omega), if_neg (by omega), if_pos True.intro]
  have e1 : v / 256 / 256 = v / 65536 := by rw [Nat.div_div_eq_div_mul]
  have e2 : v / 65536 / 256 = v / 16777216 := by
    rw [Nat.div_div_eq_div_mul]
  omega

lemma blkWriteU32_skip (b : Nat → Nat) (i v a : Nat) (h : a < 4 * i ∨ 4 * i + 3 < a) :
    blkWriteU32 b i v a = b a := by
  have c0 : ¬ a = 4 * i := by omega
  have c1 : ¬ a = 4 * i + 1 := by omega
  have c2 : ¬ a = 4 * i + 2 := by omega
  have c3 : ¬ a = 4 * i + 3 := by omega
  simp only [blkWriteU32]
  rw [if_neg c0, if_neg c1, if_neg c2, if_neg c3]

lemma blkWriteU32_read_other (b : Nat → Nat) (i j v : Nat) (h : j ≠ i) :
    blkReadU32 (blkWriteU32 b i v) j = blkReadU32 b j := by
  have e0 := blkWriteU32_skip b i v (4 * j) (by omega)
  have e1 := blkWriteU32_skip b i v (4 * j + 1) (by omega)
  have e2 := blkWriteU32_skip b i v (4 * j + 2) (by omega)
  have e3 := blkWriteU32_skip b i v (4 * j + 3) (by omega)
  simp only [blkReadU32]
  rw [e0, e1, e2, e3]

lemma blkReadU32_zeroBlock (i : Nat) : blkReadU32 (fun _ => 0) i = 0 := by
  simp [blkReadU32]

lemma blkWriteBytes_in (b : Nat → Nat) (off : Nat) (src : Nat → Nat) (sp cnt a : Nat)
    (h1 : off ≤ a) (h2 : a < off + cnt) :
    blkWriteBytes b off src sp cnt a = src (sp + (a - off)) := by
  simp only [blkWriteBytes]
  rw [if_pos ⟨h1, h2⟩]

lemma blkWriteBytes_out (b : Nat → Nat) (off : Nat) (src : Nat → Nat) (sp cnt a : Nat)
    (h : a < off ∨ off + cnt ≤ a) :
    blkWriteBytes b off src sp cnt a = b a := by
  simp only [blkWriteBytes]
  rw [if_neg (by omega)]

lemma countP_congr_list {p q : Nat → Bool} :
    ∀ (l : List Nat), (∀ a ∈ l, p a = q a) → l.countP p = l.countP q := by
  intro l
  induction l with
  | nil => intro _; rfl
  | cons a l ihl =>
    intro h
    have htail := ihl (fun b hb => h b (List.mem_cons_of_mem a hb))
    have hhead := h a (List.mem_cons_self a l)
    simp only [List.countP_cons, htail, hhead]

lemma countP_range_update_true (bm : Nat → Bool) (bn : Nat) :
    ∀ N, bn < N → bm bn = false →
    (List.range N).countP (fun b => !(fnUpdate bm bn true b)) + 1 =
    (List.range N).countP (fun b => !bm b) := by
  intro N
  induction N with
  | zero => intro h; exact absurd h (Nat.not_lt_zero bn)
  | succ N ih =>
    intro hlt hf
    rw [List.range_succ, List.countP_append, List.countP_append]
    rcases Nat.lt_succ_iff_lt_or_eq.mp hlt with h | h
    · have hN : fnUpdate bm bn true N = bm N := by
        unfold fnUpdate
        rw [if_neg (by omega)]
      simp only [List.countP_cons, List.countP_nil, hN]
      have := ih h hf
      omega
    · subst h
      have hcong : (List.range bn).countP (fun b => !(fnUpdate bm bn true b)) =
          (List.range bn).countP (fun b => !bm b) := by
        refine countP_congr_list _ (fun a ha => ?_)
        rw [List.mem_range] at ha
        unfold fnUpdate
        rw [if_neg (by omega)]
      rw [hcong]
      simp only [List.countP_cons, List.countP_nil]
      unfold fnUpdate
      rw [if_pos rfl]
      simp only [hf]
      simp

lemma bmAlloc_spec (d : Fs) (h : 0 < freeCount d) :
    ∃ bn, bmAlloc d = some (bn,
      { d with bitmap := fnUpdate d.bitmap bn true,
               blocks := fnUpdate d.blocks bn (fun _ => 0) }) ∧
      bn < d.totalBlocks ∧ d.bitmap bn = false := by
  have hex : ∃ b ∈ List.range d.totalBlocks, (!d.bitmap b) = true := by
    by_contra hc
    push_neg at hc
    have hz : (List.range d.totalBlocks).countP (fun bn => !d.bitmap bn) = 0 := by
      rw [List.countP_eq_zero]
      intro a ha
      exact fun hp => (hc a ha) hp
    unfold freeCount at h
    omega
  have hs : ((List.range d.totalBlocks).find? (fun bn => !d.bitmap bn)).isSome := by
    rw [List.find?_isSome]
    exact hex
  obtain ⟨bn, hfind⟩ := Option.isSome_iff_exists.mp hs
  have hp := List.find?_some hfind
  have hmem : bn ∈ List.range d.totalBlocks := List.mem_of_find?_eq_some hfind
  rw [List.mem_range] at hmem
  refine ⟨bn, ?_, hmem, by simpa using hp⟩
  unfold bmAlloc
  rw [hfind]

lemma freeCount_after_mark (d : Fs) (bn : Nat) (hlt : bn < d.totalBlocks)
    (hf : d.bitmap bn = false) :
    freeCount { d with bitmap := fnUpdate d.bitmap bn true,
                       blocks := fnUpdate d.blocks bn (fun _ => 0) } + 1 =
    freeCount d := by
  unfold freeCount
  exact countP_range_update_true d.bitmap bn d.totalBlocks hlt hf

lemma mapBlockno_direct_hit (d : Fs) (ino : DInode) (offsetBn : Nat)
    (h1 : offsetBn < NDIRECT) (h2 : ino.addrs offsetBn ≠ 0) :
    mapBlockno d ino offsetBn = some (ino.addrs offsetBn, ino, d) := by
  unfold mapBlockno
  rw [if_pos h1, if_neg h2]

lemma mapBlockno_direct_alloc (d : Fs) (ino : DInode) (offsetBn freeBn : Nat) (d1 : Fs)
    (h1 : offsetBn < NDIRECT) (h2 : ino.addrs offsetBn = 0)
    (h3 : bmAlloc d = some (freeBn, d1)) :
    mapBlockno d ino offsetBn =
      some (freeBn, { ino with addrs := fnUpdate ino.addrs offsetBn freeBn }, d1) := by
  unfold mapBlockno
  rw [if_pos h1, if_pos h2, h3]

lemma mapBlockno_indirect_hit (d : Fs) (ino : DInode) (offsetBn : Nat)
    (h1 : NDIRECT ≤ offsetBn) (h2 : offsetBn < NDIRECT + NINDIRECT)
    (h3 : ino.addrs NDIRECT ≠ 0)
    (h4 : blkReadU32 (d.blocks (ino.addrs NDIRECT)) (offsetBn - NDIRECT) ≠ 0) :
    mapBlockno d ino offsetBn =
      some (blkReadU32 (d.blocks (ino.addrs NDIRECT)) (offsetBn - NDIRECT), ino, d) := by
  unfold mapBlockno
  rw [if_neg (by omega), if_pos h2, if_neg h3]
  simp only
  rw [if_neg h4]

lemma mapBlockno_indirect_allocslot (d : Fs) (ino : DInode) (offsetBn freeBn : Nat)
    (d2 : Fs)
    (h1 : NDIRECT ≤ offsetBn) (h2 : offsetBn < NDIRECT + NINDIRECT)
    (h3 : ino.addrs NDIRECT ≠ 0)
    (h4 : blkReadU32 (d.blocks (ino.addrs NDIRECT)) (offsetBn - NDIRECT) = 0)
    (h5 : bmAlloc d = some (freeBn, d2)) :
    mapBlockno d ino offsetBn =
      some (freeBn, ino, slotWrite d2 (ino.addrs NDIRECT) (offsetBn - NDIRECT) freeBn) := by
  unfold mapBlockno
  rw [if_neg (by omega), if_pos h2, if_neg h3]
  simp only
  rw [if_pos h4, h5]

lemma mapBlockno_indirect_allocboth (d : Fs) (ino : DInode) (offsetBn ibn freeBn : Nat)
    (d1 d2 : Fs)
    (h1 : NDIRECT ≤ offsetBn) (h2 : offsetBn < NDIRECT + NINDIRECT)
    (h3 : ino.addrs NDIRECT = 0)
    (h5 : bmAlloc d = some (ibn, d1))
    (hslot : blkReadU32 (d1.blocks ibn) (offsetBn - NDIRECT) = 0)
    (h6 : bmAlloc d1 = some (freeBn, d2)) :
    mapBlockno d ino offsetBn =
      some (freeBn, { ino with addrs := fnUpdate ino.addrs NDIRECT ibn },
        slotWrite d2 ibn (offsetBn - NDIRECT) freeBn) := by
  unfold mapBlockno
  rw [if_neg (by omega), if_pos h2, if_pos h3, h5]
  simp only
  rw [if_pos hslot, h6]

lemma freeCount_dataWrite (d : Fs) (bn off : Nat) (src : Nat → Nat) (sp cnt : Nat) :
    freeCount (dataWrite d bn off src sp cnt) = freeCount d := rfl

lemma freeCount_slotWrite (d : Fs) (ibn s v : Nat) :
    freeCount (slotWrite d ibn s v) = freeCount d := rfl

lemma dataWrite_totalBlocks (d : Fs) (bn off : Nat) (src : Nat → Nat) (sp cnt : Nat) :
    (dataWrite d bn off src sp cnt).totalBlocks = d.totalBlocks := rfl

lemma slotWrite_totalBlocks (d : Fs) (ibn s v : Nat) :
    (slotWrite d ibn s v).totalBlocks = d.totalBlocks := rfl

/-- One `map_blockno` call in range panics neither way and costs at most
two block allocations. -/
lemma mapBlockno_progress (d : Fs) (ino : DInode) (j : Nat)
    (hj : j < NDIRECT + NINDIRECT) (hfc : 2 ≤ freeCount d) :
    ∃ bn ino1 d1, mapBlockno d ino j = some (bn, ino1, d1) ∧
      d1.totalBlocks = d.totalBlocks ∧
      freeCount d ≤ freeCount d1 + 2 := by
  by_cases hdir : j < NDIRECT
  · by_cases ha : ino.addrs j = 0
    · obtain ⟨bn, hbm, hlt, hf⟩ := bmAlloc_spec d (by omega)
      refine ⟨bn, _, _, mapBlockno_direct_alloc d ino j bn _ hdir ha hbm, rfl, ?_⟩
      have := freeCount_after_mark d bn hlt hf
      omega
    · exact ⟨_, _, _, mapBlockno_direct_hit d ino j hdir ha, rfl, by omega⟩
  · have hge : NDIRECT ≤ j := by omega
    by_cases ha : ino.addrs NDIRECT = 0
    · obtain ⟨ibn, hbm1, hlt1, hf1⟩ := bmAlloc_spec d (by omega)
      have hdec1 := freeCount_after_mark d ibn hlt1 hf1
      set d1 : Fs := { d with bitmap := fnUpdate d.bitmap ibn true,
                              blocks := fnUpdate d.blocks ibn (fun _ => 0) } with hd1
      have hz : d1.blocks ibn = (fun _ => 0) := fnUpdate_same d.blocks ibn _
      have hslot : blkReadU32 (d1.blocks ibn) (j - NDIRECT) = 0 := by
        rw [hz, blkReadU32_zeroBlock]
      obtain ⟨fbn, hbm2, hlt2, hf2⟩ := bmAlloc_spec d1 (by omega)
      have hdec2 := freeCount_after_mark d1 fbn hlt2 hf2
      refine ⟨fbn, _, _,
        mapBlockno_indirect_allocboth d ino j ibn fbn d1 _ hge hj ha hbm1 hslot hbm2,
        ?_, ?_⟩
      · rw [slotWrite_totalBlocks]
      · rw [freeCount_slotWrite]
        omega
    · by_cases hs : blkReadU32 (d.blocks (ino.addrs NDIRECT)) (j - NDIRECT) = 0
      · obtain ⟨fbn, hbm, hlt, hf⟩ := bmAlloc_spec d (by omega)
        have hdec := freeCount_after_mark d fbn hlt hf
        refine ⟨fbn, _, _,
          mapBlockno_indirect_allocslot d ino j fbn _ hge hj ha hs hbm, ?_, ?_⟩
        · rw [slotWrite_totalBlocks]
        · rw [freeCount_slotWrite]
          omega
      · exact ⟨_, _, _, mapBlockno_indirect_hit d ino j hge hj ha hs, rfl, by omega⟩

/-- The aligned write loop completes when the range stays below
`MAX_FILE_SIZE` and enough free blocks remain. -/
lemma tryIwriteAligned_progress (src : Nat → Nat) :
    ∀ count d ino blockBase srcPos,
      blockBase * BSIZE + count ≤ MAX_FILE_SIZE →
      2 * (NDIRECT + NINDIRECT) ≤ freeCount d + 2 * blockBase →
      ∃ d' ino', tryIwriteAligned src d ino blockBase srcPos count = some (d', ino') := by
  intro count
  induction count using Nat.strong_induction_on with
  | _ count ih =>
    intro d ino blockBase srcPos hrange hfree
    by_cases hc : count = 0
    · refine ⟨d, ino, ?_⟩
      rw [tryIwriteAligned.eq_def, if_pos hc]
    · have hjlt : blockBase < NDIRECT + NINDIRECT := by
        simp only [BSIZE, MAX_FILE_SIZE, NDIRECT, NINDIRECT] at hrange ⊢
        omega
      have hfc2 : 2 ≤ freeCount d := by
        simp only [NDIRECT, NINDIRECT] at hfree hjlt
        omega
      obtain ⟨bn, ino1, d1, hmap, htb, hfc⟩ := mapBlockno_progress d ino blockBase hjlt hfc2
      obtain ⟨d', ino', hrec⟩ := ih (count - min BSIZE count)
        (by simp only [BSIZE]; omega)
        (dataWrite d1 bn 0 src srcPos (min BSIZE count)) ino1 (blockBase + 1)
        (srcPos + min BSIZE count)
        (by
          simp only [BSIZE, MAX_FILE_SIZE, NDIRECT, NINDIRECT] at hrange hjlt ⊢
          omega)
        (by
          rw [freeCount_dataWrite]
          simp only [NDIRECT, NINDIRECT] at hfree ⊢
          omega)
      refine ⟨d', ino', ?_⟩
      rw [tryIwriteAligned.eq_def, if_neg hc]
      simp only
      rw [hmap]
      exact hrec

lemma tryIwrite_err_offset (d : Fs) (inum : Nat) (ino : DInode) (src : Nat → Nat)
    (offset count : Nat) (h : ino.size < offset) :
    tryIwrite d inum ino src offset count = some (.error ()) := by
  unfold tryIwrite
  rw [if_pos h]

lemma tryIwrite_err_big (d : Fs) (inum : Nat) (ino : DInode) (src : Nat → Nat)
    (offset count : Nat) (hbig : MAX_FILE_SIZE < offset + count) :
    tryIwrite d inum ino src offset count = some (.error ()) := by
  unfold tryIwrite
  by_cases h1 : ino.size < offset
  · rw [if_pos h1]
  · rw [if_neg h1]
    by_cases h2 : 2 ^ 32 ≤ offset + count
    · rw [if_pos h2]
    · rw [if_neg h2, if_pos hbig]

/-- `try_iwrite` with a kernel source succeeds and returns the full
count whenever the write is in range and enough free blocks remain. -/
lemma tryIwrite_ok (d : Fs) (inum : Nat) (ino : DInode) (src : Nat → Nat)
    (offset count : Nat)
    (hoff : offset ≤ ino.size) (hend : offset + count ≤ MAX_FILE_SIZE)
    (hfree : 2 * (NDIRECT + NINDIRECT) ≤ freeCount d) :
    ∃ d' ino', tryIwrite d inum ino src offset count = some (.ok (count, d', ino')) := by
  have h32 : ¬ 2 ^ 32 ≤ offset + count := by
    have hp : (2 : Nat) ^ 32 = 4294967296 := by norm_num
    rw [hp]
    simp only [MAX_FILE_SIZE] at hend
    omega
  unfold tryIwrite
  rw [if_neg (by omega), if_neg h32, if_neg (by omega)]
  by_cases hc : count = 0
  · subst hc
    rw [if_pos rfl]
    simp only
    rw [if_neg (by omega)]
    exact ⟨inodeUpdate d inum ino, ino, by simp⟩
  · rw [if_neg hc]
    have hj0 : offset / BSIZE < NDIRECT + NINDIRECT := by
      simp only [BSIZE, MAX_FILE_SIZE, NDIRECT, NINDIRECT] at hend ⊢
      omega
    obtain ⟨bn, ino1, d1, hmap, htb, hfc⟩ :=
      mapBlockno_progress d ino (offset / BSIZE) hj0
        (by simp only [NDIRECT, NINDIRECT] at hfree; omega)
    obtain ⟨d2, ino2, hrec⟩ := tryIwriteAligned_progress src
      (count - min (BSIZE - offset % BSIZE) count)
      (dataWrite d1 bn (offset % BSIZE) src 0 (min (BSIZE - offset % BSIZE) count))
      ino1 (offset / BSIZE + 1) (min (BSIZE - offset % BSIZE) count)
      (by
        simp only [BSIZE, MAX_FILE_SIZE, NDIRECT, NINDIRECT] at hend hj0 ⊢
        omega)
      (by
        rw [freeCount_dataWrite]
        simp only [BSIZE, NDIRECT, NINDIRECT] at hfree ⊢
        omega)
    simp only
    rw [hmap]
    simp only
    rw [hrec]
    simp only
    have hret : offset + count - offset = count := by omega
    rw [hret]
    exact ⟨_, _, rfl⟩

/-- `iwrite` mirrors `try_iwrite`, demanding the full count. -/
lemma iwrite_of_tryIwrite_ok (d : Fs) (inum : Nat) (ino : DInode) (src : Nat → Nat)
    (offset count : Nat) (d' : Fs) (ino' : DInode)
    (h : tryIwrite d inum ino src offset count = some (.ok (count, d', ino'))) :
    iwrite d inum ino src offset count = some (.ok (d', ino')) := by
  unfold iwrite
  rw [h]
  simp

lemma iwrite_of_tryIwrite_err (d : Fs) (inum : Nat) (ino : DInode) (src : Nat → Nat)
    (offset count : Nat)
    (h : tryIwrite d inum ino src offset count = some (.error ())) :
    iwrite d inum ino src offset count = some (.error ()) := by
  unfold iwrite
  rw [h]

/-- C2: for every inode, a write starting past the current size returns
an error; a write with `offset ≤ size` whose end exceeds `MAX_FILE_SIZE`
returns an error; and a write with `offset ≤ size` whose end equals
exactly `MAX_FILE_SIZE` is accepted, provided the disk has free blocks
for the at most two allocations of each touched file block. -/
theorem iwrite_bounds (d : Fs) (inum : Nat) (ino : DInode) (src : Nat → Nat)
    (offset count : Nat) :
    (ino.size < offset → iwrite d inum ino src offset count = some (.error ())) ∧
    (offset ≤ ino.size → MAX_FILE_SIZE < offset + count →
      iwrite d inum ino src offset count = some (.error ())) ∧
    (offset ≤ ino.size → offset + count = MAX_FILE_SIZE →
      2 * (NDIRECT + NINDIRECT) ≤ freeCount d →
      ∃ d' ino', iwrite d inum ino src offset count = some (.ok (d', ino'))) := by
  refine ⟨?_, ?_, ?_⟩
  · intro h
    exact iwrite_of_tryIwrite_err _ _ _ _ _ _ (tryIwrite_err_offset d inum ino src offset count h)
  · intro _ hbig
    exact iwrite_of_tryIwrite_err _ _ _ _ _ _ (tryIwrite_err_big d inum ino src offset count hbig)
  · intro hoff hexact hfree
    obtain ⟨d', ino', h⟩ := tryIwrite_ok d inum ino src offset count hoff (by omega) hfree
    exact ⟨d', ino', iwrite_of_tryIwrite_ok d inum ino src offset count d' ino' h⟩

def dWit2 : Fs :=
  { totalBlocks := 540
    bitmap := fun bn => bn == 0
    blocks := fun _ _ => 0
    inodes := fun _ => ⟨InodeType.empty, 0, 0, 0, 0, fun _ => 0⟩ }

def inoWit2 : DInode :=
  { itype := InodeType.file
    major := 0
    minor := 0
    nlink := 1
    size := 0
    addrs := fun _ => 0 }

set_option maxRecDepth 8000 in
theorem iwrite_bounds_witness :
    (inoWit2.size < 1 ∧
      iwrite dWit2 1 inoWit2 (fun _ => 7) 1 5 = some (.error ())) ∧
    (0 ≤ inoWit2.size ∧ MAX_FILE_SIZE < 0 + (MAX_FILE_SIZE + 1) ∧
      iwrite dWit2 1 inoWit2 (fun _ => 7) 0 (MAX_FILE_SIZE + 1) = some (.error ())) ∧
    (0 ≤ inoWit2.size ∧ 0 + MAX_FILE_SIZE = MAX_FILE_SIZE ∧
      2 * (NDIRECT + NINDIRECT) ≤ freeCount dWit2 ∧
      ∃ d' ino', iwrite dWit2 1 inoWit2 (fun _ => 7) 0 MAX_FILE_SIZE =
        some (.ok (d', ino'))) := by
  have hfc : 2 * (NDIRECT + NINDIRECT) ≤ freeCount dWit2 := by decide
  refine ⟨⟨by decide, (iwrite_bounds dWit2 1 inoWit2 (fun _ => 7) 1 5).1 (by decide)⟩,
    ⟨by decide, by simp only [MAX_FILE_SIZE]; omega,
      (iwrite_bounds dWit2 1 inoWit2 (fun _ => 7) 0 (MAX_FILE_SIZE + 1)).2.1 (by decide)
        (by simp only [MAX_FILE_SIZE]; omega)⟩,
    ⟨by decide, rfl, hfc,
      (iwrite_bounds dWit2 1 inoWit2 (fun _ => 7) 0 MAX_FILE_SIZE).2.2 (by decide) rfl hfc⟩⟩

lemma dataWrite_bitmap (d : Fs) (bn off : Nat) (src : Nat → Nat) (sp cnt : Nat) :
    (dataWrite d bn off src sp cnt).bitmap = d.bitmap := rfl

lemma dataWrite_inodes (d : Fs) (bn off : Nat) (src : Nat → Nat) (sp cnt : Nat) :
    (dataWrite d bn off src sp cnt).inodes = d.inodes := rfl

lemma dataWrite_blocks_other (d : Fs) (bn off : Nat) (src : Nat → Nat) (sp cnt b : Nat)
    (h : b ≠ bn) : (dataWrite d bn off src sp cnt).blocks b = d.blocks b := by
  simp only [dataWrite]
  exact fnUpdate_other d.blocks bn b _ h

lemma dataWrite_blocks_same (d : Fs) (bn off : Nat) (src : Nat → Nat) (sp cnt : Nat) :
    (dataWrite d bn off src sp cnt).blocks bn = blkWriteBytes (d.blocks bn) off src sp cnt := by
  simp only [dataWrite]
  exact fnUpdate_same d.blocks bn _

lemma slotWrite_bitmap (d : Fs) (ibn s v : Nat) :
    (slotWrite d ibn s v).bitmap = d.bitmap := rfl

lemma slotWrite_blocks_other (d : Fs) (ibn s v b : Nat) (h : b ≠ ibn) :
    (slotWrite d ibn s v).blocks b = d.blocks b := by
  simp only [slotWrite]
  exact fnUpdate_other d.blocks ibn b _ h

lemma slotWrite_blocks_same (d : Fs) (ibn s v : Nat) :
    (slotWrite d ibn s v).blocks ibn = blkWriteU32 (d.blocks ibn) s v := by
  simp only [slotWrite]
  exact fnUpdate_same d.blocks ibn _

lemma fnUpdate_true_mono (bm : Nat → Bool) (x y : Nat) (h : bm y = true) :
    fnUpdate bm x true y = true := by
  unfold fnUpdate
  by_cases he : y = x
  · rw [if_pos he]
  · rw [if_neg he]
    exact h

lemma resolvedBn_direct (d : Fs) (ino : DInode) (b : Nat) (h : b < NDIRECT) :
    resolvedBn d ino b = ino.addrs b := by
  unfold resolvedBn
  rw [if_pos h]

lemma resolvedBn_indirect (d : Fs) (ino : DInode) (b : Nat) (h : ¬ b < NDIRECT) :
    resolvedBn d ino b =
      blkReadU32 (d.blocks (ino.addrs NDIRECT)) (b - NDIRECT) := by
  unfold resolvedBn
  rw [if_neg h]

/-- Loop invariant of the fresh-file write in `try_iwrite`: after the
first `j` block iterations writing `src` from offset `0`, the direct and
indirect maps are allocated exactly up to block `j`, the allocated
blocks are marked in the bitmap and distinct from the indirect block,
the written prefix reads back as `src`, and at most one extra block per
iteration (plus one for the indirect block) has been consumed. -/
structure WInv (d0 : Fs) (src : Nat → Nat) (n j : Nat) (d : Fs) (ino : DInode) : Prop where
  tb : d.totalBlocks = d0.totalBlocks
  b0 : d.bitmap 0 = true
  sz : ino.size = 0
  dirPos : ∀ i, i < j → i < NDIRECT → 0 < ino.addrs i ∧ d.bitmap (ino.addrs i) = true
  dirZero : ∀ i, j ≤ i → i < NDIRECT → ino.addrs i = 0
  indZero : j ≤ NDIRECT → ino.addrs NDIRECT = 0
  indPos : NDIRECT < j → 0 < ino.addrs NDIRECT ∧ d.bitmap (ino.addrs NDIRECT) = true
  slotPos : NDIRECT < j → ∀ i, i < j - NDIRECT →
    0 < blkReadU32 (d.blocks (ino.addrs NDIRECT)) i ∧
    d.bitmap (blkReadU32 (d.blocks (ino.addrs NDIRECT)) i) = true
  slotZero : NDIRECT < j → ∀ i, j - NDIRECT ≤ i → i < NINDIRECT →
    blkReadU32 (d.blocks (ino.addrs NDIRECT)) i = 0
  dirNe : NDIRECT < j → ∀ i, i < NDIRECT → ino.addrs i ≠ ino.addrs NDIRECT
  slotNe : NDIRECT < j → ∀ i, i < j - NDIRECT →
    blkReadU32 (d.blocks (ino.addrs NDIRECT)) i ≠ ino.addrs NDIRECT
  content : ∀ k, k < min (j * BSIZE) n → inoByte d ino k = src k
  acct : freeCount d0 ≤ freeCount d + j + (if NDIRECT < j then 1 else 0)

lemma wInv_init (d0 : Fs) (src : Nat → Nat) (n : Nat) (ino0 : DInode)
    (hb0 : d0.bitmap 0 = true) (hsz : ino0.size = 0)
    (haddr : ∀ i, ino0.addrs i = 0) :
    WInv d0 src n 0 d0 ino0 := by
  refine ⟨rfl, hb0, hsz, ?_, ?_, ?_, ?_, ?_, ?_, ?_, ?_, ?_, ?_⟩
  · intro i hi _
    exact absurd hi (Nat.not_lt_zero i)
  · intro i _ _
    exact haddr i
  · intro _
    exact haddr NDIRECT
  · intro h
    exact absurd h (Nat.not_lt_zero NDIRECT)
  · intro h
    exact absurd h (Nat.not_lt_zero NDIRECT)
  · intro h
    exact absurd h (Nat.not_lt_zero NDIRECT)
  · intro h
    exact absurd h (Nat.not_lt_zero NDIRECT)
  · intro h
    exact absurd h (Nat.not_lt_zero NDIRECT)
  · intro k hk
    rw [Nat.zero_mul, Nat.zero_min] at hk
    exact absurd hk (Nat.not_lt_zero k)
  · rw [if_neg (Nat.not_lt_zero NDIRECT)]
    omega

/-- One write-loop iteration in the direct range preserves the
invariant. -/
lemma wInv_step_direct (d0 : Fs) (src : Nat → Nat) (n j : Nat) (d : Fs) (ino : DInode)
    (hfree0 : NDIRECT + NINDIRECT + 1 ≤ freeCount d0)
    (hinv : WInv d0 src n j d ino) (hjn : j * BSIZE < n) (hdir : j < NDIRECT) :
    ∃ bn ino1 d1, mapBlockno d ino j = some (bn, ino1, d1) ∧
      WInv d0 src n (j + 1)
        (dataWrite d1 bn 0 src (j * BSIZE) (min BSIZE (n - j * BSIZE))) ino1 := by
  have hacct : freeCount d0 ≤ freeCount d + j + 1 := by
    have h := hinv.acct
    by_cases hN : NDIRECT < j
    · rw [if_pos hN] at h
      omega
    · rw [if_neg hN] at h
      omega
  have hfc : 0 < freeCount d := by omega
  obtain ⟨bn, hbm, hlt, hfb⟩ := bmAlloc_spec d hfc
  have hbn0 : bn ≠ 0 := by
    intro he
    rw [he, hinv.b0] at hfb
    exact absurd hfb (by decide)
  set dA : Fs := { d with bitmap := fnUpdate d.bitmap bn true,
                          blocks := fnUpdate d.blocks bn (fun _ => 0) } with hdA
  have hmap := mapBlockno_direct_alloc d ino j bn dA hdir
    (hinv.dirZero j (le_refl j) hdir) hbm
  refine ⟨bn, _, dA, hmap, ?_⟩
  set wc := min BSIZE (n - j * BSIZE) with hwc
  set ino1 : DInode := { ino with addrs := fnUpdate ino.addrs j bn } with hino1
  set d2 : Fs := dataWrite dA bn 0 src (j * BSIZE) wc with hd2
  have hbm2 : d2.bitmap = fnUpdate d.bitmap bn true := rfl
  have htb2 : d2.totalBlocks = d.totalBlocks := rfl
  have hfc2 : freeCount d2 + 1 = freeCount d := by
    rw [hd2, freeCount_dataWrite]
    exact freeCount_after_mark d bn hlt hfb
  have hblk_other : ∀ b, b ≠ bn → d2.blocks b = d.blocks b := by
    intro b hb
    rw [hd2, dataWrite_blocks_other _ _ _ _ _ _ _ hb]
    exact fnUpdate_other d.blocks bn b _ hb
  have hblk_bn : d2.blocks bn = blkWriteBytes (fun _ => 0) 0 src (j * BSIZE) wc := by
    rw [hd2, dataWrite_blocks_same]
    rw [show dA.blocks bn = (fun _ => (0 : Nat)) from fnUpdate_same d.blocks bn _]
  have hia_same : ino1.addrs j = bn := fnUpdate_same ino.addrs j bn
  have hia_other : ∀ i, i ≠ j → ino1.addrs i = ino.addrs i :=
    fun i hi => fnUpdate_other ino.addrs j i bn hi
  refine ⟨?_, ?_, ?_, ?_, ?_, ?_, ?_, ?_, ?_, ?_, ?_, ?_, ?_⟩
  · rw [htb2]
    exact hinv.tb
  · rw [hbm2]
    exact fnUpdate_true_mono d.bitmap bn 0 hinv.b0
  · exact hinv.sz
  · intro i hij hiN
    by_cases hij' : i = j
    · subst hij'
      rw [hia_same, hbm2]
      exact ⟨Nat.pos_of_ne_zero hbn0, fnUpdate_same d.bitmap bn true⟩
    · rw [hia_other i hij', hbm2]
      obtain ⟨h1, h2⟩ := hinv.dirPos i (by omega) hiN
      exact ⟨h1, fnUpdate_true_mono d.bitmap bn _ h2⟩
  · intro i hge hiN
    rw [hia_other i (by omega)]
    exact hinv.dirZero i (by omega) hiN
  · intro h
    rw [hia_other NDIRECT (by omega)]
    exact hinv.indZero (by omega)
  · intro h
    exact absurd h (by omega)
  · intro h
    exact absurd h (by omega)
  · intro h
    exact absurd h (by omega)
  · intro h
    exact absurd h (by omega)
  · intro h
    exact absurd h (by omega)
  · intro k hk
    have hkn : k < n := lt_of_lt_of_le hk (min_le_right _ _)
    have hk1 : k < (j + 1) * BSIZE := lt_of_lt_of_le hk (min_le_left _ _)
    by_cases hkj : k < j * BSIZE
    · have hdivlt : k / BSIZE < j := by
        simp only [BSIZE] at hkj ⊢
        omega
      have hdivN : k / BSIZE < NDIRECT := by omega
      have hres2 : resolvedBn d2 ino1 (k / BSIZE) = ino.addrs (k / BSIZE) := by
        rw [resolvedBn_direct d2 ino1 _ hdivN, hia_other _ (by omega)]
      obtain ⟨hpos, hmark⟩ := hinv.dirPos (k / BSIZE) hdivlt hdivN
      have hne : ino.addrs (k / BSIZE) ≠ bn := by
        intro he
        rw [he, hfb] at hmark
        exact absurd hmark (by decide)
      have hnew : inoByte d2 ino1 k = d.blocks (ino.addrs (k / BSIZE)) (k % BSIZE) := by
        unfold inoByte
        rw [hres2, hblk_other _ hne]
      have hold : inoByte d ino k = d.blocks (ino.addrs (k / BSIZE)) (k % BSIZE) := by
        unfold inoByte
        rw [resolvedBn_direct d ino _ hdivN]
      rw [hnew, ← hold]
      exact hinv.content k (Nat.lt_min.mpr ⟨hkj, hkn⟩)
    · have hdivj : k / BSIZE = j := by
        simp only [BSIZE] at hkj hk1 ⊢
        omega
      have hres2 : resolvedBn d2 ino1 (k / BSIZE) = bn := by
        rw [hdivj, resolvedBn_direct d2 ino1 j hdir, hia_same]
      have hmod : k % BSIZE = k - j * BSIZE := by
        simp only [BSIZE] at hkj hk1 ⊢
        omega
      have hlt_wc : k - j * BSIZE < wc := by
        rw [hwc]
        refine Nat.lt_min.mpr ⟨?_, ?_⟩
        · simp only [BSIZE] at hkj hk1 ⊢
          omega
        · omega
      unfold inoByte
      rw [hres2, hblk_bn, hmod]
      rw [blkWriteBytes_in _ _ _ _ _ _ (Nat.zero_le _) (by omega)]
      congr 1
      simp only [BSIZE] at hkj hk1 ⊢
      omega
  · rw [if_neg (show ¬ NDIRECT < j + 1 by omega)]
    have h := hinv.acct
    rw [if_neg (by omega)] at h
    omega

set_option maxRecDepth 4000 in
/-- The first indirect write-loop iteration (block `NDIRECT`) allocates
the indirect block and the data block and preserves the invariant. -/
lemma wInv_step_ind0 (d0 : Fs) (src : Nat → Nat) (n : Nat) (d : Fs) (ino : DInode)
    (hfree0 : NDIRECT + NINDIRECT + 1 ≤ freeCount d0)
    (htb0 : d0.totalBlocks ≤ 2 ^ 32)
    (hinv : WInv d0 src n NDIRECT d ino) (hjn : NDIRECT * BSIZE < n) :
    ∃ bn ino1 d1, mapBlockno d ino NDIRECT = some (bn, ino1, d1) ∧
      WInv d0 src n (NDIRECT + 1)
        (dataWrite d1 bn 0 src (NDIRECT * BSIZE) (min BSIZE (n - NDIRECT * BSIZE))) ino1 := by
  have hI : 0 < NINDIRECT := by simp only [NINDIRECT]; omega
  have hacct : freeCount d0 ≤ freeCount d + NDIRECT := by
    have h := hinv.acct
    rw [if_neg (by omega)] at h
    omega
  obtain ⟨ibn, hbm1, hlt1, hfb1⟩ := bmAlloc_spec d (by omega)
  have hibn0 : ibn ≠ 0 := by
    intro he
    rw [he, hinv.b0] at hfb1
    exact absurd hfb1 (by decide)
  set dA : Fs := { d with bitmap := fnUpdate d.bitmap ibn true,
                          blocks := fnUpdate d.blocks ibn (fun _ => 0) } with hdA
  have hfcA : freeCount dA + 1 = freeCount d := freeCount_after_mark d ibn hlt1 hfb1
  have hb0A : dA.bitmap 0 = true := fnUpdate_true_mono d.bitmap ibn 0 hinv.b0
  obtain ⟨fbn, hbm2, hlt2, hfb2⟩ := bmAlloc_spec dA (by omega)
  have hfbn0 : fbn ≠ 0 := by
    intro he
    rw [he, hb0A] at hfb2
    exact absurd hfb2 (by decide)
  have hfbn_ibn : fbn ≠ ibn := by
    intro he
    rw [he] at hfb2
    rw [show dA.bitmap ibn = true from fnUpdate_same d.bitmap ibn true] at hfb2
    exact absurd hfb2 (by decide)
  set dB : Fs := { dA with bitmap := fnUpdate dA.bitmap fbn true,
                           blocks := fnUpdate dA.blocks fbn (fun _ => 0) } with hdB
  have hfcB : freeCount dB + 1 = freeCount dA := freeCount_after_mark dA fbn hlt2 hfb2
  have hzA : dA.blocks ibn = (fun _ => (0 : Nat)) := fnUpdate_same d.blocks ibn _
  have hslot : blkReadU32 (dA.blocks ibn) (NDIRECT - NDIRECT) = 0 := by
    rw [hzA]
    exact blkReadU32_zeroBlock _
  have hmap := mapBlockno_indirect_allocboth d ino NDIRECT ibn fbn dA dB
    (le_refl NDIRECT) (by omega) (hinv.indZero (le_refl NDIRECT)) hbm1 hslot hbm2
  refine ⟨fbn, _, _, hmap, ?_⟩
  set wc := min BSIZE (n - NDIRECT * BSIZE) with hwc
  set ino1 : DInode := { ino with addrs := fnUpdate ino.addrs NDIRECT ibn } with hino1
  set dS : Fs := slotWrite dB ibn (NDIRECT - NDIRECT) fbn with hdS
  set d2 : Fs := dataWrite dS fbn 0 src (NDIRECT * BSIZE) wc with hd2
  have hfbn32 : fbn < 2 ^ 32 := by
    have e1 : dA.totalBlocks = d.totalBlocks := rfl
    have e2 := hinv.tb
    omega
  have hia_same : ino1.addrs NDIRECT = ibn := fnUpdate_same ino.addrs NDIRECT ibn
  have hia_other : ∀ i, i ≠ NDIRECT → ino1.addrs i = ino.addrs i :=
    fun i hi => fnUpdate_other ino.addrs NDIRECT i ibn hi
  have hbm_d2 : d2.bitmap = fnUpdate (fnUpdate d.bitmap ibn true) fbn true := rfl
  have hibn_fbn : ibn ≠ fbn := fun he => hfbn_ibn he.symm
  have hblk_ibn : d2.blocks ibn = blkWriteU32 (fun _ => 0) (NDIRECT - NDIRECT) fbn := by
    rw [hd2, dataWrite_blocks_other _ _ _ _ _ _ _ hibn_fbn]
    rw [hdS, slotWrite_blocks_same]
    have hblkB : dB.blocks ibn = dA.blocks ibn :=
      fnUpdate_other dA.blocks fbn ibn _ hibn_fbn
    rw [hblkB, hzA]
  have hslot_same : blkReadU32 (d2.blocks ibn) (NDIRECT - NDIRECT) = fbn := by
    rw [hblk_ibn]
    exact blkWriteU32_read_same _ _ _ hfbn32
  have hslot_other : ∀ i, i ≠ NDIRECT - NDIRECT → blkReadU32 (d2.blocks ibn) i = 0 := by
    intro i hi
    rw [hblk_ibn, blkWriteU32_read_other _ _ _ _ hi]
    exact blkReadU32_zeroBlock i
  have hblk_fbn : d2.blocks fbn = blkWriteBytes (fun _ => 0) 0 src (NDIRECT * BSIZE) wc := by
    rw [hd2, dataWrite_blocks_same, hdS, slotWrite_blocks_other _ _ _ _ _ hfbn_ibn]
    rw [show dB.blocks fbn = (fun _ => (0 : Nat)) from fnUpdate_same dA.blocks fbn _]
  have hblk_other : ∀ b, b ≠ ibn → b ≠ fbn → d2.blocks b = d.blocks b := by
    intro b h1 h2
    rw [hd2, dataWrite_blocks_other _ _ _ _ _ _ _ h2, hdS,
      slotWrite_blocks_other _ _ _ _ _ h1]
    have e1 : dB.blocks b = dA.blocks b := fnUpdate_other dA.blocks fbn b _ h2
    rw [e1]
    exact fnUpdate_other d.blocks ibn b _ h1
  have hmark2 : ∀ b, d.bitmap b = true → d2.bitmap b = true := by
    intro b hb
    rw [hbm_d2]
    exact fnUpdate_true_mono _ fbn b (fnUpdate_true_mono _ ibn b hb)
  refine ⟨?_, ?_, ?_, ?_, ?_, ?_, ?_, ?_, ?_, ?_, ?_, ?_, ?_⟩
  · exact hinv.tb
  · exact hmark2 0 hinv.b0
  · exact hinv.sz
  · intro i hij hiN
    rw [hia_other i (by omega)]
    obtain ⟨h1, h2⟩ := hinv.dirPos i hiN hiN
    exact ⟨h1, hmark2 _ h2⟩
  · intro i hge hiN
    exact absurd hiN (by omega)
  · intro h
    exact absurd h (by omega)
  · intro _
    rw [hia_same]
    refine ⟨Nat.pos_of_ne_zero hibn0, ?_⟩
    rw [hbm_d2]
    exact fnUpdate_true_mono _ fbn ibn
      (by rw [fnUpdate_same])
  · intro _ i hi
    rw [hia_same]
    have hie : i = NDIRECT - NDIRECT := by omega
    rw [hie, hslot_same]
    refine ⟨Nat.pos_of_ne_zero hfbn0, ?_⟩
    rw [hbm_d2, fnUpdate_same]
  · intro _ i hge hiI
    rw [hia_same]
    exact hslot_other i (by omega)
  · intro _ i hiN
    rw [hia_same, hia_other i (by omega)]
    obtain ⟨h1, h2⟩ := hinv.dirPos i hiN hiN
    intro he
    rw [he, hfb1] at h2
    exact absurd h2 (by decide)
  · intro _ i hi
    rw [hia_same]
    have hie : i = NDIRECT - NDIRECT := by omega
    rw [hie, hslot_same]
    exact fun he => hfbn_ibn he
  · intro k hk
    have hkn : k < n := lt_of_lt_of_le hk (min_le_right _ _)
    have hk1 : k < (NDIRECT + 1) * BSIZE := lt_of_lt_of_le hk (min_le_left _ _)
    by_cases hkj : k < NDIRECT * BSIZE
    · have hdivlt : k / BSIZE < NDIRECT := by
        simp only [BSIZE, NDIRECT] at hkj ⊢
        omega
      have hres2 : resolvedBn d2 ino1 (k / BSIZE) = ino.addrs (k / BSIZE) := by
        rw [resolvedBn_direct d2 ino1 _ hdivlt, hia_other _ (by omega)]
      obtain ⟨hpos, hmark⟩ := hinv.dirPos (k / BSIZE) hdivlt hdivlt
      have hne1 : ino.addrs (k / BSIZE) ≠ ibn := by
        intro he
        rw [he, hfb1] at hmark
        exact absurd hmark (by decide)
      have hne2 : ino.addrs (k / BSIZE) ≠ fbn := by
        intro he
        have : dA.bitmap (ino.addrs (k / BSIZE)) = true :=
          fnUpdate_true_mono d.bitmap ibn _ hmark
        rw [he, hfb2] at this
        exact absurd this (by decide)
      have hnew : inoByte d2 ino1 k = d.blocks (ino.addrs (k / BSIZE)) (k % BSIZE) := by
        unfold inoByte
        rw [hres2, hblk_other _ hne1 hne2]
      have hold : inoByte d ino k = d.blocks (ino.addrs (k / BSIZE)) (k % BSIZE) := by
        unfold inoByte
        rw [resolvedBn_direct d ino _ hdivlt]
      rw [hnew, ← hold]
      exact hinv.content k (Nat.lt_min.mpr ⟨hkj, hkn⟩)
    · have hdivj : k / BSIZE = NDIRECT := by
        simp only [BSIZE, NDIRECT] at hkj hk1 ⊢
        omega
      have hres2 : resolvedBn d2 ino1 (k / BSIZE) = fbn := by
        rw [hdivj, resolvedBn_indirect d2 ino1 NDIRECT (lt_irrefl NDIRECT), hia_same,
          hslot_same]
      have hmod : k % BSIZE = k - NDIRECT * BSIZE := by
        simp only [BSIZE, NDIRECT] at hkj hk1 ⊢
        omega
      have hlt_wc : k - NDIRECT * BSIZE < wc := by
        rw [hwc]
        refine Nat.lt_min.mpr ⟨?_, ?_⟩
        · simp only [BSIZE, NDIRECT] at hkj hk1 ⊢
          omega
        · omega
      unfold inoByte
      rw [hres2, hblk_fbn, hmod]
      rw [blkWriteBytes_in _ _ _ _ _ _ (Nat.zero_le _)
        (by rw [Nat.zero_add]; exact hlt_wc)]
      have harg : NDIRECT * BSIZE + (k - NDIRECT * BSIZE - 0) = k := by
        simp only [BSIZE, NDIRECT] at hkj hk1 ⊢
        omega
      rw [harg]
  · rw [if_pos (by omega)]
    have e1 : freeCount d2 = freeCount dS := by rw [hd2, freeCount_dataWrite]
    have e2 : freeCount dS = freeCount dB := by rw [hdS, freeCount_slotWrite]
    omega

set_option maxRecDepth 4000 in
/-- A later indirect write-loop iteration (`NDIRECT < j`) allocates only
the data block, records it in the indirect block, and preserves the
invariant. -/
lemma wInv_step_indS (d0 : Fs) (src : Nat → Nat) (n j : Nat) (d : Fs) (ino : DInode)
    (hfree0 : NDIRECT + NINDIRECT + 1 ≤ freeCount d0)
    (htb0 : d0.totalBlocks ≤ 2 ^ 32) (hn : n ≤ MAX_FILE_SIZE)
    (hinv : WInv d0 src n j d ino) (hjn : j * BSIZE < n) (hNj : NDIRECT < j) :
    ∃ bn ino1 d1, mapBlockno d ino j = some (bn, ino1, d1) ∧
      WInv d0 src n (j + 1)
        (dataWrite d1 bn 0 src (j * BSIZE) (min BSIZE (n - j * BSIZE))) ino1 := by
  have hacct : freeCount d0 ≤ freeCount d + j + 1 := by
    have h := hinv.acct
    rw [if_pos hNj] at h
    omega
  have hj268 : j < NDIRECT + NINDIRECT := by
    simp only [BSIZE, MAX_FILE_SIZE, NDIRECT, NINDIRECT] at hjn hn ⊢
    omega
  have hfc : 0 < freeCount d := by
    simp only [NDIRECT, NINDIRECT] at hfree0 hj268
    omega
  obtain ⟨ibnPos, ibnMark⟩ := hinv.indPos hNj
  have hslot0 : blkReadU32 (d.blocks (ino.addrs NDIRECT)) (j - NDIRECT) = 0 :=
    hinv.slotZero hNj (j - NDIRECT) (le_refl _) (by omega)
  obtain ⟨fbn, hbm, hlt, hfb⟩ := bmAlloc_spec d hfc
  have hfbn0 : fbn ≠ 0 := by
    intro he
    rw [he, hinv.b0] at hfb
    exact absurd hfb (by decide)
  have hfbn_ibn : fbn ≠ ino.addrs NDIRECT := by
    intro he
    rw [he, ibnMark] at hfb
    exact absurd hfb (by decide)
  have hibn_fbn : ino.addrs NDIRECT ≠ fbn := fun he => hfbn_ibn he.symm
  set dA : Fs := { d with bitmap := fnUpdate d.bitmap fbn true,
                          blocks := fnUpdate d.blocks fbn (fun _ => 0) } with hdA
  have hfcA : freeCount dA + 1 = freeCount d := freeCount_after_mark d fbn hlt hfb
  have hmap := mapBlockno_indirect_allocslot d ino j fbn dA (by omega) hj268
    (Nat.pos_iff_ne_zero.mp ibnPos) hslot0 hbm
  refine ⟨fbn, _, _, hmap, ?_⟩
  set wc := min BSIZE (n - j * BSIZE) with hwc
  set dS : Fs := slotWrite dA (ino.addrs NDIRECT) (j - NDIRECT) fbn with hdS
  set d2 : Fs := dataWrite dS fbn 0 src (j * BSIZE) wc with hd2
  have hfbn32 : fbn < 2 ^ 32 := by
    have e2 := hinv.tb
    omega
  have hblk_ibn : d2.blocks (ino.addrs NDIRECT) =
      blkWriteU32 (d.blocks (ino.addrs NDIRECT)) (j - NDIRECT) fbn := by
    rw [hd2, dataWrite_blocks_other _ _ _ _ _ _ _ hibn_fbn, hdS, slotWrite_blocks_same]
    rw [show dA.blocks (ino.addrs NDIRECT) = d.blocks (ino.addrs NDIRECT) from
      fnUpdate_other d.blocks fbn _ _ hibn_fbn]
  have hslot_new : blkReadU32 (d2.blocks (ino.addrs NDIRECT)) (j - NDIRECT) = fbn := by
    rw [hblk_ibn]
    exact blkWriteU32_read_same _ _ _ hfbn32
  have hslot_old : ∀ i, i ≠ j - NDIRECT →
      blkReadU32 (d2.blocks (ino.addrs NDIRECT)) i =
      blkReadU32 (d.blocks (ino.addrs NDIRECT)) i := by
    intro i hi
    rw [hblk_ibn]
    exact blkWriteU32_read_other _ _ _ _ hi
  have hblk_fbn : d2.blocks fbn = blkWriteBytes (fun _ => 0) 0 src (j * BSIZE) wc := by
    rw [hd2, dataWrite_blocks_same, hdS, slotWrite_blocks_other _ _ _ _ _ hfbn_ibn]
    rw [show dA.blocks fbn = (fun _ => (0 : Nat)) from fnUpdate_same d.blocks fbn _]
  have hblk_other : ∀ b, b ≠ ino.addrs NDIRECT → b ≠ fbn → d2.blocks b = d.blocks b := by
    intro b h1 h2
    rw [hd2, dataWrite_blocks_other _ _ _ _ _ _ _ h2, hdS,
      slotWrite_blocks_other _ _ _ _ _ h1]
    exact fnUpdate_other d.blocks fbn b _ h2
  have hbm_d2 : d2.bitmap = fnUpdate d.bitmap fbn true := rfl
  have hmark2 : ∀ b, d.bitmap b = true → d2.bitmap b = true := by
    intro b hb
    rw [hbm_d2]
    exact fnUpdate_true_mono _ fbn b hb
  refine ⟨?_, ?_, ?_, ?_, ?_, ?_, ?_, ?_, ?_, ?_, ?_, ?_, ?_⟩
  · exact hinv.tb
  · exact hmark2 0 hinv.b0
  · exact hinv.sz
  · intro i hij hiN
    obtain ⟨h1, h2⟩ := hinv.dirPos i (by omega) hiN
    exact ⟨h1, hmark2 _ h2⟩
  · intro i hge hiN
    exact absurd hiN (by omega)
  · intro h
    exact absurd h (by omega)
  · intro _
    exact ⟨ibnPos, hmark2 _ ibnMark⟩
  · intro _ i hi
    by_cases hie : i = j - NDIRECT
    · rw [hie, hslot_new]
      refine ⟨Nat.pos_of_ne_zero hfbn0, ?_⟩
      rw [hbm_d2, fnUpdate_same]
    · rw [hslot_old i hie]
      obtain ⟨h1, h2⟩ := hinv.slotPos hNj i (by omega)
      exact ⟨h1, hmark2 _ h2⟩
  · intro _ i hge hiI
    rw [hslot_old i (by omega)]
    exact hinv.slotZero hNj i (by omega) hiI
  · intro _ i hiN
    exact hinv.dirNe hNj i hiN
  · intro _ i hi
    by_cases hie : i = j - NDIRECT
    · rw [hie, hslot_new]
      exact hfbn_ibn
    · rw [hslot_old i hie]
      exact hinv.slotNe hNj i (by omega)
  · intro k hk
    have hkn : k < n := lt_of_lt_of_le hk (min_le_right _ _)
    have hk1 : k < (j + 1) * BSIZE := lt_of_lt_of_le hk (min_le_left _ _)
    by_cases hkj : k < j * BSIZE
    · have hdivlt : k / BSIZE < j := by
        simp only [BSIZE] at hkj ⊢
        omega
      by_cases hbd : k / BSIZE < NDIRECT
      · obtain ⟨hpos, hmark⟩ := hinv.dirPos (k / BSIZE) (by omega) hbd
        have hne1 : ino.addrs (k / BSIZE) ≠ ino.addrs NDIRECT := hinv.dirNe hNj _ hbd
        have hne2 : ino.addrs (k / BSIZE) ≠ fbn := by
          intro he
          rw [he, hfb] at hmark
          exact absurd hmark (by decide)
        have hnew : inoByte d2 ino k = d.blocks (ino.addrs (k / BSIZE)) (k % BSIZE) := by
          unfold inoByte
          rw [resolvedBn_direct d2 ino _ hbd, hblk_other _ hne1 hne2]
        have hold : inoByte d ino k = d.blocks (ino.addrs (k / BSIZE)) (k % BSIZE) := by
          unfold inoByte
          rw [resolvedBn_direct d ino _ hbd]
        rw [hnew, ← hold]
        exact hinv.content k (Nat.lt_min.mpr ⟨hkj, hkn⟩)
      · obtain ⟨hpos, hmark⟩ := hinv.slotPos hNj (k / BSIZE - NDIRECT) (by omega)
        have hsne : blkReadU32 (d.blocks (ino.addrs NDIRECT)) (k / BSIZE - NDIRECT) ≠
            ino.addrs NDIRECT := hinv.slotNe hNj _ (by omega)
        have hsne2 : blkReadU32 (d.blocks (ino.addrs NDIRECT)) (k / BSIZE - NDIRECT) ≠
            fbn := by
          intro he
          rw [he, hfb] at hmark
          exact absurd hmark (by decide)
        have hres2 : resolvedBn d2 ino (k / BSIZE) =
            blkReadU32 (d.blocks (ino.addrs NDIRECT)) (k / BSIZE - NDIRECT) := by
          rw [resolvedBn_indirect d2 ino _ hbd]
          exact hslot_old _ (by omega)
        have hnew : inoByte d2 ino k =
            d.blocks (blkReadU32 (d.blocks (ino.addrs NDIRECT)) (k / BSIZE - NDIRECT))
              (k % BSIZE) := by
          unfold inoByte
          rw [hres2, hblk_other _ hsne hsne2]
        have hold : inoByte d ino k =
            d.blocks (blkReadU32 (d.blocks (ino.addrs NDIRECT)) (k / BSIZE - NDIRECT))
              (k % BSIZE) := by
          unfold inoByte
          rw [resolvedBn_indirect d ino _ hbd]
        rw [hnew, ← hold]
        exact hinv.content k (Nat.lt_min.mpr ⟨hkj, hkn⟩)
    · have hdivj : k / BSIZE = j := by
        simp only [BSIZE] at hkj hk1 ⊢
        omega
      have hres2 : resolvedBn d2 ino (k / BSIZE) = fbn := by
        rw [hdivj, resolvedBn_indirect d2 ino j (by omega), hslot_new]
      have hmod : k % BSIZE = k - j * BSIZE := by
        simp only [BSIZE] at hkj hk1 ⊢
        omega
      have hlt_wc : k - j * BSIZE < wc := by
        rw [hwc]
        refine Nat.lt_min.mpr ⟨?_, ?_⟩
        · simp only [BSIZE] at hkj hk1 ⊢
          omega
        · omega
      unfold inoByte
      rw [hres2, hblk_fbn, hmod]
      rw [blkWriteBytes_in _ _ _ _ _ _ (Nat.zero_le _)
        (by rw [Nat.zero_add]; exact hlt_wc)]
      have harg : j * BSIZE + (k - j * BSIZE - 0) = k := by
        simp only [BSIZE] at hkj hk1 ⊢
        omega
      rw [harg]
  · rw [if_pos (by omega)]
    have e1 : freeCount d2 = freeCount dS := by rw [hd2, freeCount_dataWrite]
    have e2 : freeCount dS = freeCount dA := by rw [hdS, freeCount_slotWrite]
    omega

/-- The aligned write loop, started on a state satisfying the invariant,
terminates successfully in a state satisfying the invariant past `n`. -/
lemma tryIwriteAligned_wInv (d0 : Fs) (src : Nat → Nat) (n : Nat)
    (hn : n ≤ MAX_FILE_SIZE) (htb0 : d0.totalBlocks ≤ 2 ^ 32)
    (hfree0 : NDIRECT + NINDIRECT + 1 ≤ freeCount d0) :
    ∀ c j d ino srcPos, c = n - j * BSIZE → (c ≠ 0 → srcPos = j * BSIZE) →
      WInv d0 src n j d ino →
      ∃ j' d' ino', tryIwriteAligned src d ino j srcPos c = some (d', ino') ∧
        n ≤ j' * BSIZE ∧ WInv d0 src n j' d' ino' := by
  intro c
  induction c using Nat.strong_induction_on with
  | _ c ih =>
    intro j d ino srcPos hc hsp hinv
    by_cases hc0 : c = 0
    · subst hc0
      refine ⟨j, d, ino, ?_, by omega, hinv⟩
      rw [tryIwriteAligned.eq_def, if_pos rfl]
    · have hjn : j * BSIZE < n := by omega
      have hspe := hsp hc0
      subst hspe
      subst hc
      have hstep : ∃ bn ino1 d1, mapBlockno d ino j = some (bn, ino1, d1) ∧
          WInv d0 src n (j + 1)
            (dataWrite d1 bn 0 src (j * BSIZE) (min BSIZE (n - j * BSIZE))) ino1 := by
        rcases Nat.lt_trichotomy j NDIRECT with h | h | h
        · exact wInv_step_direct d0 src n j d ino hfree0 hinv hjn h
        · subst h
          exact wInv_step_ind0 d0 src n d ino hfree0 htb0 hinv hjn
        · exact wInv_step_indS d0 src n j d ino hfree0 htb0 hn hinv hjn h
      obtain ⟨bn, ino1, d1, hmap, hinv1⟩ := hstep
      obtain ⟨j', d', ino', hrec, hj'n, hinv'⟩ :=
        ih (n - j * BSIZE - min BSIZE (n - j * BSIZE))
          (by simp only [BSIZE] at hc0 ⊢; omega)
          (j + 1) (dataWrite d1 bn 0 src (j * BSIZE) (min BSIZE (n - j * BSIZE))) ino1
          (j * BSIZE + min BSIZE (n - j * BSIZE))
          (by simp only [BSIZE] at hc0 ⊢; omega)
          (by
            intro hne
            simp only [BSIZE] at hne ⊢
            omega)
          hinv1
      refine ⟨j', d', ino', ?_, hj'n, hinv'⟩
      rw [tryIwriteAligned.eq_def, if_neg hc0]
      simp only
      rw [hmap]
      exact hrec

/-- From the final write invariant, every block holding file bytes below
`n` resolves without allocation and without touching any state. -/
lemma wInv_read_ready (d0 : Fs) (src : Nat → Nat) (n j' : Nat) (d : Fs) (ino : DInode)
    (dR : Fs) (inoR : DInode) (hn : n ≤ MAX_FILE_SIZE)
    (hinv : WInv d0 src n j' d ino) (hjn : n ≤ j' * BSIZE)
    (hbl : dR.blocks = d.blocks) (had : inoR.addrs = ino.addrs) :
    ∀ b, b * BSIZE < n → mapBlockno dR inoR b = some (resolvedBn dR inoR b, inoR, dR) := by
  intro b hb
  have hbj : b < j' := by
    simp only [BSIZE] at hb hjn
    omega
  have hb268 : b < NDIRECT + NINDIRECT := by
    simp only [BSIZE, MAX_FILE_SIZE, NDIRECT, NINDIRECT] at hb hn ⊢
    omega
  by_cases hbd : b < NDIRECT
  · have hp : inoR.addrs b ≠ 0 := by
      rw [had]
      exact Nat.pos_iff_ne_zero.mp (hinv.dirPos b hbj hbd).1
    rw [mapBlockno_direct_hit dR inoR b hbd hp, resolvedBn_direct dR inoR b hbd]
  · have hNj : NDIRECT < j' := by omega
    have h1 : inoR.addrs NDIRECT ≠ 0 := by
      rw [had]
      exact Nat.pos_iff_ne_zero.mp (hinv.indPos hNj).1
    have h2 : blkReadU32 (dR.blocks (inoR.addrs NDIRECT)) (b - NDIRECT) ≠ 0 := by
      rw [hbl, had]
      exact Nat.pos_iff_ne_zero.mp (hinv.slotPos hNj (b - NDIRECT) (by omega)).1
    rw [mapBlockno_indirect_hit dR inoR b (by omega) hb268 h1 h2]
    rw [resolvedBn_indirect dR inoR b hbd]

lemma map_range_congr : ∀ (m : Nat) (f g : Nat → Nat), (∀ i, i < m → f i = g i) →
    (List.range m).map f = (List.range m).map g := by
  intro m f g h
  induction m with
  | zero => rfl
  | succ m ihm =>
    have hinit := ihm (fun t ht => h t (by omega))
    have hlast := h m (by omega)
    rw [List.range_succ, List.map_append, List.map_append, hinit]
    simp only [List.map_cons, List.map_nil, hlast]

lemma map_range_split (a b : Nat) (f : Nat → Nat) :
    (List.range (a + b)).map f =
    (List.range a).map f ++ (List.range b).map (fun i => f (a + i)) := by
  rw [List.range_add, List.map_append, List.map_map]
  rfl

/-- The aligned read loop on a fully-mapped prefix returns exactly the
written bytes and leaves the state untouched. -/
lemma ireadAligned_spec (d : Fs) (ino : DInode) (src : Nat → Nat) (n : Nat)
    (hmapd : ∀ b, b * BSIZE < n → mapBlockno d ino b = some (resolvedBn d ino b, ino, d))
    (hcontent : ∀ k, k < n → inoByte d ino k = src k) :
    ∀ c j acc, c = n - j * BSIZE →
      ireadAligned d ino j c acc =
        some (acc ++ (List.range c).map (fun i => src (j * BSIZE + i)), d, ino) := by
  intro c
  induction c using Nat.strong_induction_on with
  | _ c ih =>
    intro j acc hc
    by_cases hc0 : c = 0
    · subst hc0
      rw [ireadAligned.eq_def, if_pos rfl]
      simp
    · have hjn : j * BSIZE < n := by omega
      have hmapj := hmapd j hjn
      rw [ireadAligned.eq_def, if_neg hc0]
      simp only
      rw [hmapj]
      simp only
      rw [ih (c - min BSIZE c) (by simp only [BSIZE]; omega) (j + 1) _
        (by simp only [BSIZE] at hc ⊢; omega)]
      have hbyte : ∀ i, i < min BSIZE c →
          d.blocks (resolvedBn d ino j) i = src (j * BSIZE + i) := by
        intro i hi
        have hiB : i < BSIZE := lt_of_lt_of_le hi (min_le_left _ _)
        have hikn : j * BSIZE + i < n := by
          have hic : i < c := lt_of_lt_of_le hi (min_le_right _ _)
          omega
        have hdiv : (j * BSIZE + i) / BSIZE = j := by
          simp only [BSIZE] at hiB ⊢
          omega
        have hmod : (j * BSIZE + i) % BSIZE = i := by
          simp only [BSIZE] at hiB ⊢
          omega
        have hcnt := hcontent (j * BSIZE + i) hikn
        unfold inoByte at hcnt
        rw [hdiv, hmod] at hcnt
        exact hcnt
      have hl : acc ++ (List.range (min BSIZE c)).map
            (fun i => d.blocks (resolvedBn d ino j) i) ++
          (List.range (c - min BSIZE c)).map (fun i => src ((j + 1) * BSIZE + i)) =
          acc ++ (List.range c).map (fun i => src (j * BSIZE + i)) := by
        rw [List.append_assoc]
        refine congrArg (fun l => acc ++ l) ?_
        rw [map_range_congr (min BSIZE c) _ _ hbyte]
        rw [map_range_congr (c - min BSIZE c) _
          (fun i => src (j * BSIZE + (min BSIZE c + i))) ?hshift]
        case hshift =>
          intro i hi
          have hrcB : min BSIZE c = BSIZE := by
            simp only [BSIZE] at hi ⊢
            omega
          refine congrArg src ?_
          rw [hrcB]
          ring
        have hsplit := map_range_split (min BSIZE c) (c - min BSIZE c)
          (fun i => src (j * BSIZE + i))
        rw [show min BSIZE c + (c - min BSIZE c) = c from by
          simp only [BSIZE]; omega] at hsplit
        exact hsplit.symm
      rw [hl]

/-- `update` (inode write-back) changes no data block, so file bytes and
block resolution are unchanged. -/
lemma inodeUpdate_blocks (d : Fs) (inum : Nat) (ino : DInode) :
    (inodeUpdate d inum ino).blocks = d.blocks := rfl

/-- C1: on a fresh inode (size 0, no blocks), `iwrite(src, 0, n)` with
`n ≤ MAX_FILE_SIZE` succeeds and a subsequent `iread(dst, 0, n)` fills
the destination with exactly the bytes of `src`, provided block 0 is
reserved in the bitmap, the block count fits in `u32`, and the bitmap
has free blocks for all data blocks plus the indirect block. -/
theorem iwrite_iread_roundtrip (d0 : Fs) (inum : Nat) (ino0 : DInode) (src : Nat → Nat)
    (n : Nat)
    (hsz : ino0.size = 0) (haddr : ∀ i, ino0.addrs i = 0)
    (hn : n ≤ MAX_FILE_SIZE) (hb0 : d0.bitmap 0 = true)
    (htb0 : d0.totalBlocks ≤ 2 ^ 32)
    (hfree0 : NDIRECT + NINDIRECT + 1 ≤ freeCount d0) :
    ∃ d1 ino1, iwrite d0 inum ino0 src 0 n = some (.ok (d1, ino1)) ∧
      ∃ d2 ino2, iread d1 ino1 0 n =
        some (.ok ((List.range n).map src, d2, ino2)) := by
  have hp32 : (2 : Nat) ^ 32 = 4294967296 := by norm_num
  by_cases hn0 : n = 0
  · subst hn0
    refine ⟨inodeUpdate d0 inum ino0, ino0, ?_, inodeUpdate d0 inum ino0, ino0, ?_⟩
    · unfold iwrite tryIwrite
      rw [if_neg (by omega)]
      rw [if_neg (by rw [hp32]; omega)]
      rw [if_neg (by simp only [MAX_FILE_SIZE]; omega)]
      simp [hsz]
    · unfold iread
      rw [if_neg (by rw [hp32]; omega)]
      rw [if_neg (by omega)]
      simp
  · obtain ⟨j', dW, inoW, hloop, hj'n, hinvW⟩ :=
      tryIwriteAligned_wInv d0 src n hn htb0 hfree0 n 0 d0 ino0 0
        (by omega) (fun _ => by omega) (wInv_init d0 src n ino0 hb0 hsz haddr)
    set ino3 : DInode := { inoW with size := n } with hino3
    set d3 : Fs := inodeUpdate dW inum ino3 with hd3
    have hbc : ∀ k, k < n → inoByte d3 ino3 k = src k := by
      intro k hk
      have hmin : k < min (j' * BSIZE) n := by
        refine Nat.lt_min.mpr ⟨by omega, hk⟩
      exact hinvW.content k hmin
    have hmapd3 : ∀ b, b * BSIZE < n →
        mapBlockno d3 ino3 b = some (resolvedBn d3 ino3 b, ino3, d3) :=
      wInv_read_ready d0 src n j' dW inoW d3 ino3 hn hinvW hj'n rfl rfl
    have hwrite : iwrite d0 inum ino0 src 0 n = some (.ok (d3, ino3)) := by
      have htry : tryIwrite d0 inum ino0 src 0 n = some (.ok (n, d3, ino3)) := by
        unfold tryIwrite
        rw [Nat.zero_add]
        rw [if_neg (by omega)]
        rw [if_neg (by rw [hp32]; simp only [MAX_FILE_SIZE] at hn; omega)]
        rw [if_neg (by simp only [MAX_FILE_SIZE] at hn ⊢; omega)]
        simp only
        rw [if_neg hn0]
        rw [Nat.zero_div, Nat.zero_mod, Nat.sub_zero]
        have hpeel : (match mapBlockno d0 ino0 0 with
            | none => none
            | some (bn, ino1, d1) =>
              tryIwriteAligned src (dataWrite d1 bn 0 src 0 (min BSIZE n)) ino1 (0 + 1)
                (min BSIZE n) (n - min BSIZE n)) = some (dW, inoW) := by
          rw [← hloop, tryIwriteAligned.eq_def, if_neg hn0]
          simp only
          cases mapBlockno d0 ino0 0 with
          | none => rfl
          | some x =>
            obtain ⟨bn, ino1, d1⟩ := x
            simp only
            rw [Nat.zero_add, Nat.zero_add]
        rw [hpeel]
        simp only
        rw [if_pos (by rw [hinvW.sz]; omega)]
        rw [Nat.sub_zero]
      unfold iwrite
      rw [htry]
      simp only
      rw [if_pos True.intro]
    have hread : iread d3 ino3 0 n = some (.ok ((List.range n).map src, d3, ino3)) := by
      have hsz3 : ino3.size = n := rfl
      unfold iread
      rw [Nat.zero_add]
      rw [if_neg (by rw [hp32]; simp only [MAX_FILE_SIZE] at hn; omega)]
      rw [if_neg (by rw [hsz3]; omega)]
      simp only
      rw [if_neg hn0]
      rw [Nat.zero_div, Nat.zero_mod, Nat.sub_zero]
      have hA := ireadAligned_spec d3 ino3 src n hmapd3 hbc n 0 [] (by omega)
      rw [ireadAligned.eq_def, if_neg hn0] at hA
      simp only at hA
      rw [hmapd3 0 (by omega)] at hA
      simp only [Nat.zero_add, Nat.zero_mul, List.nil_append] at hA
      have hpeelR : (match mapBlockno d3 ino3 0 with
          | none => none
          | some (bn, ino1, d1) =>
            ireadAligned d1 ino1 (0 + 1) (n - min BSIZE n)
              ((List.range (min BSIZE n)).map (fun i => d1.blocks bn (0 + i)))) =
          some ((List.range n).map src, d3, ino3) := by
        rw [hmapd3 0 (by omega)]
        simp only [Nat.zero_add]
        rw [hA]
      rw [hpeelR]
    exact ⟨d3, ino3, hwrite, d3, ino3, hread⟩

def dWit1 : Fs :=
  { totalBlocks := 280
    bitmap := fun bn => bn == 0
    blocks := fun _ _ => 0
    inodes := fun _ => ⟨InodeType.empty, 0, 0, 0, 0, fun _ => 0⟩ }

def inoWit1 : DInode :=
  { itype := InodeType.file
    major := 0
    minor := 0
    nlink := 1
    size := 0
    addrs := fun _ => 0 }

set_option maxRecDepth 8000 in
theorem iwrite_iread_roundtrip_witness :
    inoWit1.size = 0 ∧ (∀ i, inoWit1.addrs i = 0) ∧ (2 : Nat) ≤ MAX_FILE_SIZE ∧
    dWit1.bitmap 0 = true ∧ dWit1.totalBlocks ≤ 2 ^ 32 ∧
    NDIRECT + NINDIRECT + 1 ≤ freeCount dWit1 ∧
    ∃ d1 ino1, iwrite dWit1 1 inoWit1 (fun i => i + 65) 0 2 = some (.ok (d1, ino1)) ∧
      ∃ d2 ino2, iread d1 ino1 0 2 =
        some (.ok ((List.range 2).map (fun i => i + 65), d2, ino2)) := by
  refine ⟨rfl, fun i => rfl, by decide, rfl, by decide, by decide,
    iwrite_iread_roundtrip dWit1 1 inoWit1 (fun i => i + 65) 2 rfl (fun i => rfl)
      (by decide) rfl (by decide) (by decide)⟩

/-!
## Directory lookup and unlink (fs/inode.rs)

`ICACHE.get` hands back a handle on the `(dev, inum)` pair and `lock`
loads the on-disk inode; with the write-through model the on-disk record
is authoritative, so the locked inode data is `d.inodes inum` and the
handle is the bare `inum`.
-/

def MAX_DIR_SIZE : Nat := 14

/-- Inner name comparison of `dir_lookup`: compare byte by byte from
index `i`, failing at the first mismatch and succeeding at a matching
NUL; falling off the end without a NUL is no match. The remaining
iteration count of the `for i in 0..MAX_DIR_SIZE` loop is the structural
argument. -/
def nameMatchGo (ename nm : Nat → Nat) : Nat → Nat → Bool
  | _, 0 => false
  | i, fuel + 1 =>
    if ename i ≠ nm i then false
    else if ename i = 0 then true
    else nameMatchGo ename nm (i + 1) fuel

def nameMatchFrom (ename nm : Nat → Nat) (i : Nat) : Bool :=
  nameMatchGo ename nm i (MAX_DIR_SIZE - i)

/-- `u16` little-endian directory-entry inum from the first two bytes
read (`DirEntry` is `repr(C)` with `inum: u16` first). -/
def entryInum (bytes : List Nat) : Nat :=
  bytes.getD 0 0 % 256 + 256 * (bytes.getD 1 0 % 256)

/-- `InodeData::dir_lookup` loop (with `need_offset`), iterating 16-byte
entries from `off` below the size fixed at loop entry; each entry is
read with `iread` whose failure is a panic (`expect`). -/
def dirLookupFrom (d : Fs) (pino : DInode) (nm : Nat → Nat) (sz off : Nat) :
    Option (Option (Nat × Nat) × Fs × DInode) :=
  if off < sz then
    match iread d pino off 16 with
    | none => none
    | some (.error _) => none
    | some (.ok (bytes, d1, pino1)) =>
        if entryInum bytes = 0 then dirLookupFrom d1 pino1 nm sz (off + 16)
        else if nameMatchFrom (fun i => bytes.getD (2 + i) 0) nm 0 then
          some (some (entryInum bytes, off), d1, pino1)
        else dirLookupFrom d1 pino1 nm sz (off + 16)
  else some (none, d, pino)
termination_by sz - off
decreasing_by all_goals omega

/-- `InodeData::dir_lookup`: panics if the inode is not a directory. -/
def dirLookup (d : Fs) (pino : DInode) (nm : Nat → Nat) :
    Option (Option (Nat × Nat) × Fs × DInode) :=
  if pino.itype ≠ InodeType.directory then none
  else dirLookupFrom d pino nm pino.size 0

/-- `InodeData::dir_is_empty` loop from offset `2 * 16` (skipping "."
and ".."): any entry with nonzero inum makes the directory non-empty. -/
def dirIsEmptyFrom (d : Fs) (tino : DInode) (sz off : Nat) :
    Option (Bool × Fs × DInode) :=
  if off < sz then
    match iread d tino off 16 with
    | none => none
    | some (.error _) => none
    | some (.ok (bytes, d1, tino1)) =>
        if entryInum bytes ≠ 0 then some (false, d1, tino1)
        else dirIsEmptyFrom d1 tino1 sz (off + 16)
  else some (true, d, tino)
termination_by sz - off
decreasing_by all_goals omega

def dirIsEmpty (d : Fs) (tino : DInode) : Option (Bool × Fs × DInode) :=
  dirIsEmptyFrom d tino tino.size 32

/-- `InodeData::dir_unlink` (inode.rs): reject "." and ".."; look the
name up (error when absent); panic when the target's link count is below
one; error when the target is a non-empty directory; overwrite the
16-byte entry with `DirEntry::empty()` (all zero) via `iwrite` (panic on
failure); decrement the parent's nlink (and write it back) exactly when
the target is a directory; decrement the target's nlink and write it
back. Returns the final disk plus the in-memory parent and target. -/
def dirUnlink (d : Fs) (pinum : Nat) (pino : DInode) (nm : Nat → Nat) :
    Option (Except Unit (Fs × DInode × DInode)) :=
  if nm 0 = 46 ∧ (nm 1 = 0 ∨ (nm 1 = 46 ∧ nm 2 = 0)) then some (.error ())
  else
    match dirLookup d pino nm with
    | none => none
    | some (none, _, _) => some (.error ())
    | some (some (tinum, off), d1, pino1) =>
        let tino := d1.inodes tinum
        if tino.nlink < 1 then none
        else
          match (if tino.itype = InodeType.directory then dirIsEmpty d1 tino
                 else some (true, d1, tino)) with
          | none => none
          | some (isEmp, d2, tino2) =>
              if tino.itype = InodeType.directory ∧ isEmp = false then
                some (.error ())
              else
                match iwrite d2 pinum pino1 (fun _ => 0) off 16 with
                | none => none
                | some (.error _) => none
                | some (.ok (d3, pino3)) =>
                    let step4 :=
                      if tino2.itype = InodeType.directory then
                        let pino4 : DInode := { pino3 with nlink := pino3.nlink - 1 }
                        (inodeUpdate d3 pinum pino4, pino4)
                      else (d3, pino3)
                    let tino3 : DInode := { tino2 with nlink := tino2.nlink - 1 }
                    some (.ok (inodeUpdate step4.1 tinum tino3, step4.2, tino3))

/-- A 16-byte entry overwrite within the file size, on an entry-aligned
offset whose block is already mapped, writes exactly one block region
and changes nothing else. -/
lemma iwrite_zero_entry (d : Fs) (pinum : Nat) (pino : DInode) (off bnE : Nat)
    (hoff16 : off % 16 = 0) (hoffsz : off + 16 ≤ pino.size)
    (hpsz : pino.size ≤ MAX_FILE_SIZE)
    (hmapped : mapBlockno d pino (off / BSIZE) = some (bnE, pino, d)) :
    iwrite d pinum pino (fun _ => 0) off 16 =
      some (.ok (inodeUpdate (dataWrite d bnE (off % BSIZE) (fun _ => 0) 0 16) pinum pino,
        pino)) := by
  have h16 : min (BSIZE - off % BSIZE) 16 = 16 := by
    simp only [BSIZE]
    omega
  have htry : tryIwrite d pinum pino (fun _ => 0) off 16 =
      some (.ok (16,
        inodeUpdate (dataWrite d bnE (off % BSIZE) (fun _ => 0) 0 16) pinum pino, pino)) := by
    unfold tryIwrite
    rw [if_neg (by omega)]
    rw [if_neg (by
      have hp : (2 : Nat) ^ 32 = 4294967296 := by norm_num
      rw [hp]
      simp only [MAX_FILE_SIZE] at hpsz
      omega)]
    rw [if_neg (by simp only [MAX_FILE_SIZE] at hpsz ⊢; omega)]
    simp only
    rw [if_neg (by decide : ¬ (16 : Nat) = 0)]
    rw [h16]
    rw [hmapped]
    simp only
    rw [Nat.sub_self]
    rw [tryIwriteAligned.eq_def, if_pos rfl]
    simp only
    rw [if_neg (by omega)]
    rw [show off + 16 - off = 16 from by omega]
  unfold iwrite
  rw [htry]
  simp only
  rw [if_pos True.intro]

/-- C5: `dir_unlink` rejects "." and ".." and a non-empty directory
target; on success it overwrites the 16-byte directory entry with
zeroes (`inum := 0`), decrements the target inode's link count and
writes it to disk, and decrements the parent directory's link count
exactly when the target is a directory. The success case assumes the
entry offset is in range and its block is mapped, as `dir_lookup` just
produced the entry there. -/
theorem dir_unlink_spec (d : Fs) (pinum : Nat) (pino : DInode) (nm : Nat → Nat) :
    (nm 0 = 46 ∧ (nm 1 = 0 ∨ (nm 1 = 46 ∧ nm 2 = 0)) →
      dirUnlink d pinum pino nm = some (.error ())) ∧
    (∀ tinum off d1 pino1 d2 tino2,
      ¬(nm 0 = 46 ∧ (nm 1 = 0 ∨ (nm 1 = 46 ∧ nm 2 = 0))) →
      dirLookup d pino nm = some (some (tinum, off), d1, pino1) →
      1 ≤ (d1.inodes tinum).nlink →
      (d1.inodes tinum).itype = InodeType.directory →
      dirIsEmpty d1 (d1.inodes tinum) = some (false, d2, tino2) →
      dirUnlink d pinum pino nm = some (.error ())) ∧
    (∀ tinum off d1 pino1 d2 tino2 bnE,
      ¬(nm 0 = 46 ∧ (nm 1 = 0 ∨ (nm 1 = 46 ∧ nm 2 = 0))) →
      dirLookup d pino nm = some (some (tinum, off), d1, pino1) →
      1 ≤ (d1.inodes tinum).nlink →
      (if (d1.inodes tinum).itype = InodeType.directory
        then dirIsEmpty d1 (d1.inodes tinum)
        else some (true, d1, d1.inodes tinum)) = some (true, d2, tino2) →
      off % 16 = 0 → off + 16 ≤ pino1.size → pino1.size ≤ MAX_FILE_SIZE →
      mapBlockno d2 pino1 (off / BSIZE) = some (bnE, pino1, d2) →
      ∃ dF pinoF tinoF,
        dirUnlink d pinum pino nm = some (.ok (dF, pinoF, tinoF)) ∧
        tinoF.nlink = tino2.nlink - 1 ∧
        dF.inodes tinum = tinoF ∧
        pinoF.nlink = (if tino2.itype = InodeType.directory
          then pino1.nlink - 1 else pino1.nlink) ∧
        (∀ i, i < 16 → dF.blocks bnE (off % BSIZE + i) = 0)) := by
  refine ⟨?_, ?_, ?_⟩
  · intro hdot
    unfold dirUnlink
    rw [if_pos hdot]
  · intro tinum off d1 pino1 d2 tino2 hdot hlook hnl hdir hemp
    unfold dirUnlink
    rw [if_neg hdot, hlook]
    simp only
    rw [if_neg (by omega)]
    rw [if_pos hdir, hemp]
    simp only
    rw [if_pos ⟨hdir, True.intro⟩]
  · intro tinum off d1 pino1 d2 tino2 bnE hdot hlook hnl hstep hoff16 hoffsz hpsz hmapped
    unfold dirUnlink
    rw [if_neg hdot, hlook]
    simp only
    rw [if_neg (by omega)]
    rw [hstep]
    simp only
    rw [if_neg (by simp)]
    rw [iwrite_zero_entry d2 pinum pino1 off bnE hoff16 hoffsz hpsz hmapped]
    simp only
    by_cases hdir2 : tino2.itype = InodeType.directory
    · rw [if_pos hdir2]
      simp only
      refine ⟨_, _, _, rfl, rfl, fnUpdate_same _ _ _, by rw [if_pos hdir2], ?_⟩
      intro i hi
      rw [inodeUpdate_blocks, inodeUpdate_blocks, inodeUpdate_blocks,
        dataWrite_blocks_same]
      rw [blkWriteBytes_in _ _ _ _ _ _ (Nat.le_add_right _ _) (by omega)]
    · rw [if_neg hdir2]
      simp only
      refine ⟨_, _, _, rfl, rfl, fnUpdate_same _ _ _, by rw [if_neg hdir2], ?_⟩
      intro i hi
      rw [inodeUpdate_blocks, inodeUpdate_blocks, dataWrite_blocks_same]
      rw [blkWriteBytes_in _ _ _ _ _ _ (Nat.le_add_right _ _) (by omega)]

def pinoWit5 : DInode :=
  { itype := InodeType.directory
    major := 0
    minor := 0
    nlink := 2
    size := 16
    addrs := fun b => if b = 0 then 5 else 0 }

def pinoWit5b : DInode :=
  { itype := InodeType.directory
    major := 0
    minor := 0
    nlink := 2
    size := 16
    addrs := fun b => if b = 0 then 7 else 0 }

def tinoWit3 : DInode :=
  { itype := InodeType.file
    major := 0
    minor := 0
    nlink := 1
    size := 0
    addrs := fun _ => 0 }

def tinoWit4 : DInode :=
  { itype := InodeType.directory
    major := 0
    minor := 0
    nlink := 2
    size := 48
    addrs := fun b => if b = 0 then 6 else 0 }

def dWit5 : Fs :=
  { totalBlocks := 100
    bitmap := fun bn => bn ≤ 7
    blocks := fun bn i =>
      if bn = 5 then
        if i = 0 then 3 else if i = 2 then 102 else 0
      else if bn = 7 then
        if i = 0 then 4
        else if i = 2 then 115 else if i = 3 then 117 else if i = 4 then 98 else 0
      else if bn = 6 then
        if i = 32 then 3 else 0
      else 0
    inodes := fun inum =>
      if inum = 1 then pinoWit5
      else if inum = 2 then pinoWit5b
      else if inum = 3 then tinoWit3
      else if inum = 4 then tinoWit4
      else ⟨InodeType.empty, 0, 0, 0, 0, fun _ => 0⟩ }

def nmDot : Nat → Nat := fun i => if i = 0 then 46 else 0

def nmF : Nat → Nat := fun i => if i = 0 then 102 else 0

def nmSub : Nat → Nat :=
  fun i => if i = 0 then 115 else if i = 1 then 117 else if i = 2 then 98 else 0

set_option maxRecDepth 8000 in
theorem dir_unlink_spec_witness :
    (nmDot 0 = 46 ∧ (nmDot 1 = 0 ∨ (nmDot 1 = 46 ∧ nmDot 2 = 0))) ∧
    dirUnlink dWit5 1 pinoWit5 nmDot = some (.error ()) ∧
    (¬(nmSub 0 = 46 ∧ (nmSub 1 = 0 ∨ (nmSub 1 = 46 ∧ nmSub 2 = 0)))) ∧
    dirLookup dWit5 pinoWit5b nmSub = some (some (4, 0), dWit5, pinoWit5b) ∧
    1 ≤ (dWit5.inodes 4).nlink ∧
    (dWit5.inodes 4).itype = InodeType.directory ∧
    dirIsEmpty dWit5 (dWit5.inodes 4) = some (false, dWit5, tinoWit4) ∧
    dirUnlink dWit5 2 pinoWit5b nmSub = some (.error ()) ∧
    (¬(nmF 0 = 46 ∧ (nmF 1 = 0 ∨ (nmF 1 = 46 ∧ nmF 2 = 0)))) ∧
    dirLookup dWit5 pinoWit5 nmF = some (some (3, 0), dWit5, pinoWit5) ∧
    1 ≤ (dWit5.inodes 3).nlink ∧
    (if (dWit5.inodes 3).itype = InodeType.directory
      then dirIsEmpty dWit5 (dWit5.inodes 3)
      else some (true, dWit5, dWit5.inodes 3)) = some (true, dWit5, tinoWit3) ∧
    (0 : Nat) % 16 = 0 ∧ 0 + 16 ≤ pinoWit5.size ∧ pinoWit5.size ≤ MAX_FILE_SIZE ∧
    mapBlockno dWit5 pinoWit5 (0 / BSIZE) = some (5, pinoWit5, dWit5) ∧
    (∃ dF pinoF tinoF,
      dirUnlink dWit5 1 pinoWit5 nmF = some (.ok (dF, pinoF, tinoF)) ∧
      tinoF.nlink = tinoWit3.nlink - 1 ∧
      dF.inodes 3 = tinoF ∧
      pinoF.nlink = (if tinoWit3.itype = InodeType.directory
        then pinoWit5.nlink - 1 else pinoWit5.nlink) ∧
      (∀ i, i < 16 → dF.blocks 5 (0 % BSIZE + i) = 0)) := by
  have hrdA : iread dWit5 pinoWit5 0 16 =
      some (.ok ((List.range 16).map (fun i => dWit5.blocks 5 (0 % BSIZE + i)),
        dWit5, pinoWit5)) := by
    unfold iread
    rw [if_neg (by decide)]
    rw [if_neg (by decide)]
    simp only
    rw [if_neg (by decide)]
    rw [show mapBlockno dWit5 pinoWit5 (0 / BSIZE) = some (5, pinoWit5, dWit5) from rfl]
    simp only
    rw [ireadAligned.eq_def]
    rw [if_pos (by decide)]
    rfl
  have hrdB : iread dWit5 pinoWit5b 0 16 =
      some (.ok ((List.range 16).map (fun i => dWit5.blocks 7 (0 % BSIZE + i)),
        dWit5, pinoWit5b)) := by
    unfold iread
    rw [if_neg (by decide)]
    rw [if_neg (by decide)]
    simp only
    rw [if_neg (by decide)]
    rw [show mapBlockno dWit5 pinoWit5b (0 / BSIZE) = some (7, pinoWit5b, dWit5) from rfl]
    simp only
    rw [ireadAligned.eq_def]
    rw [if_pos (by decide)]
    rfl
  have hrdT : iread dWit5 tinoWit4 32 16 =
      some (.ok ((List.range 16).map (fun i => dWit5.blocks 6 (32 % BSIZE + i)),
        dWit5, tinoWit4)) := by
    unfold iread
    rw [if_neg (by decide)]
    rw [if_neg (by decide)]
    simp only
    rw [if_neg (by decide)]
    rw [show mapBlockno dWit5 tinoWit4 (32 / BSIZE) = some (6, tinoWit4, dWit5) from rfl]
    simp only
    rw [ireadAligned.eq_def]
    rw [if_pos (by decide)]
    rfl
  have hlookF : dirLookup dWit5 pinoWit5 nmF = some (some (3, 0), dWit5, pinoWit5) := by
    unfold dirLookup
    rw [if_neg (by decide)]
    rw [dirLookupFrom.eq_def]
    rw [if_pos (by decide)]
    rw [hrdA]
    simp only
    rw [if_neg (by decide)]
    rw [if_pos (by decide)]
    rfl
  have hlookS : dirLookup dWit5 pinoWit5b nmSub =
      some (some (4, 0), dWit5, pinoWit5b) := by
    unfold dirLookup
    rw [if_neg (by decide)]
    rw [dirLookupFrom.eq_def]
    rw [if_pos (by decide)]
    rw [hrdB]
    simp only
    rw [if_neg (by decide)]
    rw [if_pos (by decide)]
    rfl
  have hempS : dirIsEmpty dWit5 (dWit5.inodes 4) = some (false, dWit5, tinoWit4) := by
    show dirIsEmpty dWit5 tinoWit4 = some (false, dWit5, tinoWit4)
    unfold dirIsEmpty
    rw [dirIsEmptyFrom.eq_def]
    rw [if_pos (by decide)]
    rw [hrdT]
    simp only
    rw [if_pos (by decide)]
  refine ⟨⟨rfl, Or.inl rfl⟩,
    (dir_unlink_spec dWit5 1 pinoWit5 nmDot).1 ⟨rfl, Or.inl rfl⟩,
    (by decide), hlookS, (by decide), rfl, hempS,
    (dir_unlink_spec dWit5 2 pinoWit5b nmSub).2.1 4 0 dWit5 pinoWit5b dWit5 tinoWit4
      (by decide) hlookS (by decide) rfl hempS,
    (by decide), hlookF, (by decide), rfl, rfl, (by decide), (by decide), rfl,
    (dir_unlink_spec dWit5 1 pinoWit5 nmF).2.2 3 0 dWit5 pinoWit5 dWit5 tinoWit3 5
      (by decide) hlookF (by decide) rfl rfl (by decide) (by decide) rfl⟩
